import Mathlib

/-!
# cc-quick-profile: profile store and reconciliation engine

A shallow embedding of `models/profile.go`, `claude/claude.go` and
`config/config.go`, followed by the properties of the profile store, of the
credential-store adapter and of the start-up reconciliation.

Conventions of the embedding.

* A Go `string` is a Lean `String`: the texts handled here (names, URLs, keys,
  file contents) are taken to be well-formed Unicode text.
* A Go slice is a `List`; a `nil` slice and an empty slice are both `[]`.
  `encoding/json` tells them apart only in the text it writes (`null` for the
  first, `[]` for the second) and reads both texts back as a slice without
  elements; `json.MarshalIndent` is the text for a slice that is not `nil`,
  `json.MarshalIndentNil` the text for a `nil` one.
* A Go method with a pointer receiver that returns `error` becomes a function
  from the state before to the state after, paired with `Option Err`
  (`none` is Go's `nil` error).
* The outcome of every file-system or OS call is an input of the model
  (`Faults`): an operation is given, for each kind of call it makes, whether
  that call fails.
-/

set_option autoImplicit false

/-! ## `models/profile.go` -/

namespace models

/-- Profile represents a Claude Code profile configuration. -/
structure Profile where
  Name : String
  APIURL : String
  APIKey : String
  Active : Bool
deriving DecidableEq, Repr

/-- Settings represents the application settings. -/
structure Settings where
  Enabled : Bool
  AutoStart : Bool
  Profiles : List Profile
deriving DecidableEq, Repr

/-- NewSettings creates a Settings value with the default values. -/
def NewSettings : Settings :=
  { Enabled := true, AutoStart := false, Profiles := [] }

/-- The loop of `GetActiveProfile` over a profile slice: the first profile, in
stored order, whose `Active` flag is set. -/
def firstActive : List Profile → Option Profile
  | [] => none
  | p :: ps => if p.Active then some p else firstActive ps

/-- GetActiveProfile returns the currently active profile, or `none` (Go: `nil`). -/
def Settings.GetActiveProfile (s : Settings) : Option Profile :=
  firstActive s.Profiles

/-- The loop of `SetActiveProfile`: every profile gets `Active = (Name == name)`. -/
def setActive (name : String) : List Profile → List Profile
  | [] => []
  | p :: ps => { p with Active := decide (p.Name = name) } :: setActive name ps

/-- SetActiveProfile sets the active profile by name and deactivates the others. -/
def Settings.SetActiveProfile (s : Settings) (name : String) : Settings :=
  { s with Profiles := setActive name s.Profiles }

end models

/-! ## JSON documents

Both files the program touches are JSON. `JVal` is a parsed JSON text; the
members of an object are kept in document order, repeated names included. -/

/-- A parsed JSON value. -/
inductive JVal where
  | null
  | bool (b : Bool)
  | num (raw : String)
  | str (s : String)
  | arr (items : List JVal)
  | obj (members : List (String × JVal))
deriving Repr

namespace json

/-! ### `encoding/json`: `MarshalIndent(settings, "", "  ")`

The encoder of the Go standard library, specialised to `*models.Settings` and
its `json:"..."` field tags. -/

/-- The lower-case hexadecimal digit of a number below sixteen. -/
def hexDigit (n : Nat) : Char :=
  if n < 10 then Char.ofNat (48 + n) else Char.ofNat (87 + n)

/-- How the encoder writes one character of a string: `"` and `\` behind a
backslash, the usual short escapes, `\u00xx` for the other control characters
and for `<`, `>`, `&` (HTML escaping is on in `MarshalIndent`), a `\u202x` escape for
the two line separators U+2028 and U+2029, everything else verbatim. -/
def escapeChar (c : Char) : List Char :=
  if c = '"' then ['\\', '"']
  else if c = '\\' then ['\\', '\\']
  else if c = '\x08' then ['\\', 'b']
  else if c = '\x0c' then ['\\', 'f']
  else if c = '\n' then ['\\', 'n']
  else if c = '\r' then ['\\', 'r']
  else if c = '\t' then ['\\', 't']
  else if c.toNat < 32 ∨ c = '<' ∨ c = '>' ∨ c = '&' then
    ['\\', 'u', '0', '0', hexDigit (c.toNat / 16), hexDigit (c.toNat % 16)]
  else if c = '\u2028' ∨ c = '\u2029' then
    ['\\', 'u', '2', '0', '2', hexDigit (c.toNat % 16)]
  else [c]

/-- The characters between the quotes of an encoded string. -/
def escapeChars : List Char → List Char
  | [] => []
  | c :: cs => escapeChar c ++ escapeChars cs

/-- A string as the encoder writes it, quotes included. -/
def encodeString (s : String) : List Char :=
  '"' :: (escapeChars s.data ++ ['"'])

/-- A boolean as the encoder writes it. -/
def encodeBool (b : Bool) : List Char :=
  if b then "true".data else "false".data

/-- One profile, an element of the `profiles` array: the object opens at
depth two (four spaces) and its members sit at depth three (six spaces). -/
def encodeProfile (p : models.Profile) : List Char :=
  "\x7b\n      \"name\": ".data ++ encodeString p.Name
    ++ ",\n      \"apiUrl\": ".data ++ encodeString p.APIURL
    ++ ",\n      \"apiKey\": ".data ++ encodeString p.APIKey
    ++ ",\n      \"active\": ".data ++ encodeBool p.Active
    ++ "\n    \x7d".data

/-- The elements of a non-empty array after the first: each follows a comma
and a new line at depth two. -/
def encodeMoreProfiles : List models.Profile → List Char
  | [] => []
  | p :: ps => ",\n    ".data ++ encodeProfile p ++ encodeMoreProfiles ps

/-- The `profiles` array: `[]` when empty, otherwise one element per line. -/
def encodeProfiles : List models.Profile → List Char
  | [] => "[]".data
  | p :: ps =>
      "[\n    ".data ++ encodeProfile p ++ encodeMoreProfiles ps ++ "\n  ]".data

/-- The text `json.MarshalIndent(settings, "", "  ")` produces. -/
def MarshalIndent (s : models.Settings) : String :=
  String.mk
    ("\x7b\n  \"enabled\": ".data ++ encodeBool s.Enabled
      ++ ",\n  \"autoStart\": ".data ++ encodeBool s.AutoStart
      ++ ",\n  \"profiles\": ".data ++ encodeProfiles s.Profiles
      ++ "\n\x7d".data)

/-- The text `json.MarshalIndent(settings, "", "  ")` produces for settings
whose `Profiles` is the `nil` slice: `null` stands where a slice that is empty
but not `nil` gives `[]`. -/
def MarshalIndentNil (s : models.Settings) : String :=
  String.mk
    ("\x7b\n  \"enabled\": ".data ++ encodeBool s.Enabled
      ++ ",\n  \"autoStart\": ".data ++ encodeBool s.AutoStart
      ++ ",\n  \"profiles\": null\n\x7d".data)

/-! ### `encoding/json`: `Unmarshal(data, settings)`

The decoder reads one JSON value, surrounded by optional white space, and
stores it into the struct. The reader below follows the grammar the scanner of
the standard library accepts, including its limit on the nesting of objects
and arrays; recursion is bounded by a fuel counter, and `Unmarshal` supplies
more fuel than the text has characters. -/

/-- The four white-space characters of JSON. -/
def isSpace (c : Char) : Bool :=
  c = ' ' || c = '\t' || c = '\r' || c = '\n'

/-- Drop leading white space. -/
def skipSpace : List Char → List Char
  | [] => []
  | c :: cs => if isSpace c then skipSpace cs else c :: cs

/-- The value of a hexadecimal digit, either case. -/
def hexVal (c : Char) : Option Nat :=
  if '0' ≤ c ∧ c ≤ '9' then some (c.toNat - 48)
  else if 'a' ≤ c ∧ c ≤ 'f' then some (c.toNat - 87)
  else if 'A' ≤ c ∧ c ≤ 'F' then some (c.toNat - 55)
  else none

/-- Read the four hexadecimal digits of a `\u` escape (`getu4`). -/
def getu4 : List Char → Option (Nat × List Char)
  | a :: b :: c :: d :: rest =>
      match hexVal a, hexVal b, hexVal c, hexVal d with
      | some x, some y, some z, some w => some (((x * 16 + y) * 16 + z) * 16 + w, rest)
      | _, _, _, _ => none
  | _ => none

/-- The replacement character U+FFFD. -/
def replacementChar : Char := '\uFFFD'

/-- Read one character of a string body, after a backslash has been seen.
A `\u` escape that names half of a surrogate pair is joined with a following
`\u` escape naming the other half; a lone half becomes U+FFFD. -/
def readEscape : List Char → Option (Char × List Char)
  | '"' :: r => some ('"', r)
  | '\\' :: r => some ('\\', r)
  | '/' :: r => some ('/', r)
  | 'b' :: r => some ('\x08', r)
  | 'f' :: r => some ('\x0c', r)
  | 'n' :: r => some ('\n', r)
  | 'r' :: r => some ('\r', r)
  | 't' :: r => some ('\t', r)
  | 'u' :: r =>
      match getu4 r with
      | none => none
      | some (rr, r1) =>
          if 0xD800 ≤ rr ∧ rr < 0xE000 then
            match r1 with
            | '\\' :: 'u' :: r2 =>
                match getu4 r2 with
                | some (rr1, r3) =>
                    if rr < 0xDC00 ∧ 0xDC00 ≤ rr1 ∧ rr1 < 0xE000 then
                      some (Char.ofNat ((rr - 0xD800) * 1024 + (rr1 - 0xDC00) + 0x10000), r3)
                    else some (replacementChar, r1)
                | none => some (replacementChar, r1)
            | _ => some (replacementChar, r1)
          else some (Char.ofNat rr, r1)
  | _ => none

/-- Read a string body up to its closing quote; `acc` holds the characters
read so far. Control characters may not appear unescaped. -/
def readString : Nat → List Char → List Char → Option (String × List Char)
  | 0, _, _ => none
  | _ + 1, [], _ => none
  | n + 1, c :: cs, acc =>
      if c = '"' then some (String.mk acc, cs)
      else if c = '\\' then
        match readEscape cs with
        | some (d, r) => readString n r (acc ++ [d])
        | none => none
      else if c.toNat < 32 then none
      else readString n cs (acc ++ [c])

/-- Split off the leading decimal digits. -/
def takeDigits : List Char → List Char × List Char
  | [] => ([], [])
  | c :: cs =>
      if c.isDigit then ((takeDigits cs).1.cons c, (takeDigits cs).2) else ([], c :: cs)

/-- Read a number: optional minus, integer part without a leading zero,
optional fraction, optional exponent. Returns the text of the number. -/
def readNumber (cs : List Char) : Option (String × List Char) :=
  let sign : List Char × List Char :=
    match cs with
    | '-' :: r => (['-'], r)
    | _ => ([], cs)
  let int : Option (List Char × List Char) :=
    match sign.2 with
    | '0' :: r => some (['0'], r)
    | d :: r => if d.isDigit then some ((takeDigits r).1.cons d, (takeDigits r).2) else none
    | [] => none
  match int with
  | none => none
  | some (ip, r1) =>
      let frac : Option (List Char × List Char) :=
        match r1 with
        | '.' :: r =>
            if (takeDigits r).1 = [] then none else some ((takeDigits r).1.cons '.', (takeDigits r).2)
        | _ => some ([], r1)
      match frac with
      | none => none
      | some (fp, r2) =>
          let exp : Option (List Char × List Char) :=
            match r2 with
            | e :: r =>
                if e = 'e' ∨ e = 'E' then
                  let sg : List Char × List Char :=
                    match r with
                    | '+' :: r3 => (['+'], r3)
                    | '-' :: r3 => (['-'], r3)
                    | _ => ([], r)
                  if (takeDigits sg.2).1 = [] then none
                  else some ((e :: sg.1) ++ (takeDigits sg.2).1, (takeDigits sg.2).2)
                else some ([], r2)
            | [] => some ([], r2)
          match exp with
          | none => none
          | some (ep, r4) => some (String.mk (sign.1 ++ ip ++ fp ++ ep), r4)

/-- The scanner refuses a text ("exceeded max depth") in which objects and
arrays are nested more than this many levels deep (`maxNestingDepth`). -/
def maxNestingDepth : Nat := 10000

mutual
/-- Read one JSON value, leading white space allowed; `depth` is the number of
objects and arrays that are open around it. -/
def readValue : Nat → Nat → List Char → Option (JVal × List Char)
  | 0, _, _ => none
  | n + 1, depth, cs =>
      match skipSpace cs with
      | '{' :: r =>
          if depth < maxNestingDepth then
            match skipSpace r with
            | '}' :: r1 => some (JVal.obj [], r1)
            | _ => readMembers n (depth + 1) r []
          else none
      | '[' :: r =>
          if depth < maxNestingDepth then
            match skipSpace r with
            | ']' :: r1 => some (JVal.arr [], r1)
            | _ => readItems n (depth + 1) r []
          else none
      | '"' :: r =>
          match readString (r.length + 1) r [] with
          | some (s, r1) => some (JVal.str s, r1)
          | none => none
      | 't' :: 'r' :: 'u' :: 'e' :: r => some (JVal.bool true, r)
      | 'f' :: 'a' :: 'l' :: 's' :: 'e' :: r => some (JVal.bool false, r)
      | 'n' :: 'u' :: 'l' :: 'l' :: r => some (JVal.null, r)
      | c :: r =>
          match readNumber (c :: r) with
          | some (t, r1) => some (JVal.num t, r1)
          | none => none
      | [] => none
/-- Read the members of an object after its opening brace, up to and
including the closing brace; `depth` counts the open objects and arrays, this
one included, and `acc` holds the members read so far. -/
def readMembers : Nat → Nat → List Char → List (String × JVal) → Option (JVal × List Char)
  | 0, _, _, _ => none
  | n + 1, depth, cs, acc =>
      match skipSpace cs with
      | '"' :: r =>
          match readString (r.length + 1) r [] with
          | some (k, r1) =>
              match skipSpace r1 with
              | ':' :: r2 =>
                  match readValue n depth r2 with
                  | some (v, r3) =>
                      match skipSpace r3 with
                      | ',' :: r4 => readMembers n depth r4 (acc ++ [(k, v)])
                      | '}' :: r4 => some (JVal.obj (acc ++ [(k, v)]), r4)
                      | _ => none
                  | none => none
              | _ => none
          | none => none
      | _ => none
/-- Read the elements of an array after its opening bracket, up to and
including the closing bracket; `depth` counts the open objects and arrays,
this one included, and `acc` holds the elements read so far. -/
def readItems : Nat → Nat → List Char → List JVal → Option (JVal × List Char)
  | 0, _, _, _ => none
  | n + 1, depth, cs, acc =>
      match readValue n depth cs with
      | some (v, r) =>
          match skipSpace r with
          | ',' :: r1 => readItems n depth r1 (acc ++ [v])
          | ']' :: r1 => some (JVal.arr (acc ++ [v]), r1)
          | _ => none
      | none => none
end

/-- Read a whole text: one value, then nothing but white space. -/
def parse (text : String) : Option JVal :=
  match readValue (text.data.length + 1) 0 text.data with
  | some (v, r) => if skipSpace r = [] then some v else none
  | none => none

/-- Case folding of one character of an object key (`foldName`): ASCII
letters go to upper case, and the two non-ASCII characters whose simple case
fold is an ASCII letter (long s, Kelvin sign) go to that letter. -/
def foldChar (c : Char) : Char :=
  if 'a' ≤ c ∧ c ≤ 'z' then Char.ofNat (c.toNat - 32)
  else if c = '\u017F' then 'S'
  else if c = '\u212A' then 'K'
  else c

/-- A key names a struct field when the two are equal up to case folding. -/
def keyIs (key field : String) : Bool :=
  decide (key.data.map foldChar = field.data.map foldChar)

/-- Store a JSON value into a `bool` field: `null` leaves it, a boolean sets
it, anything else is a type error. -/
def decodeBool (old : Bool) : JVal → Option Bool
  | JVal.null => some old
  | JVal.bool b => some b
  | _ => none

/-- Store a JSON value into a `string` field. -/
def decodeString (old : String) : JVal → Option String
  | JVal.null => some old
  | JVal.str s => some s
  | _ => none

/-- Store one object member into a `Profile`; unknown keys are ignored. -/
def decodeProfileField (p : models.Profile) (m : String × JVal) : Option models.Profile :=
  if keyIs m.1 "name" then (decodeString p.Name m.2).map (fun x => { p with Name := x })
  else if keyIs m.1 "apiUrl" then (decodeString p.APIURL m.2).map (fun x => { p with APIURL := x })
  else if keyIs m.1 "apiKey" then (decodeString p.APIKey m.2).map (fun x => { p with APIKey := x })
  else if keyIs m.1 "active" then (decodeBool p.Active m.2).map (fun x => { p with Active := x })
  else some p

/-- Store the members of an object, in document order. -/
def decodeProfileFields : models.Profile → List (String × JVal) → Option models.Profile
  | p, [] => some p
  | p, m :: ms =>
      match decodeProfileField p m with
      | some q => decodeProfileFields q ms
      | none => none

/-- The zero value of `Profile`. -/
def zeroProfile : models.Profile :=
  { Name := "", APIURL := "", APIKey := "", Active := false }

/-- Store a JSON value into the `Profile` held by a slice element: `null`
leaves the element as it is, an object stores its members over the fields the
element has. -/
def decodeProfile (element : models.Profile) : JVal → Option models.Profile
  | JVal.null => some element
  | JVal.obj ms => decodeProfileFields element ms
  | _ => none

/-- Store the elements of an array into a `[]Profile`, one slice element after
the other. `backing` is what the backing array of the slice holds from the
current index on: the element at an index the array already has is decoded
over what that slot holds, an element beyond it over the zero `Profile`. -/
def decodeProfileItems : List models.Profile → List JVal → Option (List models.Profile)
  | _, [] => some []
  | backing, v :: vs =>
      match decodeProfile (backing.headD zeroProfile) v, decodeProfileItems backing.tail vs with
      | some p, some ps => some (p :: ps)
      | _, _ => none

/-- Store a JSON value into the `Profiles` field. `old` is the slice before and
`spare` what its backing array holds behind it; the result is the slice
afterwards with what the backing array then holds behind it. `null` sets the
slice to `nil`, an empty array sets it to a new empty slice, and an array with
elements is decoded into the backing array of the slice, which is then cut to
the number of elements read. -/
def decodeProfiles (old spare : List models.Profile) :
    JVal → Option (List models.Profile × List models.Profile)
  | JVal.null => some ([], [])
  | JVal.arr [] => some ([], [])
  | JVal.arr (v :: vs) =>
      match decodeProfileItems (old ++ spare) (v :: vs) with
      | some ps => some (ps, (old ++ spare).drop ps.length)
      | none => none
  | _ => none

/-- Store one object member into a `Settings`; unknown keys are ignored. The
state is the struct together with what the backing array of `Profiles` holds
behind the slice. -/
def decodeSettingsField (s : models.Settings × List models.Profile) (m : String × JVal) :
    Option (models.Settings × List models.Profile) :=
  if keyIs m.1 "enabled" then
    (decodeBool s.1.Enabled m.2).map (fun x => ({ s.1 with Enabled := x }, s.2))
  else if keyIs m.1 "autoStart" then
    (decodeBool s.1.AutoStart m.2).map (fun x => ({ s.1 with AutoStart := x }, s.2))
  else if keyIs m.1 "profiles" then
    (decodeProfiles s.1.Profiles s.2 m.2).map (fun x => ({ s.1 with Profiles := x.1 }, x.2))
  else some s

/-- Store the members of the top-level object, in document order. -/
def decodeSettingsFields : models.Settings × List models.Profile → List (String × JVal) →
    Option (models.Settings × List models.Profile)
  | s, [] => some s
  | s, m :: ms =>
      match decodeSettingsField s m with
      | some t => decodeSettingsFields t ms
      | none => none

/-- Store a JSON value into `&models.Settings{}`. -/
def decodeSettings : JVal → Option models.Settings
  | JVal.null => some { Enabled := false, AutoStart := false, Profiles := [] }
  | JVal.obj ms =>
      (decodeSettingsFields ({ Enabled := false, AutoStart := false, Profiles := [] }, []) ms).map
        (fun s => s.1)
  | _ => none

/-- The result of `json.Unmarshal(data, &models.Settings{})`: `none` when the
text is not JSON or does not fit the struct. -/
def Unmarshal (text : String) : Option models.Settings :=
  match parse text with
  | some v => decodeSettings v
  | none => none

end json

/-! ## `tidwall/gjson` and `tidwall/sjson`

`claude.go` reads and patches the credential store with `gjson.GetBytes`,
`sjson.SetBytes` and `sjson.DeleteBytes` at dotted paths. The three functions
below give their effect on a parsed document, for paths whose segments are
plain member names (no index, wildcard or modifier), which is what
`env.ANTHROPIC_AUTH_TOKEN` and `env.ANTHROPIC_BASE_URL` are. -/

/-- The value of the first member with the given name. -/
def findMember (k : String) : List (String × JVal) → Option JVal
  | [] => none
  | m :: ms => if m.1 = k then some m.2 else findMember k ms

/-- Replace the value of the first member with the given name. -/
def replaceMember (k : String) (v : JVal) : List (String × JVal) → List (String × JVal)
  | [] => []
  | m :: ms => if m.1 = k then (k, v) :: ms else m :: replaceMember k v ms

/-- Remove the first member with the given name. -/
def removeMember (k : String) : List (String × JVal) → List (String × JVal)
  | [] => []
  | m :: ms => if m.1 = k then ms else m :: removeMember k ms

namespace gjson

/-- The scan of `gjson.Get` through the members of an object: a member whose
name is the first path segment is a hit when the path ends there; when the
path goes on, the search descends into the member and, finding nothing,
resumes with the members that follow. `descend` is the search for the rest of
the path. -/
def scan (k : String) (last : Bool) (descend : JVal → Option JVal) :
    List (String × JVal) → Option JVal
  | [] => none
  | m :: ms =>
      if m.1 = k then
        if last then some m.2
        else
          match descend m.2 with
          | some v => some v
          | none => scan k last descend ms
      else scan k last descend ms

/-- The value `gjson.Get` finds at a path, `none` when the result does not
exist. Only objects have named members. -/
def Get : List String → JVal → Option JVal
  | [], _ => none
  | k :: rest, JVal.obj ms => scan k rest.isEmpty (Get rest) ms
  | _ :: _, _ => none

end gjson

namespace sjson

/-- The fresh nesting `sjson` writes for the part of a path that does not
exist yet. -/
def build : List String → JVal → JVal
  | [], v => v
  | k :: rest, v => JVal.obj [(k, build rest v)]

/-- The document after `sjson.Set` of `v` at a path; `none` is an error. At each
level the first member with the segment's name is followed (and, at the end of
the path, overwritten); when there is none, the rest of the path is appended
as the last member. A value that is neither object nor array is replaced by a
fresh object; an array cannot take a named member. -/
def setAt : List String → JVal → JVal → Option JVal
  | [], _, v => some v
  | k :: rest, JVal.obj ms, v =>
      match findMember k ms with
      | some old =>
          match setAt rest old v with
          | some new => some (JVal.obj (replaceMember k new ms))
          | none => none
      | none => some (JVal.obj (ms ++ [(k, build rest v)]))
  | _ :: _, JVal.arr _, _ => none
  | k :: rest, _, v => some (JVal.obj [(k, build rest v)])

/-- The result of `sjson.SetBytes(data, path, value)` with a string value. An empty path is
an error. -/
def Set (path : List String) (doc : JVal) (value : String) : Option JVal :=
  if path.isEmpty then none else setAt path doc (JVal.str value)

/-- The document after `sjson.Delete` at a path: the first member with each
segment's name is followed and, at the end of the path, removed. A path that
leads nowhere leaves the document as it is, without error. -/
def Delete : List String → JVal → JVal
  | [], d => d
  | k :: rest, JVal.obj ms =>
      match findMember k ms with
      | some old =>
          if rest.isEmpty then JVal.obj (removeMember k ms)
          else JVal.obj (replaceMember k (Delete rest old) ms)
      | none => JVal.obj ms
  | _ :: _, d => d

end sjson

/-! ## Errors and the outcome of system calls -/

/-- The errors the operations return. `wrap` is `fmt.Errorf("...: %w", err)`. -/
inductive Err where
  | notExist
  | failed (call : String)
  | invalidJSON
  | cannotSet
  | alreadyExists (name : String)
  | notFound (name : String)
  | wrap (context : String) (cause : Err)
deriving DecidableEq, Repr

/-- Which system calls fail while one operation runs. Every flag stands for
all calls of its kind the operation makes. -/
structure Faults where
  readSettings : Bool
  writeSettings : Bool
  readClaude : Bool
  writeClaude : Bool
  autostartStatus : Bool
  autostartChange : Bool
deriving DecidableEq, Repr

/-- No system call fails. -/
def Faults.noFaults : Faults :=
  { readSettings := false, writeSettings := false, readClaude := false,
    writeClaude := false, autostartStatus := false, autostartChange := false }

/-! ## `claude/claude.go`

The state of a `claude.Manager` is the document stored at `settingsPath`. -/

namespace claude

/-- The path `env.ANTHROPIC_AUTH_TOKEN`. -/
def tokenPath : List String := ["env", "ANTHROPIC_AUTH_TOKEN"]

/-- The path `env.ANTHROPIC_BASE_URL`. -/
def baseURLPath : List String := ["env", "ANTHROPIC_BASE_URL"]

/-- HasAuthToken checks if ANTHROPIC_AUTH_TOKEN exists in env. -/
def HasAuthToken (f : Faults) (file : JVal) : Except Err Bool :=
  if f.readClaude then Except.error (Err.wrap "failed to read settings file" (Err.failed "ReadFile"))
  else Except.ok (gjson.Get tokenPath file).isSome

/-- HasBaseURL checks if ANTHROPIC_BASE_URL exists in env. -/
def HasBaseURL (f : Faults) (file : JVal) : Except Err Bool :=
  if f.readClaude then Except.error (Err.wrap "failed to read settings file" (Err.failed "ReadFile"))
  else Except.ok (gjson.Get baseURLPath file).isSome

/-- HasAuthConfig checks if both ANTHROPIC_AUTH_TOKEN and ANTHROPIC_BASE_URL exist. -/
def HasAuthConfig (f : Faults) (file : JVal) : Except Err Bool :=
  match HasAuthToken f file with
  | Except.error e => Except.error e
  | Except.ok hasToken =>
      match HasBaseURL f file with
      | Except.error e => Except.error e
      | Except.ok hasURL => Except.ok (hasToken && hasURL)

/-- SetAuthConfig sets both ANTHROPIC_AUTH_TOKEN and ANTHROPIC_BASE_URL.
Returns the document afterwards and the error. -/
def SetAuthConfig (f : Faults) (file : JVal) (apiKey apiURL : String) : JVal × Option Err :=
  if f.readClaude then
    (file, some (Err.wrap "failed to read settings file" (Err.failed "ReadFile")))
  else
    match sjson.Set tokenPath file apiKey with
    | none => (file, some (Err.wrap "failed to set auth token" Err.cannotSet))
    | some updatedData =>
        match sjson.Set baseURLPath updatedData apiURL with
        | none => (file, some (Err.wrap "failed to set base URL" Err.cannotSet))
        | some updatedData2 =>
            if f.writeClaude then
              (file, some (Err.wrap "failed to write settings file" (Err.failed "WriteFile")))
            else (updatedData2, none)

/-- RemoveAuthConfig removes both ANTHROPIC_AUTH_TOKEN and ANTHROPIC_BASE_URL.
Returns the document afterwards and the error. -/
def RemoveAuthConfig (f : Faults) (file : JVal) : JVal × Option Err :=
  if f.readClaude then
    (file, some (Err.wrap "failed to read settings file" (Err.failed "ReadFile")))
  else if f.writeClaude then
    (file, some (Err.wrap "failed to write settings file" (Err.failed "WriteFile")))
  else (sjson.Delete baseURLPath (sjson.Delete tokenPath file), none)

end claude

/-! ## `config/config.go` -/

namespace config

/-- What lies outside the process: the settings file at `configPath` (`none`
when it does not exist), the document of the credential store, whether the
auto-start registration exists, and a count of the calls of `Save` made so far. -/
structure World where
  settingsFile : Option String
  claudeFile : JVal
  autostartOn : Bool
  saveCalls : Nat

/-- Manager handles loading and saving application settings: the settings in
memory, and the world its `configPath`, `claudeManager` and
`autostartManager` point into. -/
structure Manager where
  settings : models.Settings
  world : World

/-- Load reads the configuration from disk. -/
def Manager.Load (f : Faults) (m : Manager) : Manager × Option Err :=
  match m.world.settingsFile with
  | none => (m, some Err.notExist)
  | some data =>
      if f.readSettings then (m, some (Err.failed "ReadFile"))
      else
        match json.Unmarshal data with
        | none => (m, some (Err.wrap "failed to parse config" Err.invalidJSON))
        | some settings => ({ m with settings := settings }, none)

/-- Save writes the current configuration to disk: the text of
`json.MarshalIndent`, which is what Go writes for a list of profiles that is not
`nil` (see `json.MarshalIndentNil` for the other text). -/
def Manager.Save (f : Faults) (m : Manager) : Manager × Option Err :=
  if f.writeSettings then
    ({ m with world := { m.world with saveCalls := m.world.saveCalls + 1 } },
      some (Err.wrap "failed to write config" (Err.failed "WriteFile")))
  else
    ({ m with world := { m.world with
          settingsFile := some (json.MarshalIndent m.settings)
          saveCalls := m.world.saveCalls + 1 } }, none)

/-- GetSettings returns the current settings. -/
def Manager.GetSettings (m : Manager) : models.Settings := m.settings

/-- The check at the head of `AddProfile`: some profile has the same name. -/
def hasName (name : String) : List models.Profile → Bool
  | [] => false
  | p :: ps => if p.Name = name then true else hasName name ps

/-- AddProfile adds a new profile to the configuration. -/
def Manager.AddProfile (f : Faults) (m : Manager) (profile : models.Profile) :
    Manager × Option Err :=
  if hasName profile.Name m.settings.Profiles then
    (m, some (Err.alreadyExists profile.Name))
  else
    Manager.Save f { m with settings := { m.settings with
      Profiles := m.settings.Profiles ++ [profile] } }

/-- The loop of `DeleteProfile`: the profiles kept, and whether one was dropped. -/
def deleteLoop (name : String) : List models.Profile → List models.Profile × Bool
  | [] => ([], false)
  | p :: ps =>
      if p.Name ≠ name then ((deleteLoop name ps).1.cons p, (deleteLoop name ps).2)
      else ((deleteLoop name ps).1, true)

/-- DeleteProfile removes a profile by name. -/
def Manager.DeleteProfile (f : Faults) (m : Manager) (name : String) : Manager × Option Err :=
  if (deleteLoop name m.settings.Profiles).2 = false then
    (m, some (Err.notFound name))
  else
    Manager.Save f { m with settings := { m.settings with
      Profiles := (deleteLoop name m.settings.Profiles).1 } }

/-- The loop of `UpdateProfile`: the first profile with the name is overwritten
and the loop stops; the flag tells whether that happened. -/
def updateLoop (name : String) (updated : models.Profile) :
    List models.Profile → List models.Profile × Bool
  | [] => ([], false)
  | p :: ps =>
      if p.Name = name then (updated :: ps, true)
      else ((updateLoop name updated ps).1.cons p, (updateLoop name updated ps).2)

/-- UpdateProfile updates an existing profile. -/
def Manager.UpdateProfile (f : Faults) (m : Manager) (name : String)
    (updated : models.Profile) : Manager × Option Err :=
  if (updateLoop name updated m.settings.Profiles).2 = false then
    (m, some (Err.notFound name))
  else
    Manager.Save f { m with settings := { m.settings with
      Profiles := (updateLoop name updated m.settings.Profiles).1 } }

/-- SetEnabled sets the global enabled state and updates Claude settings. -/
def Manager.SetEnabled (f : Faults) (m : Manager) (enabled : Bool) : Manager × Option Err :=
  let m1 : Manager := { m with settings := { m.settings with Enabled := enabled } }
  if enabled then
    match m1.settings.GetActiveProfile with
    | some activeProfile =>
        match claude.SetAuthConfig f m1.world.claudeFile activeProfile.APIKey activeProfile.APIURL with
        | (_, some err) => (m1, some (Err.wrap "failed to set Claude auth config" err))
        | (file, none) => Manager.Save f { m1 with world := { m1.world with claudeFile := file } }
    | none => Manager.Save f m1
  else
    match claude.RemoveAuthConfig f m1.world.claudeFile with
    | (_, some err) => (m1, some (Err.wrap "failed to remove Claude auth config" err))
    | (file, none) => Manager.Save f { m1 with world := { m1.world with claudeFile := file } }

/-- SetActiveProfile activates a profile by name and updates Claude settings. -/
def Manager.SetActiveProfile (f : Faults) (m : Manager) (name : String) : Manager × Option Err :=
  let m1 : Manager := { m with settings := m.settings.SetActiveProfile name }
  if m1.settings.Enabled then
    match m1.settings.GetActiveProfile with
    | some activeProfile =>
        match claude.SetAuthConfig f m1.world.claudeFile activeProfile.APIKey activeProfile.APIURL with
        | (_, some err) => (m1, some (Err.wrap "failed to set Claude auth config" err))
        | (file, none) => Manager.Save f { m1 with world := { m1.world with claudeFile := file } }
    | none => Manager.Save f m1
  else Manager.Save f m1

/-- SetAutoStart sets the auto-start state and updates system auto-start
configuration. `Enable` creates the registration and `Disable` removes it;
either may fail. -/
def Manager.SetAutoStart (f : Faults) (m : Manager) (enabled : Bool) : Manager × Option Err :=
  let m1 : Manager := { m with settings := { m.settings with AutoStart := enabled } }
  if f.autostartChange then
    (m1, some (Err.wrap (if enabled then "failed to enable autostart" else "failed to disable autostart")
      (Err.failed "autostart")))
  else Manager.Save f { m1 with world := { m1.world with autostartOn := enabled } }

/-- The first part of `NewManager`, once the paths and the two collaborators
are set up: load the settings file, or create it with defaults when it does
not exist. -/
def loadOrCreate (f : Faults) (w : World) : Except Err Manager :=
  match Manager.Load f { settings := models.NewSettings, world := w } with
  | (m, none) => Except.ok m
  | (_, some Err.notExist) =>
      match claude.HasAuthConfig f w.claudeFile with
      | Except.error e => Except.error (Err.wrap "failed to check Claude auth config" e)
      | Except.ok hasAuthConfig =>
          match Manager.Save f { settings := { models.NewSettings with Enabled := hasAuthConfig },
                                 world := w } with
          | (m, none) => Except.ok m
          | (_, some e) => Except.error (Err.wrap "failed to save default config" e)
  | (_, some e) => Except.error (Err.wrap "failed to load config" e)

/-- The second part of `NewManager`, the start-up reconciliation: the observed
state of the credential store and of the auto-start registration overwrite the
two declared flags, and the settings are saved when a flag changed. -/
def reconcile (f : Faults) (m : Manager) : Manager × Option Err :=
  match claude.HasAuthConfig f m.world.claudeFile with
  | Except.error e => (m, some (Err.wrap "failed to check Claude auth config" e))
  | Except.ok hasAuthConfig =>
      if f.autostartStatus then
        (m, some (Err.wrap "failed to check autostart status" (Err.failed "autostart")))
      else
        let autostartEnabled := m.world.autostartOn
        let afterEnabled : models.Settings × Bool :=
          if m.settings.Enabled ≠ hasAuthConfig then
            ({ m.settings with Enabled := hasAuthConfig }, true)
          else (m.settings, false)
        let afterAutoStart : models.Settings × Bool :=
          if afterEnabled.1.AutoStart ≠ autostartEnabled then
            ({ afterEnabled.1 with AutoStart := autostartEnabled }, true)
          else afterEnabled
        if afterAutoStart.2 then
          match Manager.Save f { m with settings := afterAutoStart.1 } with
          | (m1, some e) => (m1, some (Err.wrap "failed to save updated config" e))
          | (m1, none) => (m1, none)
        else ({ m with settings := afterAutoStart.1 }, none)

/-- NewManager creates a new configuration manager. -/
def NewManager (f : Faults) (w : World) : Except Err Manager :=
  match loadOrCreate f w with
  | Except.error e => Except.error e
  | Except.ok m =>
      match reconcile f m with
      | (m1, none) => Except.ok m1
      | (_, some e) => Except.error e

/-! ### Sequences of calls -/

/-- A call of one of the mutating methods of `Manager`. -/
inductive Call where
  | AddProfile (profile : models.Profile)
  | DeleteProfile (name : String)
  | UpdateProfile (name : String) (updated : models.Profile)
  | SetEnabled (enabled : Bool)
  | SetActiveProfile (name : String)
  | SetAutoStart (enabled : Bool)
deriving DecidableEq, Repr

/-- Perform one call. -/
def step (f : Faults) (m : Manager) : Call → Manager × Option Err
  | Call.AddProfile p => m.AddProfile f p
  | Call.DeleteProfile name => m.DeleteProfile f name
  | Call.UpdateProfile name p => m.UpdateProfile f name p
  | Call.SetEnabled b => m.SetEnabled f b
  | Call.SetActiveProfile name => m.SetActiveProfile f name
  | Call.SetAutoStart b => m.SetAutoStart f b

/-- Perform a sequence of calls, each under its own faults, whatever they return. -/
def run (m : Manager) : List (Faults × Call) → Manager
  | [] => m
  | c :: cs => run (step c.1 m c.2).1 cs

/-- Perform a sequence of calls as long as they succeed: `none` as soon as one
returns an error. -/
def runOk (m : Manager) : List (Faults × Call) → Option Manager
  | [] => some m
  | c :: cs =>
      match step c.1 m c.2 with
      | (m1, none) => runOk m1 cs
      | (_, some _) => none

end config

/-! ## Vocabulary of the properties -/

/-- The number of profiles whose `Active` flag is set. -/
def activeCount : List models.Profile → Nat
  | [] => 0
  | p :: ps => (if p.Active then 1 else 0) + activeCount ps

/-- A call that edits the profile list with a profile argument, if any, whose
`Active` flag is not set. -/
def config.Call.isPassiveEdit : config.Call → Bool
  | config.Call.AddProfile p => !p.Active
  | config.Call.DeleteProfile _ => true
  | config.Call.UpdateProfile _ p => !p.Active
  | _ => false

/-- A call that edits the profile list. -/
def config.Call.isEdit : config.Call → Bool
  | config.Call.AddProfile _ => true
  | config.Call.DeleteProfile _ => true
  | config.Call.UpdateProfile _ _ => true
  | _ => false

/-- The number of members with the given name. -/
def countName (k : String) : List (String × JVal) → Nat
  | [] => 0
  | m :: ms => (if m.1 = k then 1 else 0) + countName k ms

/-- What `gjson.scan` still finds among the members that follow the first
member named `e`. -/
def laterHits (e : String) (descend : JVal → Option JVal) :
    List (String × JVal) → Option JVal
  | [] => none
  | m :: ms => if m.1 = e then gjson.scan e false descend ms else laterHits e descend ms

/-- How often the name `k` occurs among the members of a value; zero when the
value is not an object. -/
def memberCount (k : String) : JVal → Nat
  | JVal.obj inner => countName k inner
  | _ => 0

/-- How often the name `k` occurs in the first member named `e`. -/
def firstCount (e k : String) (ms : List (String × JVal)) : Nat :=
  match findMember e ms with
  | some v => memberCount k v
  | none => 0

/-- The field `e.k` is within reach of `sjson`: it occurs at most once in the
first member named `e` and not at all in later members of that name. -/
def tidy (e k : String) : JVal → Prop
  | JVal.obj ms => laterHits e (gjson.Get [k]) ms = none ∧ firstCount e k ms ≤ 1
  | _ => True

/-- Neither credential field exists in the document. -/
def claude.absent (file : JVal) : Prop :=
  gjson.Get claude.tokenPath file = none ∧ gjson.Get claude.baseURLPath file = none

/-- The document names `env` at most once and, inside `env`, each of the two
credential fields at most once. -/
def claude.namesOnce : JVal → Bool
  | JVal.obj ms =>
      decide (countName "env" ms ≤ 1) &&
      (match findMember "env" ms with
        | some (JVal.obj inner) =>
            decide (countName "ANTHROPIC_AUTH_TOKEN" inner ≤ 1) &&
            decide (countName "ANTHROPIC_BASE_URL" inner ≤ 1)
        | _ => true)
  | _ => true

/-- A string as the encoder writes it, followed by more text. -/
def json.quoted (s : String) (rest : List Char) : List Char :=
  '"' :: (json.escapeChars s.data ++ '"' :: rest)

/-- The JSON value the text of `encodeProfile` denotes. -/
def json.profileValue (p : models.Profile) : JVal :=
  JVal.obj [("name", JVal.str p.Name), ("apiUrl", JVal.str p.APIURL),
            ("apiKey", JVal.str p.APIKey), ("active", JVal.bool p.Active)]

/-- The JSON value the text of `MarshalIndent` denotes. -/
def json.settingsValue (s : models.Settings) : JVal :=
  JVal.obj [("enabled", JVal.bool s.Enabled), ("autoStart", JVal.bool s.AutoStart),
            ("profiles", JVal.arr (s.Profiles.map json.profileValue))]

/-- The names of the profiles, in stored order. -/
def profileNames (ps : List models.Profile) : List String :=
  ps.map (fun p => p.Name)

/-- What `Settings.SetActiveProfile` may not touch: the name, URL and key of
every profile, in stored order. -/
def profileData (ps : List models.Profile) : List (String × String × String) :=
  ps.map (fun p => (p.Name, p.APIURL, p.APIKey))

/-- A call that cannot create a second profile of some name in the profile
list `ps`: `AddProfile` and `DeleteProfile` always, `UpdateProfile` when the new
profile keeps the name it is looked up by or takes a name no profile has. -/
def config.Call.keepsNamesApart (ps : List models.Profile) : config.Call → Bool
  | config.Call.AddProfile _ => true
  | config.Call.DeleteProfile _ => true
  | config.Call.UpdateProfile name updated =>
      decide (updated.Name = name) || !config.hasName updated.Name ps
  | _ => false

/-- Every call of the sequence, in the state in which it is made, cannot
create a second profile of some name. -/
def config.keepNamesApart (m : config.Manager) : List (Faults × config.Call) → Prop
  | [] => True
  | c :: cs =>
      c.2.keepsNamesApart m.settings.Profiles = true ∧
        config.keepNamesApart (config.step c.1 m c.2).1 cs

/-- A key path the two credential fields do not lie on: its first segment is
not `env`, or it goes on below `env` with a segment that is neither
`ANTHROPIC_AUTH_TOKEN` nor `ANTHROPIC_BASE_URL`. -/
def claude.outsidePatch : List String → Bool
  | [] => true
  | [k] => decide (k ≠ "env")
  | k :: k2 :: _ =>
      decide (k ≠ "env") ||
        (decide (k2 ≠ "ANTHROPIC_AUTH_TOKEN") && decide (k2 ≠ "ANTHROPIC_BASE_URL"))

/-! ## Sample values -/

namespace sample

/-- An active profile named `prod`. -/
def prod : models.Profile :=
  { Name := "prod", APIURL := "https://x", APIKey := "k1", Active := true }

/-- A second active profile, named `dev`. -/
def dev : models.Profile :=
  { Name := "dev", APIURL := "https://y", APIKey := "k2", Active := true }

/-- An inactive profile named `test`. -/
def test : models.Profile :=
  { Name := "test", APIURL := "https://z", APIKey := "k3", Active := false }

/-- A profile whose fields hold characters the encoder escapes. -/
def escaped : models.Profile :=
  { Name := "a\"b\\c\n<d>", APIURL := "", APIKey := "\t&", Active := false }

/-- Enabled settings with the profiles `prod` and `escaped`. -/
def settings : models.Settings :=
  { Enabled := true, AutoStart := false, Profiles := [prod, escaped] }

/-- A world with no settings file, the given credential store and no
auto-start registration. -/
def world (store : JVal) : config.World :=
  { settingsFile := none, claudeFile := store, autostartOn := false, saveCalls := 0 }

/-- A disabled manager with the given profiles and credential store. -/
def manager (profiles : List models.Profile) (store : JVal) : config.Manager :=
  { settings := { Enabled := false, AutoStart := false, Profiles := profiles },
    world := world store }

end sample

/-! # Properties -/

/-! ## The profile list -/

theorem activeCount_append (ps qs : List models.Profile) :
    activeCount (ps ++ qs) = activeCount ps + activeCount qs := by
  induction ps with
  | nil => simp [activeCount]
  | cons p ps ih => simp [activeCount, ih, Nat.add_assoc]

theorem activeCount_deleteLoop_le (name : String) (ps : List models.Profile) :
    activeCount (config.deleteLoop name ps).1 ≤ activeCount ps := by
  induction ps with
  | nil => simp [config.deleteLoop]
  | cons p ps ih =>
      unfold config.deleteLoop
      by_cases h : p.Name ≠ name
      · rw [if_pos h]
        simp only [List.cons, activeCount]
        omega
      · rw [if_neg h]
        simp only [activeCount]
        omega

theorem activeCount_updateLoop_le (name : String) (u : models.Profile) (hu : u.Active = false)
    (ps : List models.Profile) :
    activeCount (config.updateLoop name u ps).1 ≤ activeCount ps := by
  induction ps with
  | nil => simp [config.updateLoop]
  | cons p ps ih =>
      unfold config.updateLoop
      by_cases h : p.Name = name
      · rw [if_pos h]
        simp [activeCount, hu]
      · rw [if_neg h]
        simp only [List.cons, activeCount]
        omega

theorem Save_settings (f : Faults) (m : config.Manager) :
    (config.Manager.Save f m).1.settings = m.settings := by
  unfold config.Manager.Save
  split <;> rfl

theorem step_passiveEdit_activeCount (f : Faults) (m : config.Manager) (c : config.Call)
    (hc : c.isPassiveEdit = true) :
    activeCount (config.step f m c).1.settings.Profiles ≤ activeCount m.settings.Profiles := by
  cases c with
  | AddProfile p =>
      simp only [config.Call.isPassiveEdit, Bool.not_eq_true'] at hc
      simp only [config.step, config.Manager.AddProfile]
      split
      · exact Nat.le_refl _
      · rw [Save_settings]
        simp [activeCount_append, activeCount, hc]
  | DeleteProfile name =>
      simp only [config.step, config.Manager.DeleteProfile]
      split
      · exact Nat.le_refl _
      · rw [Save_settings]
        exact activeCount_deleteLoop_le name _
  | UpdateProfile name u =>
      simp only [config.Call.isPassiveEdit, Bool.not_eq_true'] at hc
      simp only [config.step, config.Manager.UpdateProfile]
      split
      · exact Nat.le_refl _
      · rw [Save_settings]
        exact activeCount_updateLoop_le name u hc _
  | SetEnabled b => simp [config.Call.isPassiveEdit] at hc
  | SetActiveProfile n => simp [config.Call.isPassiveEdit] at hc
  | SetAutoStart b => simp [config.Call.isPassiveEdit] at hc

theorem run_passiveEdits_activeCount (cs : List (Faults × config.Call)) :
    ∀ (m : config.Manager), (∀ c ∈ cs, c.2.isPassiveEdit = true) →
      activeCount (config.run m cs).settings.Profiles ≤ activeCount m.settings.Profiles := by
  induction cs with
  | nil => intro m _; exact Nat.le_refl _
  | cons c cs ih =>
      intro m h
      simp only [config.run]
      have h1 := step_passiveEdit_activeCount c.1 m c.2 (h c (List.mem_cons_self _ _))
      have h2 := ih (config.step c.1 m c.2).1 (fun d hd => h d (List.mem_cons_of_mem _ hd))
      omega

/-- C1, as stated, fails: starting from the empty profile list, two `AddProfile`
calls with distinct names whose profiles both carry `Active == true` leave two
active profiles. -/
theorem C1_counterexample :
    activeCount (sample.manager [] (JVal.obj [])).settings.Profiles ≤ 1 ∧
    (∀ c ∈ [(Faults.noFaults, config.Call.AddProfile sample.prod),
            (Faults.noFaults, config.Call.AddProfile sample.dev)], c.2.isEdit = true) ∧
    activeCount (config.run (sample.manager [] (JVal.obj []))
        [(Faults.noFaults, config.Call.AddProfile sample.prod),
         (Faults.noFaults, config.Call.AddProfile sample.dev)]).settings.Profiles = 2 := by
  refine ⟨by decide, by decide, ?_⟩
  rfl

/-- C1 (amended): for every Settings with at most one active profile and every
finite sequence of `AddProfile`, `DeleteProfile` and `UpdateProfile` calls whose
profile arguments have `Active == false`, under any outcome of the file writes,
the profile list has at most one active profile after each call of the
sequence (after every prefix of `k` calls). -/
theorem C1_at_most_one_active (m : config.Manager) (cs : List (Faults × config.Call)) (k : Nat)
    (hm : activeCount m.settings.Profiles ≤ 1)
    (hcs : ∀ c ∈ cs, c.2.isPassiveEdit = true) :
    activeCount (config.run m (cs.take k)).settings.Profiles ≤ 1 := by
  have h := run_passiveEdits_activeCount (cs.take k) m
    (fun c hc => hcs c (List.mem_of_mem_take hc))
  omega

theorem C1_at_most_one_active_witness :
    activeCount (config.run (sample.manager [sample.prod] (JVal.obj []))
        ([(Faults.noFaults, config.Call.AddProfile sample.test),
          (Faults.noFaults, config.Call.DeleteProfile "prod")].take 1)).settings.Profiles ≤ 1 :=
  C1_at_most_one_active (sample.manager [sample.prod] (JVal.obj []))
    [(Faults.noFaults, config.Call.AddProfile sample.test),
     (Faults.noFaults, config.Call.DeleteProfile "prod")] 1 (by decide) (by decide)

theorem hasName_iff (name : String) (ps : List models.Profile) :
    config.hasName name ps = true ↔ ∃ q ∈ ps, q.Name = name := by
  induction ps with
  | nil => simp [config.hasName]
  | cons p ps ih =>
      unfold config.hasName
      by_cases h : p.Name = name
      · simp [h]
      · simp [h, ih]

/-- C2: when some profile of the list has the name of `p` (exact string
equality), `AddProfile(p)` returns an error and changes nothing, neither the
profile list nor anything else of the manager; when no profile has that name,
the profile list afterwards is the list before with `p` appended as its last
element. -/
theorem C2_AddProfile (f : Faults) (m : config.Manager) (p : models.Profile) :
    ((∃ q ∈ m.settings.Profiles, q.Name = p.Name) →
        (m.AddProfile f p).2 = some (Err.alreadyExists p.Name) ∧
        (m.AddProfile f p).1.settings.Profiles = m.settings.Profiles ∧
        (m.AddProfile f p).1.settings = m.settings ∧
        (m.AddProfile f p).1.world.settingsFile = m.world.settingsFile) ∧
    ((¬ ∃ q ∈ m.settings.Profiles, q.Name = p.Name) →
        (m.AddProfile f p).1.settings.Profiles = m.settings.Profiles ++ [p]) := by
  constructor
  · intro h
    have h1 := (hasName_iff p.Name m.settings.Profiles).mpr h
    simp [config.Manager.AddProfile, h1]
  · intro h
    have h1 : config.hasName p.Name m.settings.Profiles = false := by
      cases hh : config.hasName p.Name m.settings.Profiles with
      | false => rfl
      | true => exact absurd ((hasName_iff _ _).mp hh) h
    simp [config.Manager.AddProfile, h1, Save_settings]

theorem C2_AddProfile_witness :
    ((config.Manager.AddProfile Faults.noFaults (sample.manager [sample.prod] (JVal.obj []))
        { sample.test with Name := "prod" }).2 = some (Err.alreadyExists "prod")) ∧
    ((config.Manager.AddProfile Faults.noFaults (sample.manager [sample.prod] (JVal.obj []))
        sample.test).1.settings.Profiles = [sample.prod, sample.test]) :=
  ⟨((C2_AddProfile Faults.noFaults (sample.manager [sample.prod] (JVal.obj []))
        { sample.test with Name := "prod" }).1
      ⟨sample.prod, List.mem_singleton.mpr rfl, rfl⟩).1,
   (C2_AddProfile Faults.noFaults (sample.manager [sample.prod] (JVal.obj [])) sample.test).2
      (by decide)⟩

theorem firstActive_setActive_of_mem (name : String) (ps : List models.Profile)
    (h : ∃ p ∈ ps, p.Name = name) :
    ∃ q, models.firstActive (models.setActive name ps) = some q ∧ q.Name = name := by
  induction ps with
  | nil => simp at h
  | cons p ps ih =>
      unfold models.setActive models.firstActive
      by_cases hp : p.Name = name
      · exact ⟨{ p with Active := decide (p.Name = name) }, by simp [hp], hp⟩
      · have h1 : ∃ q ∈ ps, q.Name = name := by
          obtain ⟨q, hq, hn⟩ := h
          rcases List.mem_cons.mp hq with rfl | hq
          · exact absurd hn hp
          · exact ⟨q, hq, hn⟩
        simpa [hp] using ih h1

theorem firstActive_setActive_of_not_mem (name : String) (ps : List models.Profile)
    (h : ¬ ∃ p ∈ ps, p.Name = name) :
    models.firstActive (models.setActive name ps) = none := by
  induction ps with
  | nil => rfl
  | cons p ps ih =>
      unfold models.setActive models.firstActive
      have hp : ¬ p.Name = name := fun hn => h ⟨p, List.mem_cons_self _ _, hn⟩
      have h1 : ¬ ∃ q ∈ ps, q.Name = name := fun ⟨q, hq, hn⟩ =>
        h ⟨q, List.mem_cons_of_mem _ hq, hn⟩
      simpa [hp] using ih h1

/-- C3: after `s.SetActiveProfile(name)`, `s.GetActiveProfile()` returns a
profile whose `Name` is `name` when some profile of `s` had that name before
the call, and returns nothing when no profile had it; the `Active` flags
before the call play no part. -/
theorem C3_SetActive_then_GetActive (s : models.Settings) (name : String) :
    ((∃ p ∈ s.Profiles, p.Name = name) →
        ∃ q, (s.SetActiveProfile name).GetActiveProfile = some q ∧ q.Name = name) ∧
    ((¬ ∃ p ∈ s.Profiles, p.Name = name) →
        (s.SetActiveProfile name).GetActiveProfile = none) :=
  ⟨fun h => firstActive_setActive_of_mem name s.Profiles h,
   fun h => firstActive_setActive_of_not_mem name s.Profiles h⟩

theorem C3_SetActive_then_GetActive_witness :
    (∃ q, (models.Settings.SetActiveProfile
            { Enabled := false, AutoStart := false, Profiles := [sample.prod, sample.dev] }
            "dev").GetActiveProfile = some q ∧ q.Name = "dev") ∧
    (models.Settings.SetActiveProfile
        { Enabled := false, AutoStart := false, Profiles := [sample.prod, sample.dev] }
        "none").GetActiveProfile = none :=
  ⟨(C3_SetActive_then_GetActive
      { Enabled := false, AutoStart := false, Profiles := [sample.prod, sample.dev] } "dev").1
      ⟨sample.dev, by decide, rfl⟩,
   (C3_SetActive_then_GetActive
      { Enabled := false, AutoStart := false, Profiles := [sample.prod, sample.dev] } "none").2
      (by decide)⟩

/-! ## Start-up reconciliation -/

/-- C6: when the credential store reports `hasAuthConfig` and the auto-start
registration is observed (`autostartOn`), the reconciliation of `NewManager`
leaves `Enabled == hasAuthConfig`, `AutoStart == autostartOn` and the profile list
as it was; `Save` is called exactly once when at least one flag differed from
its observed value (also when both did) and not at all when neither did, and
a successful `Save` writes the reconciled settings. In particular `Enabled == true`
with the auth fields absent ends with `Enabled == false` after exactly one `Save`. -/
theorem C6_reconcile (f : Faults) (m : config.Manager) (hasAuthConfig : Bool)
    (hh : claude.HasAuthConfig f m.world.claudeFile = Except.ok hasAuthConfig)
    (ha : f.autostartStatus = false) :
    (config.reconcile f m).1.settings.Enabled = hasAuthConfig ∧
    (config.reconcile f m).1.settings.AutoStart = m.world.autostartOn ∧
    (config.reconcile f m).1.settings.Profiles = m.settings.Profiles ∧
    (config.reconcile f m).1.world.saveCalls = m.world.saveCalls +
      (if m.settings.Enabled ≠ hasAuthConfig ∨ m.settings.AutoStart ≠ m.world.autostartOn
        then 1 else 0) ∧
    ((m.settings.Enabled = hasAuthConfig ∧ m.settings.AutoStart = m.world.autostartOn) →
      config.reconcile f m = (m, none)) ∧
    ((m.settings.Enabled ≠ hasAuthConfig ∨ m.settings.AutoStart ≠ m.world.autostartOn) →
      f.writeSettings = false →
      (config.reconcile f m).2 = none ∧
      (config.reconcile f m).1.world.settingsFile =
        some (json.MarshalIndent { Enabled := hasAuthConfig, AutoStart := m.world.autostartOn,
                                   Profiles := m.settings.Profiles })) ∧
    ((m.settings.Enabled = true ∧ hasAuthConfig = false) →
      (config.reconcile f m).1.settings.Enabled = false ∧
      (config.reconcile f m).1.world.saveCalls = m.world.saveCalls + 1) := by
  obtain ⟨⟨en, au, ps⟩, ⟨sf, cf, ao, sc⟩⟩ := m
  simp only at hh
  cases en <;> cases hasAuthConfig <;> cases au <;> cases ao <;> cases hw : f.writeSettings <;>
    simp [config.reconcile, hh, ha, hw, config.Manager.Save]

theorem C6_reconcile_witness :
    (config.reconcile Faults.noFaults
        { settings := { Enabled := true, AutoStart := false, Profiles := [sample.prod] },
          world := sample.world (JVal.obj []) }).1.settings.Enabled = false ∧
    (config.reconcile Faults.noFaults
        { settings := { Enabled := true, AutoStart := false, Profiles := [sample.prod] },
          world := sample.world (JVal.obj []) }).1.world.saveCalls = 0 + 1 :=
  (C6_reconcile Faults.noFaults
      { settings := { Enabled := true, AutoStart := false, Profiles := [sample.prod] },
        world := sample.world (JVal.obj []) } false rfl rfl).2.2.2.2.2.2 ⟨rfl, rfl⟩

/-! ## Failure of the external leg -/

/-- C9, as stated, fails: when the credential store cannot be read,
`SetEnabled(true)` returns the error without saving (the settings file is still
absent and `Save` was never called) although the flag in memory is already
set; likewise `SetAutoStart(true)` when the auto-start registration fails. -/
theorem C9_counterexample :
    ((config.Manager.SetEnabled { Faults.noFaults with readClaude := true }
        (sample.manager [sample.prod] (JVal.obj [])) true).2 ≠ none ∧
     (config.Manager.SetEnabled { Faults.noFaults with readClaude := true }
        (sample.manager [sample.prod] (JVal.obj [])) true).1.settings.Enabled = true ∧
     (config.Manager.SetEnabled { Faults.noFaults with readClaude := true }
        (sample.manager [sample.prod] (JVal.obj [])) true).1.world.settingsFile = none ∧
     (config.Manager.SetEnabled { Faults.noFaults with readClaude := true }
        (sample.manager [sample.prod] (JVal.obj [])) true).1.world.saveCalls = 0) ∧
    ((config.Manager.SetAutoStart { Faults.noFaults with autostartChange := true }
        (sample.manager [sample.prod] (JVal.obj [])) true).2 ≠ none ∧
     (config.Manager.SetAutoStart { Faults.noFaults with autostartChange := true }
        (sample.manager [sample.prod] (JVal.obj [])) true).1.settings.AutoStart = true ∧
     (config.Manager.SetAutoStart { Faults.noFaults with autostartChange := true }
        (sample.manager [sample.prod] (JVal.obj [])) true).1.world.settingsFile = none ∧
     (config.Manager.SetAutoStart { Faults.noFaults with autostartChange := true }
        (sample.manager [sample.prod] (JVal.obj [])) true).1.world.saveCalls = 0) := by
  refine ⟨⟨?_, ?_, ?_, ?_⟩, ⟨?_, ?_, ?_, ?_⟩⟩ <;> decide

/-- C9 (amended): `SetEnabled` and `SetAutoStart` save the settings exactly
when their external leg succeeds. When the leg fails (`SetAuthConfig` for an
active profile or `RemoveAuthConfig` in `SetEnabled`, `Enable` or `Disable` in
`SetAutoStart`) the operation returns that error, wrapped, to the caller; the
settings in memory carry the newly declared flag; `Save` is not called and the
settings file, like everything else outside the process, is left as it was.
When the leg succeeds, or `SetEnabled(true)` finds no active profile and has no
leg to run, the operation is the call of `Save` on the settings with the new
flag (and on the credential store or auto-start registration the leg left): it
returns what `Save` returns, `Save` is called once, and when the write succeeds
the settings file holds the settings with the new flag. -/
theorem C9_Save_follows_external_leg (f : Faults) (m : config.Manager) :
    (∀ p e, m.settings.GetActiveProfile = some p →
        (claude.SetAuthConfig f m.world.claudeFile p.APIKey p.APIURL).2 = some e →
        m.SetEnabled f true =
          ({ m with settings := { m.settings with Enabled := true } },
            some (Err.wrap "failed to set Claude auth config" e))) ∧
    (∀ e, (claude.RemoveAuthConfig f m.world.claudeFile).2 = some e →
        m.SetEnabled f false =
          ({ m with settings := { m.settings with Enabled := false } },
            some (Err.wrap "failed to remove Claude auth config" e))) ∧
    (∀ b, f.autostartChange = true →
        (m.SetAutoStart f b).1 = { m with settings := { m.settings with AutoStart := b } } ∧
        (m.SetAutoStart f b).2 =
          some (Err.wrap (if b then "failed to enable autostart" else "failed to disable autostart")
            (Err.failed "autostart"))) ∧
    (∀ p file, m.settings.GetActiveProfile = some p →
        claude.SetAuthConfig f m.world.claudeFile p.APIKey p.APIURL = (file, none) →
        m.SetEnabled f true =
          config.Manager.Save f
            { settings := { m.settings with Enabled := true },
              world := { m.world with claudeFile := file } }) ∧
    (m.settings.GetActiveProfile = none →
        m.SetEnabled f true =
          config.Manager.Save f { m with settings := { m.settings with Enabled := true } }) ∧
    (∀ file, claude.RemoveAuthConfig f m.world.claudeFile = (file, none) →
        m.SetEnabled f false =
          config.Manager.Save f
            { settings := { m.settings with Enabled := false },
              world := { m.world with claudeFile := file } }) ∧
    (∀ b, f.autostartChange = false →
        m.SetAutoStart f b =
          config.Manager.Save f
            { settings := { m.settings with AutoStart := b },
              world := { m.world with autostartOn := b } }) ∧
    (∀ m1 : config.Manager,
        (config.Manager.Save f m1).1.settings = m1.settings ∧
        (config.Manager.Save f m1).1.world.saveCalls = m1.world.saveCalls + 1 ∧
        (f.writeSettings = false →
          (config.Manager.Save f m1).2 = none ∧
          (config.Manager.Save f m1).1.world.settingsFile
            = some (json.MarshalIndent m1.settings)) ∧
        (f.writeSettings = true →
          (config.Manager.Save f m1).2
            = some (Err.wrap "failed to write config" (Err.failed "WriteFile")) ∧
          (config.Manager.Save f m1).1.world.settingsFile = m1.world.settingsFile)) := by
  refine ⟨?_, ?_, ?_, ?_, ?_, ?_, ?_, ?_⟩
  · intro p e hp he
    have hp1 : models.firstActive m.settings.Profiles = some p := hp
    simp only [config.Manager.SetEnabled, if_true, models.Settings.GetActiveProfile, hp1]
    cases hr : claude.SetAuthConfig f m.world.claudeFile p.APIKey p.APIURL with
    | mk file err =>
        rw [hr] at he
        simp only at he
        subst he
        rfl
  · intro e he
    simp only [config.Manager.SetEnabled, Bool.false_eq_true, if_false]
    cases hr : claude.RemoveAuthConfig f m.world.claudeFile with
    | mk file err =>
        rw [hr] at he
        simp only at he
        subst he
        rfl
  · intro b hb
    simp [config.Manager.SetAutoStart, hb]
  · intro p file hp hs
    have hp1 : models.firstActive m.settings.Profiles = some p := hp
    simp only [config.Manager.SetEnabled, if_true, models.Settings.GetActiveProfile, hp1, hs]
  · intro hp
    have hp1 : models.firstActive m.settings.Profiles = none := hp
    simp only [config.Manager.SetEnabled, if_true, models.Settings.GetActiveProfile, hp1]
  · intro file hs
    simp only [config.Manager.SetEnabled, Bool.false_eq_true, if_false, hs]
  · intro b hb
    simp [config.Manager.SetAutoStart, hb]
  · intro m1
    refine ⟨?_, ?_, ?_, ?_⟩
    · unfold config.Manager.Save
      split <;> rfl
    · unfold config.Manager.Save
      split <;> rfl
    · intro hw
      simp [config.Manager.Save, hw]
    · intro hw
      simp [config.Manager.Save, hw]

theorem C9_Save_follows_external_leg_witness :
    (config.Manager.SetEnabled { Faults.noFaults with writeClaude := true }
        (sample.manager [sample.test, sample.prod] (JVal.obj [])) true =
      ({ sample.manager [sample.test, sample.prod] (JVal.obj []) with
          settings := { (sample.manager [sample.test, sample.prod] (JVal.obj [])).settings with
            Enabled := true } },
        some (Err.wrap "failed to set Claude auth config"
          (Err.wrap "failed to write settings file" (Err.failed "WriteFile"))))) ∧
    (config.Manager.SetAutoStart Faults.noFaults
        (sample.manager [sample.test, sample.prod] (JVal.obj [])) true =
      config.Manager.Save Faults.noFaults
        { settings := { (sample.manager [sample.test, sample.prod] (JVal.obj [])).settings with
            AutoStart := true },
          world := { (sample.manager [sample.test, sample.prod] (JVal.obj [])).world with
            autostartOn := true } }) ∧
    (config.Manager.SetEnabled Faults.noFaults
        (sample.manager [sample.test, sample.prod] (JVal.obj [])) false =
      config.Manager.Save Faults.noFaults
        { settings := { (sample.manager [sample.test, sample.prod] (JVal.obj [])).settings with
            Enabled := false },
          world := { (sample.manager [sample.test, sample.prod] (JVal.obj [])).world with
            claudeFile := JVal.obj [] } }) :=
  ⟨(C9_Save_follows_external_leg { Faults.noFaults with writeClaude := true }
      (sample.manager [sample.test, sample.prod] (JVal.obj []))).1 sample.prod
      (Err.wrap "failed to write settings file" (Err.failed "WriteFile")) rfl rfl,
   (C9_Save_follows_external_leg Faults.noFaults
      (sample.manager [sample.test, sample.prod] (JVal.obj []))).2.2.2.2.2.2.1 true rfl,
   (C9_Save_follows_external_leg Faults.noFaults
      (sample.manager [sample.test, sample.prod] (JVal.obj []))).2.2.2.2.2.1 (JVal.obj []) rfl⟩

/-! ## The credential store -/

theorem scan_last (k : String) (g : JVal → Option JVal) (ms : List (String × JVal)) :
    gjson.scan k true g ms = findMember k ms := by
  induction ms with
  | nil => rfl
  | cons m ms ih =>
      unfold gjson.scan findMember
      by_cases h : m.1 = k <;> simp [h, ih]

theorem Get_one (k : String) (ms : List (String × JVal)) :
    gjson.Get [k] (JVal.obj ms) = findMember k ms := by
  simp [gjson.Get, scan_last]

theorem Get_two (e k : String) (ms : List (String × JVal)) :
    gjson.Get [e, k] (JVal.obj ms) = gjson.scan e false (gjson.Get [k]) ms := by
  simp [gjson.Get]

theorem scan_of_findMember_none (e : String) (l : Bool) (g : JVal → Option JVal)
    (ms : List (String × JVal)) (h : findMember e ms = none) :
    gjson.scan e l g ms = none := by
  induction ms with
  | nil => rfl
  | cons m ms ih =>
      unfold findMember at h
      unfold gjson.scan
      by_cases hm : m.1 = e
      · simp [hm] at h
      · simp only [hm, if_false] at h ⊢
        exact ih h

theorem scan_first (e : String) (g : JVal → Option JVal) (ms : List (String × JVal))
    (old : JVal) (h : findMember e ms = some old) :
    gjson.scan e false g ms =
      (match g old with
        | some v => some v
        | none => laterHits e g ms) := by
  induction ms with
  | nil => simp [findMember] at h
  | cons m ms ih =>
      unfold findMember at h
      unfold gjson.scan laterHits
      by_cases hm : m.1 = e
      · simp only [hm, if_true, Option.some.injEq] at h ⊢
        subst h
        simp
      · simp only [hm, if_false] at h ⊢
        exact ih h

theorem findMember_replaceMember (e : String) (new : JVal) (ms : List (String × JVal))
    (old : JVal) (h : findMember e ms = some old) :
    findMember e (replaceMember e new ms) = some new := by
  induction ms with
  | nil => simp [findMember] at h
  | cons m ms ih =>
      unfold findMember at h
      unfold replaceMember
      by_cases hm : m.1 = e
      · simp [hm, findMember]
      · simp only [hm, if_false] at h ⊢
        simp [findMember, hm, ih h]

theorem laterHits_replaceMember (e : String) (g : JVal → Option JVal) (new : JVal)
    (ms : List (String × JVal)) :
    laterHits e g (replaceMember e new ms) = laterHits e g ms := by
  induction ms with
  | nil => rfl
  | cons m ms ih =>
      unfold replaceMember
      by_cases hm : m.1 = e
      · simp [hm, laterHits]
      · simp [hm, laterHits, ih]

theorem scan_replaceMember (e : String) (g : JVal → Option JVal) (new old : JVal)
    (ms : List (String × JVal)) (h : findMember e ms = some old) :
    gjson.scan e false g (replaceMember e new ms) =
      (match g new with
        | some v => some v
        | none => laterHits e g ms) := by
  rw [scan_first e g _ new (findMember_replaceMember e new ms old h), laterHits_replaceMember]

theorem findMember_append_of_none (e : String) (x : JVal) (ms : List (String × JVal))
    (h : findMember e ms = none) :
    findMember e (ms ++ [(e, x)]) = some x := by
  induction ms with
  | nil => simp [findMember]
  | cons m ms ih =>
      unfold findMember at h
      by_cases hm : m.1 = e
      · simp [hm] at h
      · simp only [hm, if_false] at h
        simp [findMember, hm, ih h]

theorem laterHits_append_of_none (e : String) (g : JVal → Option JVal) (x : JVal)
    (ms : List (String × JVal)) (h : findMember e ms = none) :
    laterHits e g (ms ++ [(e, x)]) = none := by
  induction ms with
  | nil => simp [laterHits, gjson.scan]
  | cons m ms ih =>
      unfold findMember at h
      by_cases hm : m.1 = e
      · simp [hm] at h
      · simp only [hm, if_false] at h
        simp [laterHits, hm, ih h]

theorem laterHits_of_findMember_none (e : String) (g : JVal → Option JVal)
    (ms : List (String × JVal)) (h : findMember e ms = none) :
    laterHits e g ms = none := by
  induction ms with
  | nil => rfl
  | cons m ms ih =>
      unfold findMember at h
      by_cases hm : m.1 = e
      · simp [hm] at h
      · simp only [hm, if_false] at h
        simp [laterHits, hm, ih h]

theorem findMember_replaceMember_ne (a b : String) (hab : a ≠ b) (v : JVal)
    (ms : List (String × JVal)) :
    findMember a (replaceMember b v ms) = findMember a ms := by
  induction ms with
  | nil => rfl
  | cons m ms ih =>
      unfold replaceMember
      by_cases hm : m.1 = b
      · have hma : ¬ m.1 = a := fun h => hab (h.symm.trans hm)
        simp [hm, findMember, hma, Ne.symm hab]
      · by_cases hma : m.1 = a <;> simp [hm, findMember, hma, ih, hab, Ne.symm hab]

theorem findMember_removeMember_ne (a b : String) (hab : a ≠ b) (ms : List (String × JVal)) :
    findMember a (removeMember b ms) = findMember a ms := by
  induction ms with
  | nil => rfl
  | cons m ms ih =>
      unfold removeMember
      by_cases hm : m.1 = b
      · have hma : ¬ m.1 = a := fun h => hab (h.symm.trans hm)
        simp [hm, findMember, hma, hab, Ne.symm hab]
      · by_cases hma : m.1 = a <;> simp [hm, findMember, hma, ih, hab, Ne.symm hab]

theorem findMember_append_ne (a b : String) (hab : a ≠ b) (v : JVal)
    (ms : List (String × JVal)) :
    findMember a (ms ++ [(b, v)]) = findMember a ms := by
  induction ms with
  | nil => simp [findMember, Ne.symm hab]
  | cons m ms ih =>
      by_cases hma : m.1 = a <;> simp [findMember, hma, ih]

theorem countName_eq_zero_of_findMember_none (k : String) (ms : List (String × JVal))
    (h : findMember k ms = none) : countName k ms = 0 := by
  induction ms with
  | nil => rfl
  | cons m ms ih =>
      unfold findMember at h
      by_cases hm : m.1 = k
      · simp [hm] at h
      · simp only [hm, if_false] at h
        simp [countName, hm, ih h]

theorem findMember_none_of_countName_eq_zero (k : String) (ms : List (String × JVal))
    (h : countName k ms = 0) : findMember k ms = none := by
  induction ms with
  | nil => rfl
  | cons m ms ih =>
      unfold countName at h
      by_cases hm : m.1 = k
      · simp [hm] at h
      · simp only [hm, if_false, Nat.zero_add] at h
        simp [findMember, hm, ih h]

theorem countName_replaceMember (k b : String) (v : JVal) (ms : List (String × JVal)) :
    countName k (replaceMember b v ms) = countName k ms := by
  induction ms with
  | nil => rfl
  | cons m ms ih =>
      unfold replaceMember
      by_cases hm : m.1 = b
      · simp [hm, countName]
      · simp [hm, countName, ih]

theorem countName_append (k : String) (ms ns : List (String × JVal)) :
    countName k (ms ++ ns) = countName k ms + countName k ns := by
  induction ms with
  | nil => simp [countName]
  | cons m ms ih => simp [countName, ih, Nat.add_assoc]

theorem countName_removeMember_le (k b : String) (ms : List (String × JVal)) :
    countName k (removeMember b ms) ≤ countName k ms := by
  induction ms with
  | nil => exact Nat.le_refl _
  | cons m ms ih =>
      unfold removeMember
      by_cases hm : m.1 = b
      · simp [hm, countName]
      · simp only [hm, if_false, countName]
        omega

theorem findMember_removeMember_of_count_le_one (k : String) (ms : List (String × JVal))
    (h : countName k ms ≤ 1) : findMember k (removeMember k ms) = none := by
  induction ms with
  | nil => rfl
  | cons m ms ih =>
      unfold countName at h
      unfold removeMember
      by_cases hm : m.1 = k
      · simp only [hm, if_true] at h ⊢
        exact findMember_none_of_countName_eq_zero k ms (by omega)
      · simp only [hm, if_false, Nat.zero_add] at h ⊢
        simp [findMember, hm, ih h]

theorem Get_setAt_one (k : String) (old v new : JVal) (h : sjson.setAt [k] old v = some new) :
    gjson.Get [k] new = some v := by
  cases old with
  | obj inner =>
      simp only [sjson.setAt] at h
      cases hf : findMember k inner with
      | none =>
          simp only [hf, Option.some.injEq, sjson.build] at h
          subst h
          rw [Get_one]
          exact findMember_append_of_none k v inner hf
      | some x =>
          simp only [hf, Option.some.injEq] at h
          subst h
          rw [Get_one]
          exact findMember_replaceMember k v inner x hf
  | arr xs => simp [sjson.setAt] at h
  | null => simp [sjson.setAt, sjson.build] at h; subst h; simp [Get_one, findMember]
  | bool b => simp [sjson.setAt, sjson.build] at h; subst h; simp [Get_one, findMember]
  | num r => simp [sjson.setAt, sjson.build] at h; subst h; simp [Get_one, findMember]
  | str s => simp [sjson.setAt, sjson.build] at h; subst h; simp [Get_one, findMember]

theorem Get_setAt_one_ne (a b : String) (hab : a ≠ b) (old v new : JVal)
    (h : sjson.setAt [b] old v = some new) :
    gjson.Get [a] new = gjson.Get [a] old := by
  cases old with
  | obj inner =>
      simp only [sjson.setAt] at h
      cases hf : findMember b inner with
      | none =>
          simp only [hf, Option.some.injEq, sjson.build] at h
          subst h
          rw [Get_one, Get_one]
          exact findMember_append_ne a b hab v inner
      | some x =>
          simp only [hf, Option.some.injEq] at h
          subst h
          rw [Get_one, Get_one]
          exact findMember_replaceMember_ne a b hab v inner
  | arr xs => simp [sjson.setAt] at h
  | null =>
      simp [sjson.setAt, sjson.build] at h; subst h
      simp [gjson.Get, scan_last, findMember, Ne.symm hab]
  | bool x =>
      simp [sjson.setAt, sjson.build] at h; subst h
      simp [gjson.Get, scan_last, findMember, Ne.symm hab]
  | num r =>
      simp [sjson.setAt, sjson.build] at h; subst h
      simp [gjson.Get, scan_last, findMember, Ne.symm hab]
  | str s =>
      simp [sjson.setAt, sjson.build] at h; subst h
      simp [gjson.Get, scan_last, findMember, Ne.symm hab]

/-- What `sjson.setAt` does at a two-segment path, case by case. -/
theorem setAt_two_cases (e k : String) (doc v d : JVal) (h : sjson.setAt [e, k] doc v = some d) :
    (∃ ms old new, doc = JVal.obj ms ∧ findMember e ms = some old ∧
        sjson.setAt [k] old v = some new ∧ d = JVal.obj (replaceMember e new ms)) ∨
    (∃ ms, doc = JVal.obj ms ∧ findMember e ms = none ∧
        d = JVal.obj (ms ++ [(e, JVal.obj [(k, v)])])) ∨
    ((∀ ms, doc ≠ JVal.obj ms) ∧ d = JVal.obj [(e, JVal.obj [(k, v)])]) := by
  cases doc with
  | obj ms =>
      simp only [sjson.setAt] at h
      cases hf : findMember e ms with
      | none =>
          simp only [hf, Option.some.injEq, sjson.build] at h
          exact Or.inr (Or.inl ⟨ms, rfl, hf, h.symm⟩)
      | some old =>
          simp only [hf] at h
          cases hn : sjson.setAt [k] old v with
          | none => simp [hn] at h
          | some new =>
              simp only [hn, Option.some.injEq] at h
              exact Or.inl ⟨ms, old, new, rfl, hf, hn, h.symm⟩
  | arr xs => simp [sjson.setAt] at h
  | null => simp [sjson.setAt, sjson.build] at h; exact Or.inr (Or.inr ⟨by simp, h.symm⟩)
  | bool x => simp [sjson.setAt, sjson.build] at h; exact Or.inr (Or.inr ⟨by simp, h.symm⟩)
  | num r => simp [sjson.setAt, sjson.build] at h; exact Or.inr (Or.inr ⟨by simp, h.symm⟩)
  | str s => simp [sjson.setAt, sjson.build] at h; exact Or.inr (Or.inr ⟨by simp, h.symm⟩)

theorem Get_setAt_two (e k : String) (doc v d : JVal) (h : sjson.setAt [e, k] doc v = some d) :
    gjson.Get [e, k] d = some v := by
  rcases setAt_two_cases e k doc v d h with
    ⟨ms, old, new, _, hf, hn, rfl⟩ | ⟨ms, _, hf, rfl⟩ | ⟨_, rfl⟩
  · rw [Get_two, scan_replaceMember e _ new old ms hf, Get_setAt_one k old v new hn]
  · rw [Get_two, scan_first e _ _ _ (findMember_append_of_none e _ ms hf), Get_one]
    simp [findMember]
  · simp [Get_two, gjson.scan, Get_one, findMember]

theorem Get_of_not_obj (p : List String) (doc : JVal) (h : ∀ ms, doc ≠ JVal.obj ms) :
    gjson.Get p doc = none := by
  cases p with
  | nil => simp [gjson.Get]
  | cons k rest =>
      cases doc with
      | obj ms => exact absurd rfl (h ms)
      | arr xs => simp [gjson.Get]
      | null => simp [gjson.Get]
      | bool x => simp [gjson.Get]
      | num r => simp [gjson.Get]
      | str s => simp [gjson.Get]

theorem Get_setAt_two_ne (e a b : String) (hab : a ≠ b) (doc v d : JVal)
    (h : sjson.setAt [e, b] doc v = some d) :
    gjson.Get [e, a] d = gjson.Get [e, a] doc := by
  rcases setAt_two_cases e b doc v d h with
    ⟨ms, old, new, rfl, hf, hn, rfl⟩ | ⟨ms, rfl, hf, rfl⟩ | ⟨hno, rfl⟩
  · rw [Get_two, Get_two, scan_replaceMember e _ new old ms hf, scan_first e _ ms old hf,
      Get_setAt_one_ne a b hab old v new hn]
  · rw [Get_two, Get_two, scan_first e _ _ _ (findMember_append_of_none e _ ms hf), Get_one,
      laterHits_append_of_none e _ _ ms hf, scan_of_findMember_none e _ _ ms hf]
    simp [findMember, Ne.symm hab]
  · rw [Get_of_not_obj _ doc hno]
    simp [Get_two, gjson.scan, Get_one, findMember, Ne.symm hab]

/-- What `sjson.Delete` does at a two-segment path, case by case. -/
theorem Delete_two_cases (e k : String) (doc : JVal) :
    (∃ ms old, doc = JVal.obj ms ∧ findMember e ms = some old ∧
        sjson.Delete [e, k] doc = JVal.obj (replaceMember e (sjson.Delete [k] old) ms)) ∨
    ((∀ ms, doc = JVal.obj ms → findMember e ms = none) ∧ sjson.Delete [e, k] doc = doc) := by
  cases doc with
  | obj ms =>
      cases hf : findMember e ms with
      | none => exact Or.inr ⟨fun ms1 h1 => by cases h1; exact hf, by simp [sjson.Delete, hf]⟩
      | some old => exact Or.inl ⟨ms, old, rfl, hf, by simp [sjson.Delete, hf]⟩
  | arr xs => exact Or.inr ⟨by simp, by simp [sjson.Delete]⟩
  | null => exact Or.inr ⟨by simp, by simp [sjson.Delete]⟩
  | bool x => exact Or.inr ⟨by simp, by simp [sjson.Delete]⟩
  | num r => exact Or.inr ⟨by simp, by simp [sjson.Delete]⟩
  | str s => exact Or.inr ⟨by simp, by simp [sjson.Delete]⟩

theorem removeMember_of_none (k : String) (ms : List (String × JVal))
    (hf : findMember k ms = none) : removeMember k ms = ms := by
  induction ms with
  | nil => rfl
  | cons m ms ih =>
      unfold findMember at hf
      by_cases hm : m.1 = k
      · simp [hm] at hf
      · simp only [hm, if_false] at hf
        simp [removeMember, hm, ih hf]

theorem Delete_one_obj (k : String) (inner : List (String × JVal)) :
    sjson.Delete [k] (JVal.obj inner) = JVal.obj (removeMember k inner) := by
  cases hf : findMember k inner with
  | some x => simp [sjson.Delete, hf]
  | none => simp [sjson.Delete, hf, removeMember_of_none k inner hf]

theorem Delete_one_not_obj (k : String) (old : JVal) (h : ∀ ms, old ≠ JVal.obj ms) :
    sjson.Delete [k] old = old := by
  cases old with
  | obj ms => exact absurd rfl (h ms)
  | arr xs => simp [sjson.Delete]
  | null => simp [sjson.Delete]
  | bool x => simp [sjson.Delete]
  | num r => simp [sjson.Delete]
  | str s => simp [sjson.Delete]

theorem obj_or_not (v : JVal) : (∃ ms, v = JVal.obj ms) ∨ (∀ ms, v ≠ JVal.obj ms) := by
  cases v with
  | obj ms => exact Or.inl ⟨ms, rfl⟩
  | arr xs => exact Or.inr (by simp)
  | null => exact Or.inr (by simp)
  | bool x => exact Or.inr (by simp)
  | num r => exact Or.inr (by simp)
  | str s => exact Or.inr (by simp)

theorem Get_Delete_one_ne (a b : String) (hab : a ≠ b) (old : JVal) :
    gjson.Get [a] (sjson.Delete [b] old) = gjson.Get [a] old := by
  rcases obj_or_not old with ⟨inner, rfl⟩ | hno
  · rw [Delete_one_obj, Get_one, Get_one, findMember_removeMember_ne a b hab]
  · rw [Delete_one_not_obj b old hno]

theorem Get_Delete_two_ne (e a b : String) (hab : a ≠ b) (doc : JVal) :
    gjson.Get [e, a] (sjson.Delete [e, b] doc) = gjson.Get [e, a] doc := by
  rcases Delete_two_cases e b doc with ⟨ms, old, rfl, hf, hd⟩ | ⟨_, hd⟩
  · rw [hd, Get_two, Get_two, scan_replaceMember e _ _ old ms hf, scan_first e _ ms old hf,
      Get_Delete_one_ne a b hab]
  · rw [hd]

theorem tidy_of_Get_none (e k : String) (doc : JVal) (h : gjson.Get [e, k] doc = none) :
    tidy e k doc := by
  rcases obj_or_not doc with ⟨ms, rfl⟩ | hno
  · rw [Get_two] at h
    simp only [tidy, firstCount]
    cases hf : findMember e ms with
    | none => exact ⟨laterHits_of_findMember_none e _ ms hf, Nat.zero_le _⟩
    | some old =>
        rw [scan_first e _ ms old hf] at h
        cases hg : gjson.Get [k] old with
        | some x => simp [hg] at h
        | none =>
            simp only [hg] at h
            refine ⟨h, ?_⟩
            rcases obj_or_not old with ⟨inner, rfl⟩ | hno
            · rw [Get_one] at hg
              simp [memberCount, countName_eq_zero_of_findMember_none k inner hg]
            · cases old <;> simp_all [memberCount]
  · cases doc <;> simp_all [tidy]

theorem memberCount_setAt_one (k b : String) (old v new : JVal)
    (h : sjson.setAt [b] old v = some new) (hc : memberCount k old ≤ 1) :
    memberCount k new ≤ 1 := by
  cases old with
  | obj inner =>
      simp only [sjson.setAt] at h
      simp only [memberCount] at hc
      cases hf : findMember b inner with
      | none =>
          simp only [hf, Option.some.injEq, sjson.build] at h
          subst h
          simp only [memberCount, countName_append, countName]
          by_cases hbk : b = k
          · subst hbk
            simp [countName_eq_zero_of_findMember_none b inner hf]
          · simp [hbk, hc]
      | some x =>
          simp only [hf, Option.some.injEq] at h
          subst h
          simpa [memberCount, countName_replaceMember] using hc
  | arr xs => simp [sjson.setAt] at h
  | null =>
      simp [sjson.setAt, sjson.build] at h; subst h
      simp only [memberCount, countName]; split <;> omega
  | bool x =>
      simp [sjson.setAt, sjson.build] at h; subst h
      simp only [memberCount, countName]; split <;> omega
  | num r =>
      simp [sjson.setAt, sjson.build] at h; subst h
      simp only [memberCount, countName]; split <;> omega
  | str s =>
      simp [sjson.setAt, sjson.build] at h; subst h
      simp only [memberCount, countName]; split <;> omega

theorem tidy_setAt (e k b : String) (doc v d : JVal) (ht : tidy e k doc)
    (h : sjson.setAt [e, b] doc v = some d) : tidy e k d := by
  rcases setAt_two_cases e b doc v d h with
    ⟨ms, old, new, rfl, hf, hn, rfl⟩ | ⟨ms, rfl, hf, rfl⟩ | ⟨_, rfl⟩
  · simp only [tidy, firstCount, hf] at ht
    simp only [tidy, firstCount, laterHits_replaceMember,
      findMember_replaceMember e new ms old hf]
    exact ⟨ht.1, memberCount_setAt_one k b old v new hn ht.2⟩
  · simp only [tidy, firstCount, laterHits_append_of_none e _ _ ms hf,
      findMember_append_of_none e _ ms hf, memberCount, countName]
    refine ⟨trivial, ?_⟩
    split <;> omega
  · simp only [tidy, firstCount, laterHits, gjson.scan, findMember, memberCount, countName,
      if_true]
    refine ⟨trivial, ?_⟩
    split <;> omega

theorem memberCount_Delete_one_le (k b : String) (old : JVal) :
    memberCount k (sjson.Delete [b] old) ≤ memberCount k old := by
  rcases obj_or_not old with ⟨inner, rfl⟩ | hno
  · rw [Delete_one_obj]
    exact countName_removeMember_le k b inner
  · rw [Delete_one_not_obj b old hno]

theorem tidy_Delete (e k b : String) (doc : JVal) (ht : tidy e k doc) :
    tidy e k (sjson.Delete [e, b] doc) := by
  rcases Delete_two_cases e b doc with ⟨ms, old, rfl, hf, hd⟩ | ⟨_, hd⟩
  · rw [hd]
    simp only [tidy, firstCount, hf] at ht
    simp only [tidy, firstCount, laterHits_replaceMember,
      findMember_replaceMember e _ ms old hf]
    exact ⟨ht.1, Nat.le_trans (memberCount_Delete_one_le k b old) ht.2⟩
  · rw [hd]
    exact ht

theorem Get_Delete_one_of_count (k : String) (old : JVal) (hc : memberCount k old ≤ 1) :
    gjson.Get [k] (sjson.Delete [k] old) = none := by
  rcases obj_or_not old with ⟨inner, rfl⟩ | hno
  · rw [Delete_one_obj, Get_one]
    exact findMember_removeMember_of_count_le_one k inner hc
  · rw [Delete_one_not_obj k old hno]
    exact Get_of_not_obj _ old hno

theorem Get_Delete_of_tidy (e k : String) (doc : JVal) (ht : tidy e k doc) :
    gjson.Get [e, k] (sjson.Delete [e, k] doc) = none := by
  rcases Delete_two_cases e k doc with ⟨ms, old, rfl, hf, hd⟩ | ⟨hnone, hd⟩
  · rw [hd, Get_two, scan_replaceMember e _ _ old ms hf]
    simp only [tidy, firstCount, hf] at ht
    rw [Get_Delete_one_of_count k old ht.2]
    exact ht.1
  · rw [hd]
    rcases obj_or_not doc with ⟨ms, rfl⟩ | hno
    · rw [Get_two]
      exact scan_of_findMember_none e _ _ ms (hnone ms rfl)
    · exact Get_of_not_obj _ doc hno

theorem laterHits_of_countName_le_one (e : String) (g : JVal → Option JVal)
    (ms : List (String × JVal)) (h : countName e ms ≤ 1) : laterHits e g ms = none := by
  induction ms with
  | nil => rfl
  | cons m ms ih =>
      unfold countName at h
      unfold laterHits
      by_cases hm : m.1 = e
      · simp only [hm, if_true] at h ⊢
        exact scan_of_findMember_none e _ _ ms
          (findMember_none_of_countName_eq_zero e ms (by omega))
      · simp only [hm, if_false, Nat.zero_add] at h ⊢
        exact ih h

theorem tidy_of_namesOnce (file : JVal) (h : claude.namesOnce file = true) :
    tidy "env" "ANTHROPIC_AUTH_TOKEN" file ∧ tidy "env" "ANTHROPIC_BASE_URL" file := by
  rcases obj_or_not file with ⟨ms, rfl⟩ | hno
  · simp only [claude.namesOnce, Bool.and_eq_true, decide_eq_true_eq] at h
    obtain ⟨h1, h2⟩ := h
    simp only [tidy, firstCount, laterHits_of_countName_le_one "env" _ ms h1, true_and]
    cases hf : findMember "env" ms with
    | none => simp
    | some old =>
        rcases obj_or_not old with ⟨inner, rfl⟩ | hno
        · simp only [hf, Bool.and_eq_true, decide_eq_true_eq] at h2
          exact h2
        · cases old <;> simp_all [memberCount]
  · cases file <;> simp_all [tidy]

/-- The effect of a successful `SetAuthConfig`. -/
theorem SetAuthConfig_ok (f : Faults) (file : JVal) (apiKey apiURL : String) (file1 : JVal)
    (h : claude.SetAuthConfig f file apiKey apiURL = (file1, none)) :
    ∃ d, sjson.setAt claude.tokenPath file (JVal.str apiKey) = some d ∧
      sjson.setAt claude.baseURLPath d (JVal.str apiURL) = some file1 := by
  unfold claude.SetAuthConfig at h
  cases hr : f.readClaude with
  | true => simp [hr] at h
  | false =>
      simp only [hr, Bool.false_eq_true, if_false] at h
      cases h1 : sjson.Set claude.tokenPath file apiKey with
      | none => simp [h1] at h
      | some d =>
          simp only [h1] at h
          cases h2 : sjson.Set claude.baseURLPath d apiURL with
          | none => simp [h2] at h
          | some d2 =>
              simp only [h2] at h
              cases hw : f.writeClaude with
              | true => simp [hw] at h
              | false =>
                  simp only [hw, Bool.false_eq_true, if_false, Prod.mk.injEq, and_true] at h
                  subst h
                  refine ⟨d, ?_, ?_⟩
                  · simpa [sjson.Set, claude.tokenPath] using h1
                  · simpa [sjson.Set, claude.baseURLPath] using h2

/-- The effect of a successful `RemoveAuthConfig`. -/
theorem RemoveAuthConfig_ok (f : Faults) (file file1 : JVal)
    (h : claude.RemoveAuthConfig f file = (file1, none)) :
    file1 = sjson.Delete claude.baseURLPath (sjson.Delete claude.tokenPath file) := by
  unfold claude.RemoveAuthConfig at h
  cases hr : f.readClaude with
  | true => simp [hr] at h
  | false =>
      cases hw : f.writeClaude with
      | true => simp [hr, hw] at h
      | false =>
          simp only [hr, hw, Bool.false_eq_true, if_false, Prod.mk.injEq, and_true] at h
          exact h.symm

theorem Get_after_SetAuthConfig (f : Faults) (file : JVal) (apiKey apiURL : String)
    (file1 : JVal) (h : claude.SetAuthConfig f file apiKey apiURL = (file1, none)) :
    gjson.Get claude.tokenPath file1 = some (JVal.str apiKey) ∧
    gjson.Get claude.baseURLPath file1 = some (JVal.str apiURL) := by
  obtain ⟨d, h1, h2⟩ := SetAuthConfig_ok f file apiKey apiURL file1 h
  constructor
  · have := Get_setAt_two_ne "env" "ANTHROPIC_AUTH_TOKEN" "ANTHROPIC_BASE_URL" (by decide)
      d (JVal.str apiURL) file1 h2
    simp only [claude.tokenPath]
    rw [this]
    exact Get_setAt_two _ _ file _ d h1
  · exact Get_setAt_two _ _ d _ file1 h2

theorem tidy_after_SetAuthConfig (f : Faults) (file : JVal) (apiKey apiURL : String)
    (file1 : JVal) (k : String) (ht : tidy "env" k file)
    (h : claude.SetAuthConfig f file apiKey apiURL = (file1, none)) :
    tidy "env" k file1 := by
  obtain ⟨d, h1, h2⟩ := SetAuthConfig_ok f file apiKey apiURL file1 h
  exact tidy_setAt _ _ _ d _ file1 (tidy_setAt _ _ _ file _ d ht h1) h2

theorem absent_after_Remove (file : JVal)
    (ht : tidy "env" "ANTHROPIC_AUTH_TOKEN" file) (hu : tidy "env" "ANTHROPIC_BASE_URL" file) :
    claude.absent (sjson.Delete claude.baseURLPath (sjson.Delete claude.tokenPath file)) := by
  constructor
  · simp only [claude.tokenPath, claude.baseURLPath]
    rw [Get_Delete_two_ne "env" _ _ (by decide)]
    exact Get_Delete_of_tidy _ _ file ht
  · exact Get_Delete_of_tidy _ _ _ (tidy_Delete _ _ _ file hu)

theorem Save_claudeFile (f : Faults) (m : config.Manager) :
    (config.Manager.Save f m).1.world.claudeFile = m.world.claudeFile := by
  unfold config.Manager.Save
  split <;> rfl

theorem firstActive_append (pre post : List models.Profile) (p : models.Profile)
    (hpre : ∀ q ∈ pre, q.Active = false) (hp : p.Active = true) :
    models.firstActive (pre ++ p :: post) = some p := by
  induction pre with
  | nil => simp [models.firstActive, hp]
  | cons q pre ih =>
      have hq : q.Active = false := hpre q (List.mem_cons_self _ _)
      simp [models.firstActive, hq, ih (fun r hr => hpre r (List.mem_cons_of_mem _ hr))]

/-- What a successful `SetEnabled` has done. -/
theorem SetEnabled_ok (f : Faults) (m : config.Manager) (b : Bool)
    (hok : (m.SetEnabled f b).2 = none) :
    (m.SetEnabled f b).1.settings = { m.settings with Enabled := b } ∧
    (b = true →
      (m.settings.GetActiveProfile = none ∧
        (m.SetEnabled f b).1.world.claudeFile = m.world.claudeFile) ∨
      (∃ p, m.settings.GetActiveProfile = some p ∧
        claude.SetAuthConfig f m.world.claudeFile p.APIKey p.APIURL =
          ((m.SetEnabled f b).1.world.claudeFile, none))) ∧
    (b = false →
      claude.RemoveAuthConfig f m.world.claudeFile =
        ((m.SetEnabled f b).1.world.claudeFile, none)) := by
  cases b with
  | true =>
      simp only [config.Manager.SetEnabled, if_true, models.Settings.GetActiveProfile] at hok ⊢
      cases hga : models.firstActive m.settings.Profiles with
      | none =>
          simp only [hga] at hok ⊢
          simp [Save_settings, Save_claudeFile]
      | some p =>
          simp only [hga] at hok ⊢
          cases hr : claude.SetAuthConfig f m.world.claudeFile p.APIKey p.APIURL with
          | mk file1 err =>
              cases err with
              | some e => simp [hr] at hok
              | none => simp [hr, Save_settings, Save_claudeFile]
  | false =>
      simp only [config.Manager.SetEnabled, Bool.false_eq_true, if_false] at hok ⊢
      cases hr : claude.RemoveAuthConfig f m.world.claudeFile with
      | mk file1 err =>
          cases err with
          | some e => simp [hr] at hok
          | none => simp [hr, Save_settings, Save_claudeFile]

/-- What a successful `SetActiveProfile` has done. -/
theorem SetActiveProfile_ok (f : Faults) (m : config.Manager) (name : String)
    (hok : (m.SetActiveProfile f name).2 = none) :
    (m.SetActiveProfile f name).1.settings = m.settings.SetActiveProfile name ∧
    ((m.settings.Enabled = false ∨ (m.settings.SetActiveProfile name).GetActiveProfile = none) →
      (m.SetActiveProfile f name).1.world.claudeFile = m.world.claudeFile) ∧
    (m.settings.Enabled = true →
      ∀ p, (m.settings.SetActiveProfile name).GetActiveProfile = some p →
        claude.SetAuthConfig f m.world.claudeFile p.APIKey p.APIURL =
          ((m.SetActiveProfile f name).1.world.claudeFile, none)) := by
  simp only [config.Manager.SetActiveProfile] at hok ⊢
  have hE : (m.settings.SetActiveProfile name).Enabled = m.settings.Enabled := rfl
  cases hen : m.settings.Enabled with
  | false =>
      simp only [hE, hen, Bool.false_eq_true, if_false] at hok ⊢
      simp [Save_settings, Save_claudeFile]
  | true =>
      simp only [hE, hen, if_true] at hok ⊢
      cases hga : (m.settings.SetActiveProfile name).GetActiveProfile with
      | none =>
          simp only [hga] at hok ⊢
          simp [Save_settings, Save_claudeFile]
      | some p =>
          simp only [hga] at hok ⊢
          cases hr : claude.SetAuthConfig f m.world.claudeFile p.APIKey p.APIURL with
          | mk file1 err =>
              cases err with
              | some e => simp [hr] at hok
              | none => simp [hr, Save_settings, Save_claudeFile]

/-- C7: when `p` is the first profile, in stored order, with `Active == true`,
a successful `SetEnabled(true)` leaves the credential store with
`env.ANTHROPIC_AUTH_TOKEN` equal to `p.APIKey` and `env.ANTHROPIC_BASE_URL` equal to
`p.APIURL`, whatever the document held before, and leaves `Enabled == true`. -/
theorem C7_SetEnabled_true_pushes (f : Faults) (m : config.Manager)
    (pre post : List models.Profile) (p : models.Profile)
    (hps : m.settings.Profiles = pre ++ p :: post)
    (hpre : ∀ q ∈ pre, q.Active = false) (hp : p.Active = true)
    (hok : (m.SetEnabled f true).2 = none) :
    gjson.Get claude.tokenPath (m.SetEnabled f true).1.world.claudeFile
      = some (JVal.str p.APIKey) ∧
    gjson.Get claude.baseURLPath (m.SetEnabled f true).1.world.claudeFile
      = some (JVal.str p.APIURL) ∧
    (m.SetEnabled f true).1.settings.Enabled = true := by
  have hga : m.settings.GetActiveProfile = some p := by
    simp only [models.Settings.GetActiveProfile, hps]
    exact firstActive_append pre post p hpre hp
  obtain ⟨hs, ht, _⟩ := SetEnabled_ok f m true hok
  rcases ht rfl with ⟨hnone, _⟩ | ⟨q, hq, hset⟩
  · rw [hga] at hnone
    cases hnone
  · rw [hga] at hq
    cases hq
    have := Get_after_SetAuthConfig f _ _ _ _ hset
    exact ⟨this.1, this.2, by rw [hs]⟩

theorem C7_SetEnabled_true_pushes_witness :
    gjson.Get claude.tokenPath
        (config.Manager.SetEnabled Faults.noFaults
          (sample.manager [sample.test, sample.prod, sample.dev]
            (JVal.obj [("model", JVal.str "x"), ("env", JVal.num "5")])) true).1.world.claudeFile
      = some (JVal.str "k1") ∧
    gjson.Get claude.baseURLPath
        (config.Manager.SetEnabled Faults.noFaults
          (sample.manager [sample.test, sample.prod, sample.dev]
            (JVal.obj [("model", JVal.str "x"), ("env", JVal.num "5")])) true).1.world.claudeFile
      = some (JVal.str "https://x") ∧
    (config.Manager.SetEnabled Faults.noFaults
          (sample.manager [sample.test, sample.prod, sample.dev]
            (JVal.obj [("model", JVal.str "x"), ("env", JVal.num "5")])) true).1.settings.Enabled
      = true :=
  C7_SetEnabled_true_pushes Faults.noFaults
    (sample.manager [sample.test, sample.prod, sample.dev]
      (JVal.obj [("model", JVal.str "x"), ("env", JVal.num "5")]))
    [sample.test] [sample.dev] sample.prod rfl (by decide) rfl rfl

/-- C8, as stated, fails: in a credential store whose `env` object names each
of the two fields twice, `sjson.DeleteBytes` removes one occurrence of each;
after a successful `SetEnabled(false)` both fields still exist and
`HasAuthConfig` reports true. -/
theorem C8_counterexample :
    (config.Manager.SetEnabled Faults.noFaults
        (sample.manager [sample.prod]
          (JVal.obj [("env", JVal.obj
            [("ANTHROPIC_AUTH_TOKEN", JVal.str "a"), ("ANTHROPIC_BASE_URL", JVal.str "u"),
             ("ANTHROPIC_AUTH_TOKEN", JVal.str "b"), ("ANTHROPIC_BASE_URL", JVal.str "v")])]))
        false).2 = none ∧
    claude.HasAuthConfig Faults.noFaults
      (config.Manager.SetEnabled Faults.noFaults
        (sample.manager [sample.prod]
          (JVal.obj [("env", JVal.obj
            [("ANTHROPIC_AUTH_TOKEN", JVal.str "a"), ("ANTHROPIC_BASE_URL", JVal.str "u"),
             ("ANTHROPIC_AUTH_TOKEN", JVal.str "b"), ("ANTHROPIC_BASE_URL", JVal.str "v")])]))
        false).1.world.claudeFile = Except.ok true := by
  constructor
  · decide
  · rfl

/-- C8 (amended): for every Settings and every credential-store document that
names `env` at most once and, inside `env`, each of the two fields at most once,
after a successful `SetEnabled(false)` both `env.ANTHROPIC_AUTH_TOKEN` and
`env.ANTHROPIC_BASE_URL` are absent from the credential store, so `HasAuthConfig`
(when it can read the file) reports false, and `Enabled == false`. -/
theorem C8_SetEnabled_false_removes (f g : Faults) (m : config.Manager)
    (hdoc : claude.namesOnce m.world.claudeFile = true)
    (hok : (m.SetEnabled f false).2 = none) (hg : g.readClaude = false) :
    gjson.Get claude.tokenPath (m.SetEnabled f false).1.world.claudeFile = none ∧
    gjson.Get claude.baseURLPath (m.SetEnabled f false).1.world.claudeFile = none ∧
    claude.HasAuthConfig g (m.SetEnabled f false).1.world.claudeFile = Except.ok false ∧
    (m.SetEnabled f false).1.settings.Enabled = false := by
  obtain ⟨hs, _, hrem⟩ := SetEnabled_ok f m false hok
  have hfile := RemoveAuthConfig_ok f _ _ (hrem rfl)
  obtain ⟨ht, hu⟩ := tidy_of_namesOnce _ hdoc
  have habs := absent_after_Remove m.world.claudeFile ht hu
  rw [← hfile] at habs
  refine ⟨habs.1, habs.2, ?_, by rw [hs]⟩
  simp [claude.HasAuthConfig, claude.HasAuthToken, claude.HasBaseURL, hg, habs.1, habs.2]

theorem C8_SetEnabled_false_removes_witness :
    gjson.Get claude.tokenPath
      (config.Manager.SetEnabled Faults.noFaults
        (sample.manager [sample.prod]
          (JVal.obj [("env", JVal.obj
            [("ANTHROPIC_AUTH_TOKEN", JVal.str "a"), ("OTHER", JVal.null),
             ("ANTHROPIC_BASE_URL", JVal.str "u")])]))
        false).1.world.claudeFile = none :=
  (C8_SetEnabled_false_removes Faults.noFaults Faults.noFaults
    (sample.manager [sample.prod]
      (JVal.obj [("env", JVal.obj
        [("ANTHROPIC_AUTH_TOKEN", JVal.str "a"), ("OTHER", JVal.null),
         ("ANTHROPIC_BASE_URL", JVal.str "u")])]))
    (by decide) (by decide) rfl).1

/-! ## Credentials and the declared state -/

theorem Save_world_frame (f : Faults) (m : config.Manager) :
    (config.Manager.Save f m).1.world.claudeFile = m.world.claudeFile ∧
    (config.Manager.Save f m).1.settings.Enabled = m.settings.Enabled := by
  unfold config.Manager.Save
  split <;> exact ⟨rfl, rfl⟩

theorem step_edit_frame (f : Faults) (m : config.Manager) (c : config.Call)
    (hc : c.isEdit = true ∨ ∃ b, c = config.Call.SetAutoStart b) :
    (config.step f m c).1.world.claudeFile = m.world.claudeFile ∧
    (config.step f m c).1.settings.Enabled = m.settings.Enabled := by
  cases c with
  | AddProfile p =>
      simp only [config.step, config.Manager.AddProfile]
      split
      · exact ⟨rfl, rfl⟩
      · exact Save_world_frame f _
  | DeleteProfile name =>
      simp only [config.step, config.Manager.DeleteProfile]
      split
      · exact ⟨rfl, rfl⟩
      · exact Save_world_frame f _
  | UpdateProfile name u =>
      simp only [config.step, config.Manager.UpdateProfile]
      split
      · exact ⟨rfl, rfl⟩
      · exact Save_world_frame f _
  | SetEnabled b => simp [config.Call.isEdit] at hc
  | SetActiveProfile n => simp [config.Call.isEdit] at hc
  | SetAutoStart b =>
      simp only [config.step, config.Manager.SetAutoStart]
      split
      · exact ⟨rfl, rfl⟩
      · exact Save_world_frame f _

theorem step_keeps_reach (f : Faults) (m : config.Manager) (c : config.Call)
    (ht : tidy "env" "ANTHROPIC_AUTH_TOKEN" m.world.claudeFile)
    (hu : tidy "env" "ANTHROPIC_BASE_URL" m.world.claudeFile)
    (hdis : m.settings.Enabled = false → claude.absent m.world.claudeFile)
    (hok : (config.step f m c).2 = none) :
    tidy "env" "ANTHROPIC_AUTH_TOKEN" (config.step f m c).1.world.claudeFile ∧
    tidy "env" "ANTHROPIC_BASE_URL" (config.step f m c).1.world.claudeFile ∧
    ((config.step f m c).1.settings.Enabled = false →
      claude.absent (config.step f m c).1.world.claudeFile) := by
  have frame : (c.isEdit = true ∨ ∃ b, c = config.Call.SetAutoStart b) →
      tidy "env" "ANTHROPIC_AUTH_TOKEN" (config.step f m c).1.world.claudeFile ∧
      tidy "env" "ANTHROPIC_BASE_URL" (config.step f m c).1.world.claudeFile ∧
      ((config.step f m c).1.settings.Enabled = false →
        claude.absent (config.step f m c).1.world.claudeFile) := by
    intro hc
    obtain ⟨h1, h2⟩ := step_edit_frame f m c hc
    rw [h1, h2]
    exact ⟨ht, hu, hdis⟩
  cases c with
  | AddProfile p => exact frame (Or.inl rfl)
  | DeleteProfile name => exact frame (Or.inl rfl)
  | UpdateProfile name u => exact frame (Or.inl rfl)
  | SetAutoStart b => exact frame (Or.inr ⟨b, rfl⟩)
  | SetEnabled b =>
      simp only [config.step] at hok ⊢
      obtain ⟨hs, hpush, hrem⟩ := SetEnabled_ok f m b hok
      cases b with
      | true =>
          have hen : (m.SetEnabled f true).1.settings.Enabled = true := by rw [hs]
          rcases hpush rfl with ⟨_, hfile⟩ | ⟨p, _, hset⟩
          · rw [hfile]
            exact ⟨ht, hu, fun h => by rw [hen] at h; cases h⟩
          · exact ⟨tidy_after_SetAuthConfig f _ _ _ _ _ ht hset,
              tidy_after_SetAuthConfig f _ _ _ _ _ hu hset,
              fun h => by rw [hen] at h; cases h⟩
      | false =>
          have hfile := RemoveAuthConfig_ok f _ _ (hrem rfl)
          rw [hfile]
          refine ⟨?_, ?_, fun _ => absent_after_Remove _ ht hu⟩
          · exact tidy_Delete _ _ _ _ (tidy_Delete _ _ _ _ ht)
          · exact tidy_Delete _ _ _ _ (tidy_Delete _ _ _ _ hu)
  | SetActiveProfile name =>
      simp only [config.step] at hok ⊢
      obtain ⟨hs, hkeep, hpush⟩ := SetActiveProfile_ok f m name hok
      have hen : (m.SetActiveProfile f name).1.settings.Enabled = m.settings.Enabled := by
        rw [hs]; rfl
      cases he : m.settings.Enabled with
      | false =>
          rw [hkeep (Or.inl he), hen]
          exact ⟨ht, hu, hdis⟩
      | true =>
          have hen1 : (m.SetActiveProfile f name).1.settings.Enabled = true := by rw [hen, he]
          cases hga : (m.settings.SetActiveProfile name).GetActiveProfile with
          | none =>
              rw [hkeep (Or.inr hga)]
              exact ⟨ht, hu, fun h => by rw [hen1] at h; cases h⟩
          | some p =>
              have hset := hpush he p hga
              exact ⟨tidy_after_SetAuthConfig f _ _ _ _ _ ht hset,
                tidy_after_SetAuthConfig f _ _ _ _ _ hu hset,
                fun h => by rw [hen1] at h; cases h⟩

theorem runOk_keeps_reach (cs : List (Faults × config.Call)) :
    ∀ (m m1 : config.Manager),
      tidy "env" "ANTHROPIC_AUTH_TOKEN" m.world.claudeFile →
      tidy "env" "ANTHROPIC_BASE_URL" m.world.claudeFile →
      (m.settings.Enabled = false → claude.absent m.world.claudeFile) →
      config.runOk m cs = some m1 →
      (m1.settings.Enabled = false → claude.absent m1.world.claudeFile) := by
  induction cs with
  | nil =>
      intro m m1 _ _ hdis hrun
      simp only [config.runOk, Option.some.injEq] at hrun
      subst hrun
      exact hdis
  | cons c cs ih =>
      intro m m1 ht hu hdis hrun
      simp only [config.runOk] at hrun
      cases hstep : config.step c.1 m c.2 with
      | mk m2 err =>
          cases err with
          | some e => simp [hstep] at hrun
          | none =>
              simp only [hstep] at hrun
              have hok : (config.step c.1 m c.2).2 = none := by rw [hstep]
              have hinv := step_keeps_reach c.1 m c.2 ht hu hdis hok
              rw [hstep] at hinv
              exact ih m2 m1 hinv.1 hinv.2.1 hinv.2.2 hrun

/-- C10, as stated, fails: from a disabled manager with no profile and an
empty credential store, the successful calls `AddProfile(test)`,
`SetActiveProfile("test")`, `SetEnabled(true)`, `DeleteProfile("test")` end in
the state enabled/no-active with both credential fields present:
`DeleteProfile` does not touch the credential store. -/
theorem C10_counterexample :
    (sample.manager [] (JVal.obj [])).settings.Enabled = false ∧
    (sample.manager [] (JVal.obj [])).settings.GetActiveProfile = none ∧
    (gjson.Get claude.tokenPath (sample.manager [] (JVal.obj [])).world.claudeFile).isSome = false ∧
    (gjson.Get claude.baseURLPath (sample.manager [] (JVal.obj [])).world.claudeFile).isSome = false ∧
    ((config.runOk (sample.manager [] (JVal.obj []))
        [(Faults.noFaults, config.Call.AddProfile sample.test),
         (Faults.noFaults, config.Call.SetActiveProfile "test"),
         (Faults.noFaults, config.Call.SetEnabled true),
         (Faults.noFaults, config.Call.DeleteProfile "test")]).map
      (fun m => (m.settings.Enabled, m.settings.GetActiveProfile,
        (gjson.Get claude.tokenPath m.world.claudeFile).isSome,
        (gjson.Get claude.baseURLPath m.world.claudeFile).isSome)))
      = some (true, none, true, true) := by
  refine ⟨rfl, rfl, rfl, rfl, ?_⟩
  decide

/-- C10 (amended): in every state reached by successful calls of `SetEnabled`,
`SetActiveProfile`, `AddProfile`, `DeleteProfile`, `UpdateProfile` (and
`SetAutoStart`) from a state with no credential fields in the credential
store (in particular one with `Enabled == false` and no active profile), the
credential fields `env.ANTHROPIC_AUTH_TOKEN` and
`env.ANTHROPIC_BASE_URL` are present only if `Enabled == true`: in the two
disabled states, with or without an active profile, both fields are absent. -/
theorem C10_disabled_means_absent (m m1 : config.Manager) (cs : List (Faults × config.Call))
    (htoken : gjson.Get claude.tokenPath m.world.claudeFile = none)
    (hurl : gjson.Get claude.baseURLPath m.world.claudeFile = none)
    (hrun : config.runOk m cs = some m1) :
    m1.settings.Enabled = false →
      gjson.Get claude.tokenPath m1.world.claudeFile = none ∧
      gjson.Get claude.baseURLPath m1.world.claudeFile = none :=
  runOk_keeps_reach cs m m1 (tidy_of_Get_none _ _ _ htoken) (tidy_of_Get_none _ _ _ hurl)
    (fun _ => ⟨htoken, hurl⟩) hrun

theorem C10_disabled_means_absent_witness :
    gjson.Get claude.tokenPath
      (config.Manager.SetEnabled Faults.noFaults
        (config.Manager.SetEnabled Faults.noFaults
          (sample.manager [sample.prod] (JVal.obj [("env", JVal.obj [("X", JVal.null)])]))
          true).1 false).1.world.claudeFile = none ∧
    gjson.Get claude.baseURLPath
      (config.Manager.SetEnabled Faults.noFaults
        (config.Manager.SetEnabled Faults.noFaults
          (sample.manager [sample.prod] (JVal.obj [("env", JVal.obj [("X", JVal.null)])]))
          true).1 false).1.world.claudeFile = none :=
  C10_disabled_means_absent
    (sample.manager [sample.prod] (JVal.obj [("env", JVal.obj [("X", JVal.null)])]))
    (config.Manager.SetEnabled Faults.noFaults
        (config.Manager.SetEnabled Faults.noFaults
          (sample.manager [sample.prod] (JVal.obj [("env", JVal.obj [("X", JVal.null)])]))
          true).1 false).1
    [(Faults.noFaults, config.Call.SetEnabled true),
     (Faults.noFaults, config.Call.SetEnabled false)]
    rfl rfl rfl rfl

/-! ## The settings file: `Save` followed by `Load` -/

theorem hexVal_hexDigit (n : Nat) (h : n < 16) : json.hexVal (json.hexDigit n) = some n := by
  interval_cases n <;> decide

theorem getu4_low (a b : Nat) (ha : a < 16) (hb : b < 16) (r : List Char) :
    json.getu4 ('0' :: '0' :: json.hexDigit a :: json.hexDigit b :: r) = some (a * 16 + b, r) := by
  have h0 : json.hexVal '0' = some 0 := by decide
  simp [json.getu4, h0, hexVal_hexDigit a ha, hexVal_hexDigit b hb]

theorem readString_cons (n : Nat) (c : Char) (cs acc : List Char) :
    json.readString (n + 1) (c :: cs) acc =
      if c = '"' then some (String.mk acc, cs)
      else if c = '\\' then
        match json.readEscape cs with
        | some (d, r) => json.readString n r (acc ++ [d])
        | none => none
      else if c.toNat < 32 then none
      else json.readString n cs (acc ++ [c]) := rfl

theorem readEscape_u (r : List Char) :
    json.readEscape ('u' :: r) =
      match json.getu4 r with
      | none => none
      | some (rr, r1) =>
          if 0xD800 ≤ rr ∧ rr < 0xE000 then
            match r1 with
            | '\\' :: 'u' :: r2 =>
                match json.getu4 r2 with
                | some (rr1, r3) =>
                    if rr < 0xDC00 ∧ 0xDC00 ≤ rr1 ∧ rr1 < 0xE000 then
                      some (Char.ofNat ((rr - 0xD800) * 1024 + (rr1 - 0xDC00) + 0x10000), r3)
                    else some (json.replacementChar, r1)
                | none => some (json.replacementChar, r1)
            | _ => some (json.replacementChar, r1)
          else some (Char.ofNat rr, r1) := rfl

theorem low_code_facts (k : Nat) (hk : k < 64) :
    k / 16 < 16 ∧ k % 16 < 16 ∧ k / 16 * 16 + k % 16 = k ∧ ¬ (0xD800 ≤ k ∧ k < 0xE000) := by
  omega

theorem readString_unicode_escape (a b c d : Char) (k : Nat) (r acc : List Char) (n : Nat)
    (hg : json.getu4 (a :: b :: c :: d :: r) = some (k, r))
    (hns : ¬ (0xD800 ≤ k ∧ k < 0xE000)) :
    json.readString (n + 1) (['\\', 'u', a, b, c, d] ++ r) acc
      = json.readString n r (acc ++ [Char.ofNat k]) := by
  rw [show ['\\', 'u', a, b, c, d] ++ r = '\\' :: 'u' :: a :: b :: c :: d :: r from rfl]
  rw [readString_cons, if_neg (by decide), if_pos rfl, readEscape_u, hg]
  simp only [hns, if_false]

theorem readString_escapeChar (c : Char) (r acc : List Char) (n : Nat) :
    json.readString (n + 1) (json.escapeChar c ++ r) acc = json.readString n r (acc ++ [c]) := by
  unfold json.escapeChar
  split_ifs with h1 h2 h3 h4 h5 h6 h7 h8 h9
  · subst h1; rfl
  · subst h2; rfl
  · subst h3; rfl
  · subst h4; rfl
  · subst h5; rfl
  · subst h6; rfl
  · subst h7; rfl
  · have hlt : c.toNat < 64 := by
      rcases h8 with h | h | h | h
      · exact Nat.lt_trans h (by decide)
      · subst h; decide
      · subst h; decide
      · subst h; decide
    obtain ⟨ha, hb, hv, hns⟩ := low_code_facts c.toNat hlt
    have hg := getu4_low (c.toNat / 16) (c.toNat % 16) ha hb r
    rw [hv] at hg
    rw [readString_unicode_escape _ _ _ _ c.toNat r acc n hg hns, Char.ofNat_toNat]
  · have hd : json.hexVal (json.hexDigit (c.toNat % 16)) = some (c.toNat % 16) ∧
        ((2 * 16 + 0) * 16 + 2) * 16 + c.toNat % 16 = c.toNat ∧
        ¬ (0xD800 ≤ c.toNat ∧ c.toNat < 0xE000) := by
      rcases h9 with h | h <;> subst h <;> decide
    have h2v : json.hexVal '2' = some 2 := by decide
    have h0v : json.hexVal '0' = some 0 := by decide
    have hg : json.getu4 ('2' :: '0' :: '2' :: json.hexDigit (c.toNat % 16) :: r)
        = some (c.toNat, r) := by
      simp only [json.getu4, h2v, h0v, hd.1]
      rw [hd.2.1]
    rw [readString_unicode_escape _ _ _ _ c.toNat r acc n hg hd.2.2, Char.ofNat_toNat]
  · have h32 : ¬ c.toNat < 32 := fun h => h8 (Or.inl h)
    rw [List.singleton_append, readString_cons, if_neg h1, if_neg h2, if_neg h32]

theorem readString_escapeChars (cs : List Char) :
    ∀ (r acc : List Char) (n : Nat), cs.length + 1 ≤ n →
      json.readString n (json.escapeChars cs ++ '"' :: r) acc = some (String.mk (acc ++ cs), r) := by
  induction cs with
  | nil =>
      intro r acc n hn
      obtain ⟨m, rfl⟩ : ∃ m, n = m + 1 := ⟨n - 1, by omega⟩
      simp [json.escapeChars, readString_cons]
  | cons c cs ih =>
      intro r acc n hn
      obtain ⟨m, rfl⟩ : ∃ m, n = m + 1 := ⟨n - 1, by omega⟩
      simp only [json.escapeChars, List.append_assoc]
      rw [readString_escapeChar, ih r (acc ++ [c]) m (by simpa using hn)]
      simp

theorem length_le_escapeChars (cs : List Char) : cs.length ≤ (json.escapeChars cs).length := by
  induction cs with
  | nil => simp [json.escapeChars]
  | cons c cs ih =>
      have h1 : 1 ≤ (json.escapeChar c).length := by
        unfold json.escapeChar
        split_ifs <;> simp
      simp only [json.escapeChars, List.length_append, List.length_cons]
      omega

/-- A string the encoder wrote is read back, whatever follows it. -/
theorem readString_encodeString (s : String) (r : List Char) :
    json.readString ((json.escapeChars s.data ++ '"' :: r).length + 1)
      (json.escapeChars s.data ++ '"' :: r) [] = some (s, r) := by
  have h := readString_escapeChars s.data r []
    ((json.escapeChars s.data ++ '"' :: r).length + 1)
    (by
      have := length_le_escapeChars s.data
      simp only [List.length_append, List.length_cons]
      omega)
  simpa using h

theorem readValue_succ (n d : Nat) (cs : List Char) :
    json.readValue (n + 1) d cs =
      match json.skipSpace cs with
      | '{' :: r =>
          if d < json.maxNestingDepth then
            match json.skipSpace r with
            | '}' :: r1 => some (JVal.obj [], r1)
            | _ => json.readMembers n (d + 1) r []
          else none
      | '[' :: r =>
          if d < json.maxNestingDepth then
            match json.skipSpace r with
            | ']' :: r1 => some (JVal.arr [], r1)
            | _ => json.readItems n (d + 1) r []
          else none
      | '"' :: r =>
          match json.readString (r.length + 1) r [] with
          | some (s, r1) => some (JVal.str s, r1)
          | none => none
      | 't' :: 'r' :: 'u' :: 'e' :: r => some (JVal.bool true, r)
      | 'f' :: 'a' :: 'l' :: 's' :: 'e' :: r => some (JVal.bool false, r)
      | 'n' :: 'u' :: 'l' :: 'l' :: r => some (JVal.null, r)
      | c :: r =>
          match json.readNumber (c :: r) with
          | some (t, r1) => some (JVal.num t, r1)
          | none => none
      | [] => none := rfl

theorem readMembers_succ (n d : Nat) (cs : List Char) (acc : List (String × JVal)) :
    json.readMembers (n + 1) d cs acc =
      match json.skipSpace cs with
      | '"' :: r =>
          match json.readString (r.length + 1) r [] with
          | some (k, r1) =>
              match json.skipSpace r1 with
              | ':' :: r2 =>
                  match json.readValue n d r2 with
                  | some (v, r3) =>
                      match json.skipSpace r3 with
                      | ',' :: r4 => json.readMembers n d r4 (acc ++ [(k, v)])
                      | '}' :: r4 => some (JVal.obj (acc ++ [(k, v)]), r4)
                      | _ => none
                  | none => none
              | _ => none
          | none => none
      | _ => none := rfl

theorem readItems_succ (n d : Nat) (cs : List Char) (acc : List JVal) :
    json.readItems (n + 1) d cs acc =
      match json.readValue n d cs with
      | some (v, r) =>
          match json.skipSpace r with
          | ',' :: r1 => json.readItems n d r1 (acc ++ [v])
          | ']' :: r1 => some (JVal.arr (acc ++ [v]), r1)
          | _ => none
      | none => none := rfl

/-- Reading a string value: the text is white space, then the string as encoded. -/
theorem readValue_string (n d : Nat) (cs : List Char) (s : String) (r : List Char)
    (hcs : json.skipSpace cs = '"' :: (json.escapeChars s.data ++ '"' :: r)) :
    json.readValue (n + 1) d cs = some (JVal.str s, r) := by
  rw [readValue_succ, hcs]
  show (match json.readString ((json.escapeChars s.data ++ '"' :: r).length + 1)
      (json.escapeChars s.data ++ '"' :: r) [] with
    | some (s, r1) => some (JVal.str s, r1)
    | none => none) = _
  rw [readString_encodeString]

/-- Reading a boolean value. -/
theorem readValue_bool (n d : Nat) (cs : List Char) (b : Bool) (r : List Char)
    (hcs : json.skipSpace cs = json.encodeBool b ++ r) :
    json.readValue (n + 1) d cs = some (JVal.bool b, r) := by
  rw [readValue_succ, hcs]
  cases b <;> rfl

/-- Reading one member of an object that is followed by a comma. -/
theorem readMembers_comma (n d : Nat) (cs : List Char) (k : String) (v : JVal)
    (vt r : List Char) (acc : List (String × JVal))
    (hcs : json.skipSpace cs = '"' :: (json.escapeChars k.data ++ '"' :: ':' :: vt))
    (hv : json.readValue n d vt = some (v, ',' :: r)) :
    json.readMembers (n + 1) d cs acc = json.readMembers n d r (acc ++ [(k, v)]) := by
  rw [readMembers_succ, hcs]
  show (match json.readString ((json.escapeChars k.data ++ '"' :: ':' :: vt).length + 1)
      (json.escapeChars k.data ++ '"' :: ':' :: vt) [] with
    | some (k, r1) =>
        match json.skipSpace r1 with
        | ':' :: r2 =>
            match json.readValue n d r2 with
            | some (v, r3) =>
                match json.skipSpace r3 with
                | ',' :: r4 => json.readMembers n d r4 (acc ++ [(k, v)])
                | '}' :: r4 => some (JVal.obj (acc ++ [(k, v)]), r4)
                | _ => none
            | none => none
        | _ => none
    | none => none) = _
  rw [readString_encodeString]
  show (match json.readValue n d vt with
    | some (v, r3) =>
        match json.skipSpace r3 with
        | ',' :: r4 => json.readMembers n d r4 (acc ++ [(k, v)])
        | '}' :: r4 => some (JVal.obj (acc ++ [(k, v)]), r4)
        | _ => none
    | none => none) = _
  rw [hv]
  rfl

/-- Reading the last member of an object, up to the closing brace. -/
theorem readMembers_close (n d : Nat) (cs : List Char) (k : String) (v : JVal)
    (vt r1 r : List Char) (acc : List (String × JVal))
    (hcs : json.skipSpace cs = '"' :: (json.escapeChars k.data ++ '"' :: ':' :: vt))
    (hv : json.readValue n d vt = some (v, r1))
    (hr1 : json.skipSpace r1 = '}' :: r) :
    json.readMembers (n + 1) d cs acc = some (JVal.obj (acc ++ [(k, v)]), r) := by
  rw [readMembers_succ, hcs]
  show (match json.readString ((json.escapeChars k.data ++ '"' :: ':' :: vt).length + 1)
      (json.escapeChars k.data ++ '"' :: ':' :: vt) [] with
    | some (k, r1) =>
        match json.skipSpace r1 with
        | ':' :: r2 =>
            match json.readValue n d r2 with
            | some (v, r3) =>
                match json.skipSpace r3 with
                | ',' :: r4 => json.readMembers n d r4 (acc ++ [(k, v)])
                | '}' :: r4 => some (JVal.obj (acc ++ [(k, v)]), r4)
                | _ => none
            | none => none
        | _ => none
    | none => none) = _
  rw [readString_encodeString]
  show (match json.readValue n d vt with
    | some (v, r3) =>
        match json.skipSpace r3 with
        | ',' :: r4 => json.readMembers n d r4 (acc ++ [(k, v)])
        | '}' :: r4 => some (JVal.obj (acc ++ [(k, v)]), r4)
        | _ => none
    | none => none) = _
  rw [hv]
  show (match json.skipSpace r1 with
    | ',' :: r4 => json.readMembers n d r4 (acc ++ [(k, v)])
    | '}' :: r4 => some (JVal.obj (acc ++ [(k, v)]), r4)
    | _ => none) = _
  rw [hr1]
  rfl

theorem encodeString_append (s : String) (r : List Char) :
    json.encodeString s ++ r = json.quoted s r := by
  simp [json.encodeString, json.quoted]

theorem readValue_quoted (n d : Nat) (cs : List Char) (s : String) (r : List Char)
    (hcs : json.skipSpace cs = json.quoted s r) :
    json.readValue (n + 1) d cs = some (JVal.str s, r) :=
  readValue_string n d cs s r hcs

theorem readMembers_comma_quoted (n d : Nat) (cs : List Char) (k : String) (v : JVal)
    (vt r : List Char) (acc : List (String × JVal))
    (hcs : json.skipSpace cs = json.quoted k (':' :: vt))
    (hv : json.readValue n d vt = some (v, ',' :: r)) :
    json.readMembers (n + 1) d cs acc = json.readMembers n d r (acc ++ [(k, v)]) :=
  readMembers_comma n d cs k v vt r acc hcs hv

theorem readMembers_close_quoted (n d : Nat) (cs : List Char) (k : String) (v : JVal)
    (vt r1 r : List Char) (acc : List (String × JVal))
    (hcs : json.skipSpace cs = json.quoted k (':' :: vt))
    (hv : json.readValue n d vt = some (v, r1))
    (hr1 : json.skipSpace r1 = '}' :: r) :
    json.readMembers (n + 1) d cs acc = some (JVal.obj (acc ++ [(k, v)]), r) :=
  readMembers_close n d cs k v vt r1 r acc hcs hv hr1

/-- Reading an object that has a first member. -/
theorem readValue_object (n d : Nat) (cs r : List Char) (k : String) (tail : List Char)
    (hd : d < json.maxNestingDepth)
    (hcs : json.skipSpace cs = '{' :: r) (hr : json.skipSpace r = json.quoted k tail) :
    json.readValue (n + 1) d cs = json.readMembers n (d + 1) r [] := by
  rw [readValue_succ, hcs]
  show (if d < json.maxNestingDepth then
      (match json.skipSpace r with
        | '}' :: r1 => some (JVal.obj [], r1)
        | _ => json.readMembers n (d + 1) r [])
    else none) = _
  rw [if_pos hd, hr]
  rfl

theorem quoted_append (s : String) (r t : List Char) :
    json.quoted s r ++ t = json.quoted s (r ++ t) := by
  simp [json.quoted]

/-- The text of a profile, written as a chain of quoted strings. -/
theorem encodeProfile_append (p : models.Profile) (rest : List Char) :
    json.encodeProfile p ++ rest =
      '{' :: ("\n      ".data ++ json.quoted "name" (':' :: ' ' :: json.quoted p.Name
        (',' :: ("\n      ".data ++ json.quoted "apiUrl" (':' :: ' ' :: json.quoted p.APIURL
        (',' :: ("\n      ".data ++ json.quoted "apiKey" (':' :: ' ' :: json.quoted p.APIKey
        (',' :: ("\n      ".data ++ json.quoted "active" (':' :: ' ' ::
          (json.encodeBool p.Active ++ ("\n    ".data ++ '}' :: rest))))))))))))) := by
  simp only [json.encodeProfile, List.append_assoc, encodeString_append, quoted_append]
  rfl

/-- Reading a boolean value that follows a colon and a space. -/
theorem readValue_bool_spaced (n d : Nat) (b : Bool) (r : List Char) :
    json.readValue (n + 1) d (' ' :: (json.encodeBool b ++ r)) = some (JVal.bool b, r) := by
  cases b <;> rfl

/-- Reading `null` after a colon and a space. -/
theorem readValue_null_spaced (n d : Nat) (r : List Char) :
    json.readValue (n + 1) d (' ' :: 'n' :: 'u' :: 'l' :: 'l' :: r) = some (JVal.null, r) := rfl

theorem readValue_profile (n d : Nat) (cs rest : List Char) (p : models.Profile)
    (hd : d < json.maxNestingDepth)
    (hcs : json.skipSpace cs = json.encodeProfile p ++ rest) :
    json.readValue (n + 6) d cs = some (json.profileValue p, rest) := by
  rw [encodeProfile_append] at hcs
  rw [readValue_object (n + 5) d cs _ "name" _ hd hcs rfl]
  refine Eq.trans (readMembers_comma_quoted (n + 4) (d + 1) _ "name" (JVal.str p.Name) _ _ _
    (by rfl) (readValue_quoted _ _ _ _ _ (by rfl))) ?_
  refine Eq.trans (readMembers_comma_quoted (n + 3) (d + 1) _ "apiUrl" (JVal.str p.APIURL) _ _ _
    (by rfl) (readValue_quoted _ _ _ _ _ (by rfl))) ?_
  refine Eq.trans (readMembers_comma_quoted (n + 2) (d + 1) _ "apiKey" (JVal.str p.APIKey) _ _ _
    (by rfl) (readValue_quoted _ _ _ _ _ (by rfl))) ?_
  exact readMembers_close_quoted (n + 1) (d + 1) _ "active" (JVal.bool p.Active) _ _ rest _
    (by rfl) (readValue_bool_spaced _ _ _ _) (by rfl)

theorem readItems_comma (n d : Nat) (cs : List Char) (v : JVal) (r : List Char) (acc : List JVal)
    (hv : json.readValue n d cs = some (v, ',' :: r)) :
    json.readItems (n + 1) d cs acc = json.readItems n d r (acc ++ [v]) := by
  rw [readItems_succ, hv]
  rfl

theorem readItems_close (n d : Nat) (cs : List Char) (v : JVal) (r1 r : List Char)
    (acc : List JVal) (hv : json.readValue n d cs = some (v, r1))
    (hr1 : json.skipSpace r1 = ']' :: r) :
    json.readItems (n + 1) d cs acc = some (JVal.arr (acc ++ [v]), r) := by
  rw [readItems_succ, hv]
  show (match json.skipSpace r1 with
    | ',' :: r1 => json.readItems n d r1 (acc ++ [v])
    | ']' :: r1 => some (JVal.arr (acc ++ [v]), r1)
    | _ => none) = _
  rw [hr1]
  rfl

/-- Reading the elements of the `profiles` array, one profile per line. -/
theorem readItems_profiles (d : Nat) (hd : d < json.maxNestingDepth)
    (ps : List models.Profile) :
    ∀ (p : models.Profile) (acc : List JVal) (k : Nat) (rest : List Char),
      json.readItems (k + ps.length + 7) d
        ("\n    ".data ++ (json.encodeProfile p ++
          (json.encodeMoreProfiles ps ++ ("\n  ".data ++ ']' :: rest)))) acc
      = some (JVal.arr (acc ++ (p :: ps).map json.profileValue), rest) := by
  induction ps with
  | nil =>
      intro p acc k rest
      exact readItems_close (k + 6) d _ (json.profileValue p) _ rest acc
        (readValue_profile k d _ _ p hd (by rfl)) (by rfl)
  | cons q qs ih =>
      intro p acc k rest
      have hstep := readItems_comma (k + qs.length + 1 + 6) d
        ("\n    ".data ++ (json.encodeProfile p ++
          (json.encodeMoreProfiles (q :: qs) ++ ("\n  ".data ++ ']' :: rest))))
        (json.profileValue p)
        ("\n    ".data ++ (json.encodeProfile q ++
          (json.encodeMoreProfiles qs ++ ("\n  ".data ++ ']' :: rest)))) acc
        (by
          have h := readValue_profile (k + qs.length + 1) d
            ("\n    ".data ++ (json.encodeProfile p ++
              (json.encodeMoreProfiles (q :: qs) ++ ("\n  ".data ++ ']' :: rest))))
            (json.encodeMoreProfiles (q :: qs) ++ ("\n  ".data ++ ']' :: rest)) p hd (by rfl)
          rw [h]
          simp only [json.encodeMoreProfiles, List.append_assoc]
          rfl)
      have hfuel : k + (q :: qs).length + 7 = k + qs.length + 1 + 6 + 1 := by
        simp only [List.length_cons]
        omega
      rw [hfuel, hstep, ih q (acc ++ [json.profileValue p]) k rest]
      simp

theorem readValue_array (n d : Nat) (cs r t : List Char)
    (hd : d < json.maxNestingDepth)
    (hcs : json.skipSpace cs = '[' :: r) (hr : json.skipSpace r = '{' :: t) :
    json.readValue (n + 1) d cs = json.readItems n (d + 1) r [] := by
  rw [readValue_succ, hcs]
  show (if d < json.maxNestingDepth then
      (match json.skipSpace r with
        | ']' :: r1 => some (JVal.arr [], r1)
        | _ => json.readItems n (d + 1) r [])
    else none) = _
  rw [if_pos hd, hr]
  rfl

/-- Reading an array without elements. -/
theorem readValue_empty_array (n d : Nat) (cs r : List Char)
    (hd : d < json.maxNestingDepth)
    (hcs : json.skipSpace cs = '[' :: ']' :: r) :
    json.readValue (n + 1) d cs = some (JVal.arr [], r) := by
  rw [readValue_succ, hcs]
  show (if d < json.maxNestingDepth then
      (match json.skipSpace (']' :: r) with
        | ']' :: r1 => some (JVal.arr [], r1)
        | _ => json.readItems n (d + 1) (']' :: r) [])
    else none) = _
  rw [if_pos hd]
  rfl

/-- Reading the value of the `profiles` member. -/
theorem readValue_profiles (d : Nat) (hd : d + 1 < json.maxNestingDepth)
    (ps : List models.Profile) (k : Nat) (rest : List Char) :
    json.readValue (k + ps.length + 8) d (' ' :: (json.encodeProfiles ps ++ ("\n".data ++ rest)))
      = some (JVal.arr (ps.map json.profileValue), "\n".data ++ rest) := by
  have hd0 : d < json.maxNestingDepth := by omega
  cases ps with
  | nil => exact readValue_empty_array _ d _ _ hd0 (by rfl)
  | cons p qs =>
      have hro := readValue_array (k + 1 + qs.length + 7) d
        (' ' :: (json.encodeProfiles (p :: qs) ++ ("\n".data ++ rest)))
        ("\n    ".data ++ (json.encodeProfile p ++
          (json.encodeMoreProfiles qs ++ ("\n  ".data ++ ']' :: ("\n".data ++ rest)))))
        _ hd0
        (by
          simp only [json.encodeProfiles, List.append_assoc]
          rfl)
        (by rw [encodeProfile_append]; rfl)
      have hfuel : k + (p :: qs).length + 8 = k + 1 + qs.length + 7 + 1 := by
        simp only [List.length_cons]
        omega
      rw [hfuel, hro, readItems_profiles (d + 1) hd qs p [] (k + 1) ("\n".data ++ rest)]
      simp

/-- The text of the settings, written as a chain of quoted strings. -/
theorem MarshalIndent_data (s : models.Settings) :
    (json.MarshalIndent s).data =
      '{' :: ("\n  ".data ++ json.quoted "enabled" (':' :: ' ' :: (json.encodeBool s.Enabled ++
        (',' :: ("\n  ".data ++ json.quoted "autoStart" (':' :: ' ' ::
          (json.encodeBool s.AutoStart ++
        (',' :: ("\n  ".data ++ json.quoted "profiles" (':' :: ' ' ::
          (json.encodeProfiles s.Profiles ++ ("\n".data ++ ['}'])))))))))))) := by
  simp only [json.MarshalIndent, List.append_assoc]
  rfl

theorem length_le_encodeMoreProfiles (ps : List models.Profile) :
    ps.length ≤ (json.encodeMoreProfiles ps).length := by
  induction ps with
  | nil => simp [json.encodeMoreProfiles]
  | cons p ps ih =>
      simp only [json.encodeMoreProfiles, List.length_append, List.length_cons]
      have : 1 ≤ ",\n    ".data.length := by decide
      omega

theorem length_le_encodeProfiles (ps : List models.Profile) :
    ps.length ≤ (json.encodeProfiles ps).length := by
  cases ps with
  | nil => simp
  | cons p ps =>
      have h := length_le_encodeMoreProfiles ps
      simp only [json.encodeProfiles, List.length_append, List.length_cons]
      have : 1 ≤ "[\n    ".data.length := by decide
      omega

/-- Reading the text of the settings with enough fuel. -/
theorem readValue_settings (s : models.Settings) (k : Nat) :
    json.readValue (k + s.Profiles.length + 12) 0 (json.MarshalIndent s).data
      = some (json.settingsValue s, []) := by
  rw [MarshalIndent_data]
  rw [readValue_object (k + s.Profiles.length + 11) 0 _ _ "enabled" _ (by decide) (by rfl)
    (by rfl)]
  refine Eq.trans (readMembers_comma_quoted (k + s.Profiles.length + 10) 1 _ "enabled"
    (JVal.bool s.Enabled) _ _ _ (by rfl) (readValue_bool_spaced _ _ _ _)) ?_
  refine Eq.trans (readMembers_comma_quoted (k + s.Profiles.length + 9) 1 _ "autoStart"
    (JVal.bool s.AutoStart) _ _ _ (by rfl) (readValue_bool_spaced _ _ _ _)) ?_
  exact readMembers_close_quoted (k + s.Profiles.length + 8) 1 _ "profiles"
    (JVal.arr (s.Profiles.map json.profileValue)) _ _ [] _
    (by rfl) (readValue_profiles 1 (by decide) s.Profiles k ['}']) (by rfl)

/-- The text of settings whose `Profiles` is `nil`, written as a chain of
quoted strings. -/
theorem MarshalIndentNil_data (s : models.Settings) :
    (json.MarshalIndentNil s).data =
      '{' :: ("\n  ".data ++ json.quoted "enabled" (':' :: ' ' :: (json.encodeBool s.Enabled ++
        (',' :: ("\n  ".data ++ json.quoted "autoStart" (':' :: ' ' ::
          (json.encodeBool s.AutoStart ++
        (',' :: ("\n  ".data ++ json.quoted "profiles" (':' :: ' ' ::
          'n' :: 'u' :: 'l' :: 'l' :: ("\n".data ++ ['}']))))))))))) := by
  simp only [json.MarshalIndentNil, List.append_assoc]
  rfl

/-- Reading the text of settings whose `Profiles` is `nil`. -/
theorem readValue_settings_nil (s : models.Settings) (k : Nat) :
    json.readValue (k + 5) 0 (json.MarshalIndentNil s).data
      = some (JVal.obj [("enabled", JVal.bool s.Enabled), ("autoStart", JVal.bool s.AutoStart),
          ("profiles", JVal.null)], []) := by
  rw [MarshalIndentNil_data]
  rw [readValue_object (k + 4) 0 _ _ "enabled" _ (by decide) (by rfl) (by rfl)]
  refine Eq.trans (readMembers_comma_quoted (k + 3) 1 _ "enabled"
    (JVal.bool s.Enabled) _ _ _ (by rfl) (readValue_bool_spaced _ _ _ _)) ?_
  refine Eq.trans (readMembers_comma_quoted (k + 2) 1 _ "autoStart"
    (JVal.bool s.AutoStart) _ _ _ (by rfl) (readValue_bool_spaced _ _ _ _)) ?_
  exact readMembers_close_quoted (k + 1) 1 _ "profiles" JVal.null _ _ [] _
    (by rfl) (readValue_null_spaced _ _ _) (by rfl)

theorem parse_MarshalIndent (s : models.Settings) :
    json.parse (json.MarshalIndent s) = some (json.settingsValue s) := by
  have hlen : s.Profiles.length + 11 ≤ (json.MarshalIndent s).data.length := by
    have h := length_le_encodeProfiles s.Profiles
    rw [MarshalIndent_data]
    simp only [json.quoted, List.length_append, List.length_cons, List.length_nil]
    omega
  obtain ⟨k, hk⟩ : ∃ k, (json.MarshalIndent s).data.length + 1 = k + s.Profiles.length + 12 :=
    ⟨(json.MarshalIndent s).data.length - (s.Profiles.length + 11), by omega⟩
  unfold json.parse
  rw [hk, readValue_settings s k]
  rfl

theorem parse_MarshalIndentNil (s : models.Settings) :
    json.parse (json.MarshalIndentNil s)
      = some (JVal.obj [("enabled", JVal.bool s.Enabled), ("autoStart", JVal.bool s.AutoStart),
          ("profiles", JVal.null)]) := by
  have hlen : 4 ≤ (json.MarshalIndentNil s).data.length := by
    rw [MarshalIndentNil_data]
    simp only [json.quoted, List.length_append, List.length_cons, List.length_nil]
    omega
  obtain ⟨k, hk⟩ : ∃ k, (json.MarshalIndentNil s).data.length + 1 = k + 5 :=
    ⟨(json.MarshalIndentNil s).data.length - 4, by omega⟩
  unfold json.parse
  rw [hk, readValue_settings_nil s k]
  rfl

theorem decodeProfile_profileValue (p : models.Profile) :
    json.decodeProfile json.zeroProfile (json.profileValue p) = some p := by
  have k1 : json.keyIs "name" "name" = true := by decide
  have k2 : json.keyIs "apiUrl" "name" = false := by decide
  have k3 : json.keyIs "apiUrl" "apiUrl" = true := by decide
  have k4 : json.keyIs "apiKey" "name" = false := by decide
  have k5 : json.keyIs "apiKey" "apiUrl" = false := by decide
  have k6 : json.keyIs "apiKey" "apiKey" = true := by decide
  have k7 : json.keyIs "active" "name" = false := by decide
  have k8 : json.keyIs "active" "apiUrl" = false := by decide
  have k9 : json.keyIs "active" "apiKey" = false := by decide
  have k10 : json.keyIs "active" "active" = true := by decide
  simp [json.decodeProfile, json.zeroProfile, json.profileValue, json.decodeProfileFields,
    json.decodeProfileField, json.decodeString, json.decodeBool,
    k1, k2, k3, k4, k5, k6, k7, k8, k9, k10]

theorem decodeProfileItems_map (ps : List models.Profile) :
    json.decodeProfileItems [] (ps.map json.profileValue) = some ps := by
  induction ps with
  | nil => rfl
  | cons p ps ih =>
      simp [json.decodeProfileItems, decodeProfile_profileValue, ih]

theorem decodeProfiles_map (ps : List models.Profile) :
    json.decodeProfiles [] [] (JVal.arr (ps.map json.profileValue)) = some (ps, []) := by
  cases ps with
  | nil => rfl
  | cons p ps =>
      have h := decodeProfileItems_map (p :: ps)
      simp only [List.map_cons] at h
      simp [json.decodeProfiles, h]

theorem decodeSettings_settingsValue (s : models.Settings) :
    json.decodeSettings (json.settingsValue s) = some s := by
  have k1 : json.keyIs "enabled" "enabled" = true := by decide
  have k2 : json.keyIs "autoStart" "enabled" = false := by decide
  have k3 : json.keyIs "autoStart" "autoStart" = true := by decide
  have k4 : json.keyIs "profiles" "enabled" = false := by decide
  have k5 : json.keyIs "profiles" "autoStart" = false := by decide
  have k6 : json.keyIs "profiles" "profiles" = true := by decide
  simp [json.decodeSettings, json.settingsValue, json.decodeSettingsFields,
    json.decodeSettingsField, json.decodeBool,
    decodeProfiles_map, k1, k2, k3, k4, k5, k6]

/-- Decoding what the encoder wrote gives back the settings. -/
theorem Unmarshal_MarshalIndent (s : models.Settings) :
    json.Unmarshal (json.MarshalIndent s) = some s := by
  unfold json.Unmarshal
  rw [parse_MarshalIndent]
  exact decodeSettings_settingsValue s

/-- Decoding the text the encoder writes for a `nil` list of profiles gives
back the two flags and a list without elements. -/
theorem Unmarshal_MarshalIndentNil (s : models.Settings) :
    json.Unmarshal (json.MarshalIndentNil s)
      = some { Enabled := s.Enabled, AutoStart := s.AutoStart, Profiles := [] } := by
  have k1 : json.keyIs "enabled" "enabled" = true := by decide
  have k2 : json.keyIs "autoStart" "enabled" = false := by decide
  have k3 : json.keyIs "autoStart" "autoStart" = true := by decide
  have k4 : json.keyIs "profiles" "enabled" = false := by decide
  have k5 : json.keyIs "profiles" "autoStart" = false := by decide
  have k6 : json.keyIs "profiles" "profiles" = true := by decide
  unfold json.Unmarshal
  rw [parse_MarshalIndentNil]
  simp [json.decodeSettings, json.decodeSettingsFields,
    json.decodeSettingsField, json.decodeBool, json.decodeProfiles,
    k1, k2, k3, k4, k5, k6]

/-- C4: for every Settings value `s`, when `Save` writes the file (the text of
`json.MarshalIndent`: an object with the keys `enabled`, `autoStart`, `profiles`,
each profile an object with the keys `name`, `apiUrl`, `apiKey`, `active`, indented
by two spaces) and `Load` then reads that file, `Load` succeeds and the
settings it stores are `s` field for field: same `Enabled`, same `AutoStart`, same
profiles in the same order. `Load` is run by any manager `m0` that sees the
world `Save` left, whatever settings `m0` holds in memory beforehand, so the
settings afterwards come from the written bytes alone. The same holds for
the text written for a `nil` list of profiles (`null` in place of the array):
`Load` reads it back as the two flags with no profiles. -/
theorem C4_Save_then_Load (f g : Faults) (m m0 : config.Manager)
    (hw : f.writeSettings = false) (hr : g.readSettings = false)
    (hworld : m0.world = (config.Manager.Save f m).1.world) :
    (config.Manager.Save f m).2 = none ∧
    (config.Manager.Save f m).1.world.settingsFile = some (json.MarshalIndent m.settings) ∧
    config.Manager.Load g m0 = ({ m0 with settings := m.settings }, none) ∧
    (config.Manager.Load g m0).2 = none ∧
    (config.Manager.Load g m0).1.settings = m.settings ∧
    (config.Manager.Load g m0).1.settings.Enabled = m.settings.Enabled ∧
    (config.Manager.Load g m0).1.settings.AutoStart = m.settings.AutoStart ∧
    (config.Manager.Load g m0).1.settings.Profiles = m.settings.Profiles ∧
    (config.Manager.Load g m0).1.world = m0.world ∧
    (∀ m1 : config.Manager,
        m1.world.settingsFile = some (json.MarshalIndentNil m.settings) →
        config.Manager.Load g m1 =
          ({ m1 with settings :=
              { Enabled := m.settings.Enabled, AutoStart := m.settings.AutoStart,
                Profiles := [] } }, none)) := by
  have hfile : m0.world.settingsFile = some (json.MarshalIndent m.settings) := by
    rw [hworld]
    simp [config.Manager.Save, hw]
  have hload : config.Manager.Load g m0 = ({ m0 with settings := m.settings }, none) := by
    simp [config.Manager.Load, hfile, hr, Unmarshal_MarshalIndent]
  refine ⟨by simp [config.Manager.Save, hw], by simp [config.Manager.Save, hw], hload,
    ?_, ?_, ?_, ?_, ?_, ?_, ?_⟩
  · rw [hload]
  · rw [hload]
  · rw [hload]
  · rw [hload]
  · rw [hload]
  · rw [hload]
  · intro m1 h1
    simp [config.Manager.Load, h1, hr, Unmarshal_MarshalIndentNil]

theorem C4_Save_then_Load_witness :
    config.Manager.Load Faults.noFaults
      { settings := { Enabled := false, AutoStart := true, Profiles := [sample.dev] },
        world := { settingsFile := some (json.MarshalIndent sample.settings),
                   claudeFile := JVal.null, autostartOn := false, saveCalls := 1 } }
      = ({ settings := sample.settings,
           world := { settingsFile := some (json.MarshalIndent sample.settings),
                      claudeFile := JVal.null, autostartOn := false, saveCalls := 1 } }, none) :=
  (C4_Save_then_Load Faults.noFaults Faults.noFaults
    { settings := sample.settings, world := sample.world JVal.null }
    { settings := { Enabled := false, AutoStart := true, Profiles := [sample.dev] },
      world := { settingsFile := some (json.MarshalIndent sample.settings),
                 claudeFile := JVal.null, autostartOn := false, saveCalls := 1 } }
    rfl rfl rfl).2.2.1

/-! ## Start-up, twice -/

theorem HasAuthConfig_eq (f : Faults) (file : JVal) :
    claude.HasAuthConfig f file =
      if f.readClaude then
        Except.error (Err.wrap "failed to read settings file" (Err.failed "ReadFile"))
      else
        Except.ok ((gjson.Get claude.tokenPath file).isSome &&
          (gjson.Get claude.baseURLPath file).isSome) := by
  cases h : f.readClaude <;>
    simp [claude.HasAuthConfig, claude.HasAuthToken, claude.HasBaseURL, h]

/-- The settings file holds the settings in memory. -/
theorem persisted_after_loadOrCreate (f : Faults) (w : config.World) (m : config.Manager)
    (h : config.loadOrCreate f w = Except.ok m) :
    (∃ text, m.world.settingsFile = some text ∧ json.Unmarshal text = some m.settings) ∧
    m.world.claudeFile = w.claudeFile ∧ m.world.autostartOn = w.autostartOn := by
  unfold config.loadOrCreate config.Manager.Load at h
  cases hfile : w.settingsFile with
  | some data =>
      simp only [hfile] at h
      cases hr : f.readSettings with
      | true => simp [hr] at h
      | false =>
          simp only [hr, Bool.false_eq_true, if_false] at h
          cases hu : json.Unmarshal data with
          | none => simp [hu] at h
          | some s =>
              simp only [hu, Except.ok.injEq] at h
              subst h
              exact ⟨⟨data, hfile, hu⟩, rfl, rfl⟩
  | none =>
      simp only [hfile] at h
      rw [HasAuthConfig_eq] at h
      cases hr : f.readClaude with
      | true => simp [hr] at h
      | false =>
          simp only [hr, Bool.false_eq_true, if_false, config.Manager.Save] at h
          cases hw : f.writeSettings with
          | true => simp [hw] at h
          | false =>
              simp only [hw, Bool.false_eq_true, if_false, Except.ok.injEq] at h
              subst h
              exact ⟨⟨_, rfl, Unmarshal_MarshalIndent _⟩, rfl, rfl⟩

theorem settled_after_reconcile (f : Faults) (m0 m : config.Manager)
    (hp : ∃ text, m0.world.settingsFile = some text ∧ json.Unmarshal text = some m0.settings)
    (h : config.reconcile f m0 = (m, none)) :
    (∃ text, m.world.settingsFile = some text ∧ json.Unmarshal text = some m.settings) ∧
    m.settings.Enabled = ((gjson.Get claude.tokenPath m.world.claudeFile).isSome &&
      (gjson.Get claude.baseURLPath m.world.claudeFile).isSome) ∧
    m.settings.AutoStart = m.world.autostartOn := by
  obtain ⟨⟨en, au, ps⟩, ⟨sf, cf, ao, sc⟩⟩ := m0
  simp only at hp
  unfold config.reconcile at h
  rw [HasAuthConfig_eq] at h
  simp only at h
  generalize hhas : ((gjson.Get claude.tokenPath cf).isSome &&
    (gjson.Get claude.baseURLPath cf).isSome) = has at h
  cases hr : f.readClaude with
  | true => simp [hr] at h
  | false =>
      cases hs : f.autostartStatus with
      | true => simp [hr, hs] at h
      | false =>
          cases hw : f.writeSettings <;> cases en <;> cases has <;> cases au <;> cases ao <;>
            simp [hr, hs, hw, config.Manager.Save] at h <;>
            (subst h; first
              | exact ⟨hp, hhas.symm, rfl⟩
              | exact ⟨⟨_, rfl, Unmarshal_MarshalIndent _⟩, hhas.symm, rfl⟩)

/-- C5: start-up reconciliation is idempotent. When `NewManager` has run
(loading or creating the settings file, then reconciling the two flags with
the observed state of the credential store and of the auto-start
registration), running it again on the files it left behind, with the same
observed state and readable files, returns the same settings and leaves the
world as it was: the second run calls `Save` not once and writes nothing. -/
theorem C5_startup_idempotent (f g : Faults) (w : config.World) (m : config.Manager)
    (hfirst : config.NewManager f w = Except.ok m)
    (hrs : g.readSettings = false) (hrc : g.readClaude = false)
    (has : g.autostartStatus = false) :
    config.NewManager g m.world = Except.ok m ∧
    (∀ m2, config.NewManager g m.world = Except.ok m2 →
      m2.settings = m.settings ∧ m2.world.saveCalls = m.world.saveCalls ∧
      m2.world.settingsFile = m.world.settingsFile) := by
  have hmain : config.NewManager g m.world = Except.ok m := by
    unfold config.NewManager at hfirst
    cases hl : config.loadOrCreate f w with
    | error e => simp [hl] at hfirst
    | ok m0 =>
        simp only [hl] at hfirst
        cases hrec : config.reconcile f m0 with
        | mk m1 err =>
            cases err with
            | some e => simp [hrec] at hfirst
            | none =>
                simp only [hrec, Except.ok.injEq] at hfirst
                subst hfirst
                obtain ⟨hp, _, _⟩ := persisted_after_loadOrCreate f w m0 hl
                obtain ⟨⟨text, hfile, hun⟩, hen, hau⟩ := settled_after_reconcile f m0 m1 hp hrec
                have hload : config.loadOrCreate g m1.world = Except.ok m1 := by
                  simp [config.loadOrCreate, config.Manager.Load, hfile, hrs, hun]
                have hrec2 : config.reconcile g m1 = (m1, none) := by
                  unfold config.reconcile
                  rw [HasAuthConfig_eq]
                  simp [hrc, has, ← hen, hau]
                simp [config.NewManager, hload, hrec2]
  refine ⟨hmain, ?_⟩
  intro m2 h2
  rw [hmain] at h2
  cases h2
  exact ⟨rfl, rfl, rfl⟩

theorem C5_startup_idempotent_witness :
    config.NewManager Faults.noFaults
      { settingsFile := some (json.MarshalIndent
          { Enabled := false, AutoStart := true, Profiles := [] }),
        claudeFile := JVal.obj [], autostartOn := true, saveCalls := 2 }
      = Except.ok
        { settings := { Enabled := false, AutoStart := true, Profiles := [] },
          world :=
            { settingsFile := some (json.MarshalIndent
                { Enabled := false, AutoStart := true, Profiles := [] }),
              claudeFile := JVal.obj [], autostartOn := true, saveCalls := 2 } } :=
  (C5_startup_idempotent Faults.noFaults Faults.noFaults
    { settingsFile := none, claudeFile := JVal.obj [], autostartOn := true, saveCalls := 0 }
    { settings := { Enabled := false, AutoStart := true, Profiles := [] },
      world :=
        { settingsFile := some (json.MarshalIndent
            { Enabled := false, AutoStart := true, Profiles := [] }),
          claudeFile := JVal.obj [], autostartOn := true, saveCalls := 2 } }
    rfl rfl rfl rfl).1

/-! ## Deleting and updating profiles -/

theorem deleteLoop_fst (name : String) (ps : List models.Profile) :
    (config.deleteLoop name ps).1 = ps.filter (fun p => decide (p.Name ≠ name)) := by
  induction ps with
  | nil => rfl
  | cons p ps ih =>
      unfold config.deleteLoop
      by_cases h : p.Name ≠ name
      · rw [if_pos h]
        simp [List.filter, h, ih]
      · rw [if_neg h]
        simp [List.filter, h, ih]

theorem deleteLoop_snd (name : String) (ps : List models.Profile) :
    (config.deleteLoop name ps).2 = true ↔ ∃ p ∈ ps, p.Name = name := by
  induction ps with
  | nil => simp [config.deleteLoop]
  | cons p ps ih =>
      unfold config.deleteLoop
      by_cases h : p.Name ≠ name
      · rw [if_pos h]
        simp only [ih, List.mem_cons, exists_eq_or_imp]
        constructor
        · intro hx; exact Or.inr hx
        · intro hx
          rcases hx with hx | hx
          · exact absurd hx h
          · exact hx
      · rw [if_neg h]
        have h1 : p.Name = name := not_not.mp h
        simp [h1]

/-- C12, as stated, fails: `DeleteProfile` of a name that exists returns an
error when the write of the settings file fails, so an error is returned
although a profile has that name. -/
theorem C12_counterexample :
    (∃ p ∈ (sample.manager [sample.prod, sample.test] (JVal.obj [])).settings.Profiles,
      p.Name = "prod") ∧
    (config.Manager.DeleteProfile { Faults.noFaults with writeSettings := true }
      (sample.manager [sample.prod, sample.test] (JVal.obj [])) "prod").2
      = some (Err.wrap "failed to write config" (Err.failed "WriteFile")) := by
  constructor
  · exact ⟨sample.prod, by decide, rfl⟩
  · decide

/-- C12 (amended): `DeleteProfile(name)` returns the not-found error if and only
if no profile has exactly that `Name`, and in that case nothing changes, the
profile list included. Otherwise the resulting list is the original list without
the profiles named `name`: it holds no profile with that `Name` and keeps all
other profiles in their original relative order; the call then returns what
`Save` returns, an error only when the write of the settings file fails. -/
theorem C12_DeleteProfile (f : Faults) (m : config.Manager) (name : String) :
    ((m.DeleteProfile f name).2 = some (Err.notFound name) ↔
        ¬ ∃ p ∈ m.settings.Profiles, p.Name = name) ∧
    ((¬ ∃ p ∈ m.settings.Profiles, p.Name = name) →
        m.DeleteProfile f name = (m, some (Err.notFound name))) ∧
    ((∃ p ∈ m.settings.Profiles, p.Name = name) →
        (m.DeleteProfile f name).1.settings.Profiles
          = m.settings.Profiles.filter (fun p => decide (p.Name ≠ name)) ∧
        (∀ q ∈ (m.DeleteProfile f name).1.settings.Profiles, q.Name ≠ name) ∧
        (∀ q ∈ m.settings.Profiles, q.Name ≠ name →
          q ∈ (m.DeleteProfile f name).1.settings.Profiles) ∧
        List.Sublist (m.DeleteProfile f name).1.settings.Profiles m.settings.Profiles ∧
        (f.writeSettings = false → (m.DeleteProfile f name).2 = none) ∧
        (f.writeSettings = true → (m.DeleteProfile f name).2
          = some (Err.wrap "failed to write config" (Err.failed "WriteFile")))) := by
  have hnot : (¬ ∃ p ∈ m.settings.Profiles, p.Name = name) →
      m.DeleteProfile f name = (m, some (Err.notFound name)) := by
    intro h
    have h2 : (config.deleteLoop name m.settings.Profiles).2 = false := by
      cases hh : (config.deleteLoop name m.settings.Profiles).2 with
      | false => rfl
      | true => exact absurd ((deleteLoop_snd _ _).mp hh) h
    simp [config.Manager.DeleteProfile, h2]
  have hyes : (∃ p ∈ m.settings.Profiles, p.Name = name) →
      m.DeleteProfile f name = config.Manager.Save f { m with settings := { m.settings with
        Profiles := m.settings.Profiles.filter (fun p => decide (p.Name ≠ name)) } } := by
    intro h
    have h2 := (deleteLoop_snd name m.settings.Profiles).mpr h
    simp [config.Manager.DeleteProfile, h2, deleteLoop_fst]
  refine ⟨?_, hnot, ?_⟩
  · constructor
    · intro herr hex
      rw [hyes hex] at herr
      unfold config.Manager.Save at herr
      split at herr <;> simp at herr
    · intro h
      rw [hnot h]
  · intro hex
    rw [hyes hex]
    refine ⟨by rw [Save_settings], ?_, ?_, ?_, ?_, ?_⟩
    · intro q hq
      rw [Save_settings] at hq
      simpa using (List.mem_filter.mp hq).2
    · intro q hq hne
      rw [Save_settings]
      exact List.mem_filter.mpr ⟨hq, by simpa using hne⟩
    · rw [Save_settings]
      exact List.filter_sublist _
    · intro hw
      simp [config.Manager.Save, hw]
    · intro hw
      simp [config.Manager.Save, hw]

theorem C12_DeleteProfile_witness :
    (config.Manager.DeleteProfile Faults.noFaults
      (sample.manager [sample.prod, sample.test, sample.dev] (JVal.obj []))
      "test").1.settings.Profiles = [sample.prod, sample.dev] ∧
    config.Manager.DeleteProfile Faults.noFaults
      (sample.manager [sample.prod, sample.test, sample.dev] (JVal.obj [])) "Test"
      = (sample.manager [sample.prod, sample.test, sample.dev] (JVal.obj []),
          some (Err.notFound "Test")) :=
  ⟨((C12_DeleteProfile Faults.noFaults
      (sample.manager [sample.prod, sample.test, sample.dev] (JVal.obj [])) "test").2.2
      ⟨sample.test, by decide, rfl⟩).1,
   (C12_DeleteProfile Faults.noFaults
      (sample.manager [sample.prod, sample.test, sample.dev] (JVal.obj [])) "Test").2.1
      (by decide)⟩

theorem updateLoop_snd_false (name : String) (u : models.Profile) (ps : List models.Profile)
    (h : ¬ ∃ p ∈ ps, p.Name = name) : (config.updateLoop name u ps).2 = false := by
  induction ps with
  | nil => rfl
  | cons p ps ih =>
      unfold config.updateLoop
      have hp : ¬ p.Name = name := fun hn => h ⟨p, List.mem_cons_self _ _, hn⟩
      rw [if_neg hp]
      exact ih (fun ⟨q, hq, hn⟩ => h ⟨q, List.mem_cons_of_mem _ hq, hn⟩)

theorem updateLoop_split (name : String) (u : models.Profile) (pre post : List models.Profile)
    (p : models.Profile) (hpre : ∀ q ∈ pre, q.Name ≠ name) (hp : p.Name = name) :
    config.updateLoop name u (pre ++ p :: post) = (pre ++ u :: post, true) := by
  induction pre with
  | nil => simp [config.updateLoop, hp]
  | cons q pre ih =>
      have hq : ¬ q.Name = name := hpre q (List.mem_cons_self _ _)
      have ih1 := ih (fun r hr => hpre r (List.mem_cons_of_mem _ hr))
      simp [config.updateLoop, hq, ih1]

/-- A list with a profile of the given name splits at the first such profile. -/
theorem split_at_first_name (name : String) (ps : List models.Profile)
    (h : ∃ p ∈ ps, p.Name = name) :
    ∃ pre p post, ps = pre ++ p :: post ∧ (∀ q ∈ pre, q.Name ≠ name) ∧ p.Name = name := by
  induction ps with
  | nil => simp at h
  | cons a ps ih =>
      by_cases ha : a.Name = name
      · exact ⟨[], a, ps, rfl, by simp, ha⟩
      · have h1 : ∃ p ∈ ps, p.Name = name := by
          obtain ⟨q, hq, hn⟩ := h
          rcases List.mem_cons.mp hq with rfl | hq
          · exact absurd hn ha
          · exact ⟨q, hq, hn⟩
        obtain ⟨pre, p, post, hps, hpre, hp⟩ := ih h1
        refine ⟨a :: pre, p, post, by rw [hps]; rfl, ?_, hp⟩
        intro q hq
        rcases List.mem_cons.mp hq with rfl | hq
        · exact ha
        · exact hpre q hq

/-- C13: when no profile has `Name == name`, `UpdateProfile(name, u)` returns the
not-found error and changes nothing. Otherwise the list splits at the first
profile `p` whose `Name` is `name` (no profile before it has that name), and the
list afterwards is the same with `u` in the place of `p`: same length, every
other position as before. The match uses the `name` parameter only; `u`, its
`Name` included, is arbitrary. -/
theorem C13_UpdateProfile (f : Faults) (m : config.Manager) (name : String)
    (u : models.Profile) :
    ((¬ ∃ p ∈ m.settings.Profiles, p.Name = name) →
        m.UpdateProfile f name u = (m, some (Err.notFound name))) ∧
    ((∃ p ∈ m.settings.Profiles, p.Name = name) →
        ∃ pre p post, m.settings.Profiles = pre ++ p :: post ∧
          (∀ q ∈ pre, q.Name ≠ name) ∧ p.Name = name ∧
          (m.UpdateProfile f name u).1.settings.Profiles = pre ++ u :: post ∧
          (m.UpdateProfile f name u).1.settings.Profiles.length
            = m.settings.Profiles.length) := by
  constructor
  · intro h
    simp [config.Manager.UpdateProfile, updateLoop_snd_false name u _ h]
  · intro h
    obtain ⟨pre, p, post, hps, hpre, hp⟩ := split_at_first_name name _ h
    have hloop := updateLoop_split name u pre post p hpre hp
    rw [← hps] at hloop
    have hres : (m.UpdateProfile f name u).1.settings.Profiles = pre ++ u :: post := by
      simp [config.Manager.UpdateProfile, hloop, Save_settings]
    refine ⟨pre, p, post, hps, hpre, hp, hres, ?_⟩
    rw [hres, hps]
    simp

theorem C13_UpdateProfile_witness :
    config.Manager.UpdateProfile Faults.noFaults
      (sample.manager [sample.prod, sample.test] (JVal.obj [])) "dev" sample.dev
      = (sample.manager [sample.prod, sample.test] (JVal.obj []), some (Err.notFound "dev")) ∧
    (∃ pre p post, [sample.prod, sample.test] = pre ++ p :: post ∧
      (∀ q ∈ pre, q.Name ≠ "test") ∧ p.Name = "test" ∧
      (config.Manager.UpdateProfile Faults.noFaults
        (sample.manager [sample.prod, sample.test] (JVal.obj [])) "test"
        sample.dev).1.settings.Profiles = pre ++ sample.dev :: post ∧
      (config.Manager.UpdateProfile Faults.noFaults
        (sample.manager [sample.prod, sample.test] (JVal.obj [])) "test"
        sample.dev).1.settings.Profiles.length = 2) :=
  ⟨(C13_UpdateProfile Faults.noFaults
      (sample.manager [sample.prod, sample.test] (JVal.obj [])) "dev" sample.dev).1 (by decide),
   (C13_UpdateProfile Faults.noFaults
      (sample.manager [sample.prod, sample.test] (JVal.obj [])) "test" sample.dev).2
      ⟨sample.test, by decide, rfl⟩⟩

/-! ## Activating a profile -/

theorem length_setActive (name : String) (ps : List models.Profile) :
    (models.setActive name ps).length = ps.length := by
  induction ps with
  | nil => rfl
  | cons p ps ih => simp [models.setActive, ih]

theorem profileData_setActive (name : String) (ps : List models.Profile) :
    profileData (models.setActive name ps) = profileData ps := by
  induction ps with
  | nil => rfl
  | cons p ps ih =>
      simp only [profileData, models.setActive, List.map_cons] at ih ⊢
      rw [ih]

theorem activeCount_setActive_of_not_mem (name : String) (ps : List models.Profile)
    (h : name ∉ profileNames ps) : activeCount (models.setActive name ps) = 0 := by
  induction ps with
  | nil => rfl
  | cons p ps ih =>
      simp only [profileNames, List.map_cons, List.mem_cons, not_or] at h
      have hp : ¬ p.Name = name := fun hn => h.1 hn.symm
      simp only [models.setActive, activeCount]
      rw [ih h.2]
      simp [hp]

theorem activeCount_setActive_of_nodup (name : String) (ps : List models.Profile)
    (hnd : (profileNames ps).Nodup) (h : name ∈ profileNames ps) :
    activeCount (models.setActive name ps) = 1 := by
  induction ps with
  | nil => simp [profileNames] at h
  | cons p ps ih =>
      simp only [profileNames, List.map_cons, List.nodup_cons, List.mem_cons] at hnd h
      simp only [models.setActive, activeCount]
      by_cases hp : p.Name = name
      · have hnot : name ∉ profileNames ps := by
          rw [← hp]; exact hnd.1
        rw [activeCount_setActive_of_not_mem name ps hnot]
        simp [hp]
      · have hin : name ∈ profileNames ps := by
          rcases h with h | h
          · exact absurd h.symm hp
          · exact h
        rw [ih hnd.2 hin]
        simp [hp]

/-- C16: for every Settings whose profile names are pairwise distinct, whatever
the `Active` flags were, after `SetActiveProfile(name)` exactly one profile is
active when some profile has `Name == name` and none is active otherwise; the
list keeps its length and its order, and every profile keeps its `Name`,
`APIURL` and `APIKey`; `Enabled` and `AutoStart` are not touched either. -/
theorem C16_SetActiveProfile_single (s : models.Settings) (name : String)
    (hnd : (profileNames s.Profiles).Nodup) :
    ((∃ p ∈ s.Profiles, p.Name = name) →
        activeCount (s.SetActiveProfile name).Profiles = 1) ∧
    ((¬ ∃ p ∈ s.Profiles, p.Name = name) →
        activeCount (s.SetActiveProfile name).Profiles = 0) ∧
    (s.SetActiveProfile name).Profiles.length = s.Profiles.length ∧
    profileData (s.SetActiveProfile name).Profiles = profileData s.Profiles ∧
    (s.SetActiveProfile name).Enabled = s.Enabled ∧
    (s.SetActiveProfile name).AutoStart = s.AutoStart := by
  have hmem : name ∈ profileNames s.Profiles ↔ ∃ p ∈ s.Profiles, p.Name = name := by
    simp [profileNames]
  refine ⟨?_, ?_, length_setActive name _, profileData_setActive name _, rfl, rfl⟩
  · intro h
    exact activeCount_setActive_of_nodup name _ hnd (hmem.mpr h)
  · intro h
    exact activeCount_setActive_of_not_mem name _ (fun hin => h (hmem.mp hin))

theorem C16_SetActiveProfile_single_witness :
    activeCount (models.Settings.SetActiveProfile
      { Enabled := true, AutoStart := false, Profiles := [sample.prod, sample.dev, sample.test] }
      "test").Profiles = 1 :=
  (C16_SetActiveProfile_single
    { Enabled := true, AutoStart := false, Profiles := [sample.prod, sample.dev, sample.test] }
    "test" (by decide)).1 ⟨sample.test, by decide, rfl⟩

/-! ## Profile names -/

/-- C14 fails on the code: starting from the empty profile list, `AddProfile(prod)`,
`AddProfile(dev)` and `UpdateProfile("prod", u)` with `u.Name == "dev"` leave two
profiles named `dev`. `UpdateProfile` stores `u` without the name check that
`AddProfile` makes. -/
theorem C14_UpdateProfile_duplicates :
    (∀ c ∈ [(Faults.noFaults, config.Call.AddProfile sample.prod),
            (Faults.noFaults, config.Call.AddProfile sample.dev),
            (Faults.noFaults, config.Call.UpdateProfile "prod"
              { sample.test with Name := "dev" })], c.2.isEdit = true) ∧
    profileNames (config.run (sample.manager [] (JVal.obj []))
        [(Faults.noFaults, config.Call.AddProfile sample.prod),
         (Faults.noFaults, config.Call.AddProfile sample.dev),
         (Faults.noFaults, config.Call.UpdateProfile "prod"
            { sample.test with Name := "dev" })]).settings.Profiles = ["dev", "dev"] ∧
    ¬ (profileNames (config.run (sample.manager [] (JVal.obj []))
        [(Faults.noFaults, config.Call.AddProfile sample.prod),
         (Faults.noFaults, config.Call.AddProfile sample.dev),
         (Faults.noFaults, config.Call.UpdateProfile "prod"
            { sample.test with Name := "dev" })]).settings.Profiles).Nodup := by
  refine ⟨by decide, by decide, by decide⟩

theorem profileNames_append (ps qs : List models.Profile) :
    profileNames (ps ++ qs) = profileNames ps ++ profileNames qs := by
  simp [profileNames]

theorem hasName_eq_false_iff (name : String) (ps : List models.Profile) :
    config.hasName name ps = false ↔ name ∉ profileNames ps := by
  have h := hasName_iff name ps
  have hmem : name ∈ profileNames ps ↔ ∃ p ∈ ps, p.Name = name := by simp [profileNames]
  rw [hmem, ← h]
  cases config.hasName name ps <;> simp

theorem nodup_names_replace (pre post : List models.Profile) (p u : models.Profile)
    (hnd : (profileNames (pre ++ p :: post)).Nodup)
    (hu : u.Name = p.Name ∨ u.Name ∉ profileNames (pre ++ p :: post)) :
    (profileNames (pre ++ u :: post)).Nodup := by
  simp only [profileNames, List.map_append, List.map_cons] at hnd hu ⊢
  rw [List.nodup_middle] at hnd ⊢
  rw [List.nodup_cons] at hnd ⊢
  refine ⟨?_, hnd.2⟩
  rcases hu with hu | hu
  · rw [hu]; exact hnd.1
  · intro hin
    apply hu
    rcases List.mem_append.mp hin with h | h
    · exact List.mem_append.mpr (Or.inl h)
    · exact List.mem_append.mpr (Or.inr (List.mem_cons_of_mem _ h))

theorem step_keeps_names_apart (f : Faults) (m : config.Manager) (c : config.Call)
    (hnd : (profileNames m.settings.Profiles).Nodup)
    (hc : c.keepsNamesApart m.settings.Profiles = true) :
    (profileNames (config.step f m c).1.settings.Profiles).Nodup := by
  cases c with
  | AddProfile p =>
      simp only [config.step, config.Manager.AddProfile]
      cases hh : config.hasName p.Name m.settings.Profiles with
      | true => simpa using hnd
      | false =>
          have hnot := (hasName_eq_false_iff _ _).mp hh
          simp only [Bool.false_eq_true, if_false, Save_settings, profileNames_append]
          rw [List.nodup_append]
          refine ⟨hnd, by simp [profileNames], ?_⟩
          intro a ha hb
          simp only [profileNames, List.map_cons, List.map_nil, List.mem_singleton] at hb
          subst hb
          exact hnot ha
  | DeleteProfile name =>
      simp only [config.step, config.Manager.DeleteProfile]
      split
      · exact hnd
      · rw [Save_settings]
        simp only [deleteLoop_fst, profileNames]
        exact hnd.sublist ((List.filter_sublist _).map _)
  | UpdateProfile name u =>
      by_cases hex : ∃ p ∈ m.settings.Profiles, p.Name = name
      · obtain ⟨pre, p, post, hps, hpre, hp⟩ := split_at_first_name name _ hex
        have hloop := updateLoop_split name u pre post p hpre hp
        rw [← hps] at hloop
        have hres : (config.step f m (config.Call.UpdateProfile name u)).1.settings.Profiles
            = pre ++ u :: post := by
          simp [config.step, config.Manager.UpdateProfile, hloop, Save_settings]
        rw [hres]
        rw [hps] at hnd
        apply nodup_names_replace pre post p u hnd
        simp only [config.Call.keepsNamesApart, Bool.or_eq_true, decide_eq_true_eq,
          Bool.not_eq_true'] at hc
        rcases hc with hc | hc
        · exact Or.inl (hc.trans hp.symm)
        · right
          rw [← hps]
          exact (hasName_eq_false_iff _ _).mp hc
      · have hloop := updateLoop_snd_false name u _ hex
        simpa [config.step, config.Manager.UpdateProfile, hloop] using hnd
  | SetEnabled b => simp [config.Call.keepsNamesApart] at hc
  | SetActiveProfile n => simp [config.Call.keepsNamesApart] at hc
  | SetAutoStart b => simp [config.Call.keepsNamesApart] at hc

/-- Profile names stay pairwise distinct under `AddProfile`, `DeleteProfile` and
those `UpdateProfile` calls that keep the name or take a name no profile has. -/
theorem names_stay_apart (cs : List (Faults × config.Call)) :
    ∀ (m : config.Manager), (profileNames m.settings.Profiles).Nodup →
      config.keepNamesApart m cs →
      (profileNames (config.run m cs).settings.Profiles).Nodup := by
  induction cs with
  | nil => intro m h _; exact h
  | cons c cs ih =>
      intro m hnd hk
      simp only [config.keepNamesApart] at hk
      simp only [config.run]
      exact ih _ (step_keeps_names_apart c.1 m c.2 hnd hk.1) hk.2

/-! ## Activating a profile while enabled or disabled -/

theorem firstActive_setActive_split (name : String) (pre post : List models.Profile)
    (p : models.Profile) (hpre : ∀ q ∈ pre, q.Name ≠ name) (hp : p.Name = name) :
    models.firstActive (models.setActive name (pre ++ p :: post))
      = some { p with Active := true } := by
  induction pre with
  | nil => simp [models.setActive, models.firstActive, hp]
  | cons q pre ih =>
      have hq : ¬ q.Name = name := hpre q (List.mem_cons_self _ _)
      have ih1 := ih (fun r hr => hpre r (List.mem_cons_of_mem _ hr))
      simp only [List.cons_append, models.setActive, models.firstActive]
      simp [hq, ih1]

/-- C11, as stated, fails: with `Enabled == true` and a profile named `test`,
`SetActiveProfile("test")` returns an error when the credential store cannot be
read; the store then holds neither field, the flags are swapped in memory and
nothing is saved. -/
theorem C11_counterexample :
    (∃ p ∈ [sample.prod, sample.test], p.Name = "test") ∧
    (config.Manager.SetActiveProfile { Faults.noFaults with readClaude := true }
      { settings := { Enabled := true, AutoStart := false,
                      Profiles := [sample.prod, sample.test] },
        world := sample.world (JVal.obj []) } "test").2 ≠ none ∧
    (gjson.Get claude.tokenPath
      (config.Manager.SetActiveProfile { Faults.noFaults with readClaude := true }
        { settings := { Enabled := true, AutoStart := false,
                        Profiles := [sample.prod, sample.test] },
          world := sample.world (JVal.obj []) } "test").1.world.claudeFile).isSome = false ∧
    (config.Manager.SetActiveProfile { Faults.noFaults with readClaude := true }
      { settings := { Enabled := true, AutoStart := false,
                      Profiles := [sample.prod, sample.test] },
        world := sample.world (JVal.obj []) } "test").1.world.saveCalls = 0 := by
  refine ⟨⟨sample.test, by decide, rfl⟩, by decide, by decide, by decide⟩

/-- C11 (amended): `Manager.SetActiveProfile(name)` pushes credentials only if
`Enabled` is true. When `Enabled == false` the call is exactly the swap of the
`Active` flags followed by `Save`: the credential store is left as it was,
whatever it holds and whether or not it can be read or written, the flags are
swapped, `Save` is called once and, when the write succeeds, the settings file
holds the swapped settings. When `Enabled == true`, `p` is the first profile
named `name` and the call succeeds, the store afterwards holds `p.APIKey` and
`p.APIURL` at the two credential fields, whatever it held there before. -/
theorem C11_SetActiveProfile_push (f : Faults) (m : config.Manager) (name : String) :
    (m.settings.Enabled = false →
      m.SetActiveProfile f name
        = config.Manager.Save f { m with settings := m.settings.SetActiveProfile name } ∧
      (m.SetActiveProfile f name).1.world.claudeFile = m.world.claudeFile ∧
      (m.SetActiveProfile f name).1.settings.Profiles
        = models.setActive name m.settings.Profiles ∧
      (m.SetActiveProfile f name).1.world.saveCalls = m.world.saveCalls + 1 ∧
      (f.writeSettings = false →
        (m.SetActiveProfile f name).2 = none ∧
        (m.SetActiveProfile f name).1.world.settingsFile
          = some (json.MarshalIndent (m.settings.SetActiveProfile name)))) ∧
    (m.settings.Enabled = true →
      ∀ pre p post, m.settings.Profiles = pre ++ p :: post →
        (∀ q ∈ pre, q.Name ≠ name) → p.Name = name →
        (m.SetActiveProfile f name).2 = none →
        gjson.Get claude.tokenPath (m.SetActiveProfile f name).1.world.claudeFile
          = some (JVal.str p.APIKey) ∧
        gjson.Get claude.baseURLPath (m.SetActiveProfile f name).1.world.claudeFile
          = some (JVal.str p.APIURL) ∧
        (m.SetActiveProfile f name).1.settings.Profiles
          = models.setActive name m.settings.Profiles) := by
  constructor
  · intro hen
    have hE : (m.settings.SetActiveProfile name).Enabled = false := hen
    have hcall : m.SetActiveProfile f name
        = config.Manager.Save f { m with settings := m.settings.SetActiveProfile name } := by
      simp [config.Manager.SetActiveProfile, hE]
    rw [hcall]
    refine ⟨rfl, Save_claudeFile f _, by rw [Save_settings]; rfl, ?_, ?_⟩
    · unfold config.Manager.Save
      split <;> rfl
    · intro hw
      simp [config.Manager.Save, hw]
  · intro hen pre p post hps hpre hp hok
    obtain ⟨hs, _, hpush⟩ := SetActiveProfile_ok f m name hok
    have hga : (m.settings.SetActiveProfile name).GetActiveProfile
        = some { p with Active := true } := by
      simp only [models.Settings.GetActiveProfile, models.Settings.SetActiveProfile, hps]
      exact firstActive_setActive_split name pre post p hpre hp
    have hset := hpush hen _ hga
    have hget := Get_after_SetAuthConfig f _ _ _ _ hset
    exact ⟨hget.1, hget.2, by rw [hs]; rfl⟩

theorem C11_SetActiveProfile_push_witness :
    gjson.Get claude.tokenPath
      (config.Manager.SetActiveProfile Faults.noFaults
        { settings := { Enabled := true, AutoStart := false,
                        Profiles := [sample.prod, sample.test, sample.dev] },
          world := sample.world (JVal.obj [("env", JVal.obj
            [("ANTHROPIC_AUTH_TOKEN", JVal.str "k1"), ("KEEP", JVal.num "1")])]) }
        "test").1.world.claudeFile = some (JVal.str "k3") ∧
    (config.Manager.SetActiveProfile { Faults.noFaults with readClaude := true }
        (sample.manager [sample.prod, sample.test] (JVal.arr [])) "test").1.world.claudeFile
      = JVal.arr [] :=
  ⟨((C11_SetActiveProfile_push Faults.noFaults
      { settings := { Enabled := true, AutoStart := false,
                      Profiles := [sample.prod, sample.test, sample.dev] },
        world := sample.world (JVal.obj [("env", JVal.obj
          [("ANTHROPIC_AUTH_TOKEN", JVal.str "k1"), ("KEEP", JVal.num "1")])]) }
      "test").2 rfl [sample.prod] sample.test [sample.dev] rfl (by decide) rfl rfl).1,
   ((C11_SetActiveProfile_push { Faults.noFaults with readClaude := true }
      (sample.manager [sample.prod, sample.test] (JVal.arr [])) "test").1 rfl).2.1⟩

/-! ## What the patch of the credential store leaves alone -/

theorem scan_replaceMember_ne (k e : String) (hne : k ≠ e) (l : Bool)
    (g : JVal → Option JVal) (new : JVal) (ms : List (String × JVal)) :
    gjson.scan k l g (replaceMember e new ms) = gjson.scan k l g ms := by
  induction ms with
  | nil => rfl
  | cons m ms ih =>
      unfold replaceMember
      by_cases hm : m.1 = e
      · have hmk : ¬ m.1 = k := fun h => hne (h.symm.trans hm)
        simp [hm, gjson.scan, hmk, Ne.symm hne]
      · simp only [hm, if_false]
        unfold gjson.scan
        rw [ih]

theorem scan_removeMember_ne (k e : String) (hne : k ≠ e) (l : Bool)
    (g : JVal → Option JVal) (ms : List (String × JVal)) :
    gjson.scan k l g (removeMember e ms) = gjson.scan k l g ms := by
  induction ms with
  | nil => rfl
  | cons m ms ih =>
      unfold removeMember
      by_cases hm : m.1 = e
      · have hmk : ¬ m.1 = k := fun h => hne (h.symm.trans hm)
        simp [hm, gjson.scan, hmk, Ne.symm hne]
      · simp only [hm, if_false]
        unfold gjson.scan
        rw [ih]

theorem scan_append_ne (k e : String) (hne : k ≠ e) (l : Bool)
    (g : JVal → Option JVal) (x : JVal) (ms : List (String × JVal)) :
    gjson.scan k l g (ms ++ [(e, x)]) = gjson.scan k l g ms := by
  induction ms with
  | nil => simp [gjson.scan, Ne.symm hne]
  | cons m ms ih =>
      simp only [List.cons_append]
      unfold gjson.scan
      rw [ih]

theorem Get_cons_obj (k : String) (rest : List String) (ms : List (String × JVal)) :
    gjson.Get (k :: rest) (JVal.obj ms) = gjson.scan k rest.isEmpty (gjson.Get rest) ms := by
  simp [gjson.Get]

/-- Below a value that `sjson.setAt` patched at the name `b`, every path that
starts with another name leads where it led before. -/
theorem Get_setAt_one_other (a b : String) (hab : a ≠ b) (rest : List String)
    (old v new : JVal) (h : sjson.setAt [b] old v = some new) :
    gjson.Get (a :: rest) new = gjson.Get (a :: rest) old := by
  cases old with
  | obj inner =>
      simp only [sjson.setAt] at h
      cases hf : findMember b inner with
      | none =>
          simp only [hf, Option.some.injEq, sjson.build] at h
          subst h
          rw [Get_cons_obj, Get_cons_obj, scan_append_ne a b hab]
      | some x =>
          simp only [hf, Option.some.injEq] at h
          subst h
          rw [Get_cons_obj, Get_cons_obj, scan_replaceMember_ne a b hab]
  | arr xs => simp [sjson.setAt] at h
  | null =>
      simp [sjson.setAt, sjson.build] at h; subst h
      simp [gjson.Get, gjson.scan, Ne.symm hab]
  | bool x =>
      simp [sjson.setAt, sjson.build] at h; subst h
      simp [gjson.Get, gjson.scan, Ne.symm hab]
  | num r =>
      simp [sjson.setAt, sjson.build] at h; subst h
      simp [gjson.Get, gjson.scan, Ne.symm hab]
  | str s =>
      simp [sjson.setAt, sjson.build] at h; subst h
      simp [gjson.Get, gjson.scan, Ne.symm hab]

theorem Get_Delete_one_other (a b : String) (hab : a ≠ b) (rest : List String) (old : JVal) :
    gjson.Get (a :: rest) (sjson.Delete [b] old) = gjson.Get (a :: rest) old := by
  rcases obj_or_not old with ⟨inner, rfl⟩ | hno
  · rw [Delete_one_obj, Get_cons_obj, Get_cons_obj, scan_removeMember_ne a b hab]
  · rw [Delete_one_not_obj b old hno]

/-- A path that does not start with `e` leads where it led before the set at `e.b`. -/
theorem Get_setAt_two_head_ne (e b k : String) (hk : k ≠ e) (rest : List String)
    (doc v d : JVal) (h : sjson.setAt [e, b] doc v = some d) :
    gjson.Get (k :: rest) d = gjson.Get (k :: rest) doc := by
  rcases setAt_two_cases e b doc v d h with
    ⟨ms, old, new, rfl, _, _, rfl⟩ | ⟨ms, rfl, _, rfl⟩ | ⟨hno, rfl⟩
  · rw [Get_cons_obj, Get_cons_obj, scan_replaceMember_ne k e hk]
  · rw [Get_cons_obj, Get_cons_obj, scan_append_ne k e hk]
  · rw [Get_of_not_obj _ doc hno, Get_cons_obj]
    simp [gjson.scan, Ne.symm hk]

/-- A path below `e` that goes on with a name other than `b` leads where it led
before the set at `e.b`. -/
theorem Get_setAt_two_second_ne (e a b : String) (hab : a ≠ b) (rest : List String)
    (doc v d : JVal) (h : sjson.setAt [e, b] doc v = some d) :
    gjson.Get (e :: a :: rest) d = gjson.Get (e :: a :: rest) doc := by
  rcases setAt_two_cases e b doc v d h with
    ⟨ms, old, new, rfl, hf, hn, rfl⟩ | ⟨ms, rfl, hf, rfl⟩ | ⟨hno, rfl⟩
  · rw [Get_cons_obj, Get_cons_obj]
    simp only [List.isEmpty_cons]
    rw [scan_replaceMember e _ new old ms hf, scan_first e _ ms old hf,
      Get_setAt_one_other a b hab rest old v new hn]
  · rw [Get_cons_obj, Get_cons_obj]
    simp only [List.isEmpty_cons]
    rw [scan_first e _ _ _ (findMember_append_of_none e _ ms hf),
      laterHits_append_of_none e _ _ ms hf, scan_of_findMember_none e _ _ ms hf]
    simp [gjson.Get, gjson.scan, Ne.symm hab]
  · rw [Get_of_not_obj _ doc hno]
    simp [gjson.Get, gjson.scan, Ne.symm hab]

theorem Get_Delete_two_head_ne (e b k : String) (hk : k ≠ e) (rest : List String)
    (doc : JVal) :
    gjson.Get (k :: rest) (sjson.Delete [e, b] doc) = gjson.Get (k :: rest) doc := by
  rcases Delete_two_cases e b doc with ⟨ms, old, rfl, _, hd⟩ | ⟨_, hd⟩
  · rw [hd, Get_cons_obj, Get_cons_obj, scan_replaceMember_ne k e hk]
  · rw [hd]

theorem Get_Delete_two_second_ne (e a b : String) (hab : a ≠ b) (rest : List String)
    (doc : JVal) :
    gjson.Get (e :: a :: rest) (sjson.Delete [e, b] doc) = gjson.Get (e :: a :: rest) doc := by
  rcases Delete_two_cases e b doc with ⟨ms, old, rfl, hf, hd⟩ | ⟨_, hd⟩
  · rw [hd, Get_cons_obj, Get_cons_obj]
    simp only [List.isEmpty_cons]
    rw [scan_replaceMember e _ _ old ms hf, scan_first e _ ms old hf,
      Get_Delete_one_other a b hab rest old]
  · rw [hd]

/-- A failed `SetAuthConfig` leaves the document as it was. -/
theorem SetAuthConfig_err (f : Faults) (file : JVal) (apiKey apiURL : String) (e : Err)
    (h : (claude.SetAuthConfig f file apiKey apiURL).2 = some e) :
    (claude.SetAuthConfig f file apiKey apiURL).1 = file := by
  unfold claude.SetAuthConfig at h ⊢
  cases hr : f.readClaude with
  | true => simp
  | false =>
      simp only [hr, Bool.false_eq_true, if_false] at h ⊢
      cases h1 : sjson.Set claude.tokenPath file apiKey with
      | none => simp
      | some d =>
          simp only [h1] at h ⊢
          cases h2 : sjson.Set claude.baseURLPath d apiURL with
          | none => simp
          | some d2 =>
              simp only [h2] at h ⊢
              cases hw : f.writeClaude with
              | true => simp
              | false => simp [hw] at h

/-- A path off the two credential fields, segment by segment. -/
theorem outsidePatch_cases (p : List String) (hp : claude.outsidePatch p = true) :
    p = [] ∨ (∃ k rest, p = k :: rest ∧ k ≠ "env") ∨
    (∃ a rest, p = "env" :: a :: rest ∧ a ≠ "ANTHROPIC_AUTH_TOKEN" ∧ a ≠ "ANTHROPIC_BASE_URL") := by
  match p, hp with
  | [], _ => exact Or.inl rfl
  | [k], hp =>
      simp only [claude.outsidePatch, decide_eq_true_eq] at hp
      exact Or.inr (Or.inl ⟨k, [], rfl, hp⟩)
  | k :: k2 :: rest, hp =>
      simp only [claude.outsidePatch, Bool.or_eq_true, Bool.and_eq_true, decide_eq_true_eq] at hp
      by_cases hk : k = "env"
      · subst hk
        rcases hp with hp | hp
        · exact absurd rfl hp
        · exact Or.inr (Or.inr ⟨k2, rest, rfl, hp.1, hp.2⟩)
      · exact Or.inr (Or.inl ⟨k, k2 :: rest, rfl, hk⟩)

theorem Get_after_two_sets (p : List String) (hp : claude.outsidePatch p = true)
    (doc d1 d2 v1 v2 : JVal)
    (h1 : sjson.setAt claude.tokenPath doc v1 = some d1)
    (h2 : sjson.setAt claude.baseURLPath d1 v2 = some d2) :
    gjson.Get p d2 = gjson.Get p doc := by
  rcases outsidePatch_cases p hp with rfl | ⟨k, rest, rfl, hk⟩ | ⟨a, rest, rfl, ha1, ha2⟩
  · simp [gjson.Get]
  · rw [Get_setAt_two_head_ne _ _ k hk rest d1 v2 d2 h2,
      Get_setAt_two_head_ne _ _ k hk rest doc v1 d1 h1]
  · rw [Get_setAt_two_second_ne _ a _ ha2 rest d1 v2 d2 h2,
      Get_setAt_two_second_ne _ a _ ha1 rest doc v1 d1 h1]

theorem Get_after_two_deletes (p : List String) (hp : claude.outsidePatch p = true)
    (doc : JVal) :
    gjson.Get p (sjson.Delete claude.baseURLPath (sjson.Delete claude.tokenPath doc))
      = gjson.Get p doc := by
  rcases outsidePatch_cases p hp with rfl | ⟨k, rest, rfl, hk⟩ | ⟨a, rest, rfl, ha1, ha2⟩
  · simp [gjson.Get]
  · simp only [claude.baseURLPath, claude.tokenPath]
    rw [Get_Delete_two_head_ne _ _ k hk, Get_Delete_two_head_ne _ _ k hk]
  · simp only [claude.baseURLPath, claude.tokenPath]
    rw [Get_Delete_two_second_ne _ a _ ha2, Get_Delete_two_second_ne _ a _ ha1]

/-- C15, as stated, fails at paths other than the two fields: setting the two
fields in a document without `env` creates a value at the path `env`, and
removing them drops what lay below a field (here `env.ANTHROPIC_AUTH_TOKEN.id`). -/
theorem C15_counterexample :
    (["env"] ≠ claude.tokenPath ∧ ["env"] ≠ claude.baseURLPath ∧
      (gjson.Get ["env"] (JVal.obj [("model", JVal.str "x")])).isSome = false ∧
      (gjson.Get ["env"]
        (claude.SetAuthConfig Faults.noFaults (JVal.obj [("model", JVal.str "x")])
          "k1" "https://x").1).isSome = true) ∧
    (["env", "ANTHROPIC_AUTH_TOKEN", "id"] ≠ claude.tokenPath ∧
      ["env", "ANTHROPIC_AUTH_TOKEN", "id"] ≠ claude.baseURLPath ∧
      (gjson.Get ["env", "ANTHROPIC_AUTH_TOKEN", "id"]
        (JVal.obj [("env", JVal.obj
          [("ANTHROPIC_AUTH_TOKEN", JVal.obj [("id", JVal.num "1")])])])).isSome = true ∧
      (gjson.Get ["env", "ANTHROPIC_AUTH_TOKEN", "id"]
        (claude.RemoveAuthConfig Faults.noFaults
          (JVal.obj [("env", JVal.obj
            [("ANTHROPIC_AUTH_TOKEN", JVal.obj [("id", JVal.num "1")])])])).1).isSome = false) := by
  refine ⟨⟨by decide, by decide, by decide, by decide⟩, ⟨by decide, by decide, by decide, by decide⟩⟩

/-- C15 (amended): `SetAuthConfig` and `RemoveAuthConfig` patch the two fields
`env.ANTHROPIC_AUTH_TOKEN` and `env.ANTHROPIC_BASE_URL` and nothing beside them:
for every document in the credential store and every key path that is not
`env`, not one of the two fields and not below one of them, that is every path
whose first segment is not `env` and every path below `env` that goes on with a
name other than the two field names, the value at that path after
`SetAuthConfig(apiKey, apiURL)` and after `RemoveAuthConfig()` equals the value
before, whether the call succeeds or fails (other top-level keys and other
keys under `env` are preserved). -/
theorem C15_patch_leaves_other_paths (f : Faults) (doc : JVal) (apiKey apiURL : String)
    (p : List String) (hp : claude.outsidePatch p = true) :
    gjson.Get p (claude.SetAuthConfig f doc apiKey apiURL).1 = gjson.Get p doc ∧
    gjson.Get p (claude.RemoveAuthConfig f doc).1 = gjson.Get p doc := by
  constructor
  · cases hr : claude.SetAuthConfig f doc apiKey apiURL with
    | mk file1 err =>
        cases err with
        | some e =>
            have h := SetAuthConfig_err f doc apiKey apiURL e (by rw [hr])
            rw [hr] at h
            simp only at h
            rw [h]
        | none =>
            obtain ⟨d, h1, h2⟩ := SetAuthConfig_ok f doc apiKey apiURL file1 hr
            exact Get_after_two_sets p hp doc d file1 _ _ h1 h2
  · unfold claude.RemoveAuthConfig
    cases hr : f.readClaude with
    | true => simp
    | false =>
        cases hw : f.writeClaude with
        | true => simp
        | false =>
            simp only [Bool.false_eq_true, if_false]
            exact Get_after_two_deletes p hp doc

theorem C15_patch_leaves_other_paths_witness :
    gjson.Get ["env", "PATH"]
      (claude.SetAuthConfig Faults.noFaults
        (JVal.obj [("model", JVal.str "x"),
          ("env", JVal.obj [("PATH", JVal.str "/bin"), ("ANTHROPIC_BASE_URL", JVal.str "old")])])
        "k1" "https://x").1
      = gjson.Get ["env", "PATH"]
        (JVal.obj [("model", JVal.str "x"),
          ("env", JVal.obj [("PATH", JVal.str "/bin"), ("ANTHROPIC_BASE_URL", JVal.str "old")])]) ∧
    gjson.Get ["model"]
      (claude.RemoveAuthConfig Faults.noFaults
        (JVal.obj [("model", JVal.str "x"),
          ("env", JVal.obj [("PATH", JVal.str "/bin"), ("ANTHROPIC_BASE_URL", JVal.str "old")])])).1
      = gjson.Get ["model"]
        (JVal.obj [("model", JVal.str "x"),
          ("env", JVal.obj [("PATH", JVal.str "/bin"), ("ANTHROPIC_BASE_URL", JVal.str "old")])]) :=
  ⟨(C15_patch_leaves_other_paths Faults.noFaults
      (JVal.obj [("model", JVal.str "x"),
        ("env", JVal.obj [("PATH", JVal.str "/bin"), ("ANTHROPIC_BASE_URL", JVal.str "old")])])
      "k1" "https://x" ["env", "PATH"] (by decide)).1,
   (C15_patch_leaves_other_paths Faults.noFaults
      (JVal.obj [("model", JVal.str "x"),
        ("env", JVal.obj [("PATH", JVal.str "/bin"), ("ANTHROPIC_BASE_URL", JVal.str "old")])])
      "k1" "https://x" ["model"] (by decide)).2⟩
